import Mathlib

/-! Swan application state machine.

A shallow embedding of `src/manager/framework/state/app.go`: the `App` life cycle
(`NewApp`, `ScaleUp`, `ScaleDown`, `Delete`, `Update`, `ProceedingRollingUpdate`,
`CancelUpdate`, `Reevaluate`), version validation and the write-coalescing helpers
(`Touch`, `BeginTx`, `Commit`).

Modelling conventions

* `*types.Version` values are addresses (`VPtr`) into a heap of version objects, so that
  in-place mutation (`app.CurrentVersion.Instances += ...`) and pointer comparison
  (`slot.Version == app.CurrentVersion`) behave as in Go. A nil-able pointer is an `Option`.
* Go's `int` is modelled by `Int`, without a bound; an `int32` is an integer of the signed
  32-bit range (`GoInt32`) and the narrowing conversion `int32(..)` wraps around (`int32`).
* Calls that leave the `App` object (store writes, task dispatch, task kill) are recorded,
  in program order, in the `trace` of the `World`.
* A run-time panic (nil dereference) is an explicit outcome.
-/

namespace Swan

/-! ## Values -/

/-- Go's type `int32`: the integers of the signed 32-bit range. The conversion `int(x)` of
such a value is its `val`. -/
abbrev GoInt32 := { x : Int // -2147483648 ≤ x ∧ x ≤ 2147483647 }

/-- Go's conversion `int32(x)`: wrap-around into the signed 32-bit range. -/
def int32 (x : Int) : GoInt32 :=
  ⟨(x + 2147483648) % 4294967296 - 2147483648, by omega⟩

/-- What `app.go` uses without defining it and what no other source file defines: the
functions `strings.ToLower` and `strings.TrimSpace` of Go's standard library and the
package constant `SWAN_RESERVED_NETWORK`. The model takes them as a parameter. -/
structure Env where
  ToLower : String → String
  TrimSpace : String → String
  SWAN_RESERVED_NETWORK : String

/-- An ASCII instance of `Env`, for evaluating the model on concrete inputs. -/
def asciiEnv : Env where
  ToLower := fun s => String.mk (s.data.map Char.toLower)
  TrimSpace := fun s =>
    String.mk ((s.data.dropWhile Char.isWhitespace).reverse.dropWhile Char.isWhitespace).reverse
  SWAN_RESERVED_NETWORK := "swan"

/-- Modelled from the spec: `types.PortMapping` (package `types` is not among the sources);
only the port-mapping name is read by `app.go`. -/
structure PortMapping where
  Name : String
deriving DecidableEq, Repr

/-- Modelled from the spec: `types.Docker`, the docker part of the container spec (image,
network, port mappings); `app.go` reads the network and the port mappings. -/
structure Docker where
  Network : String
  PortMappings : List PortMapping
deriving DecidableEq, Repr

/-- Modelled from the spec: `types.Container`; its `Docker` field is a nil-able pointer. -/
structure Container where
  Docker : Option Docker
deriving DecidableEq, Repr

/-- Modelled from the spec: `types.HealthCheck`; `app.go` reads the port name, the protocol
and the path. -/
structure HealthCheck where
  PortName : String
  Protocol : String
  Path : String
deriving DecidableEq, Repr

/-- Modelled from the spec: `types.Version`, the declarative specification of an
application (section 3 of the spec): identifier, previous-version back-pointer, mode,
desired instance count (an `int32`), container spec, static IPs, health checks. -/
structure Version where
  ID : String
  PerviousVersionID : String
  AppId : String
  RunAs : String
  Mode : String
  Instances : GoInt32
  Ip : List String
  Container : Option Container
  HealthChecks : List HealthCheck
deriving DecidableEq, Repr

/-- The address of a version object (a non-nil `*types.Version`). -/
abbrev VPtr := Nat

/-- The version objects, by address. -/
abbrev Heap := VPtr → Version

/-- Store the version object `v` at address `p`. -/
def Heap.set (h : Heap) (p : VPtr) (v : Version) : Heap :=
  fun q => if q = p then v else h q

/-- Modelled from the spec: the life-cycle states of a slot (section 4.5 of the spec);
`state/slot.go` is not among the sources. -/
inductive SlotState where
  | pendingOffer
  | assigned
  | starting
  | running
  | killing
  | killed
  | failed
  | lost
deriving DecidableEq, Repr

/-- Modelled from the spec: the `Slot` type (`state/slot.go` is not among the sources).
Section 3 of the spec: a slot is identified by its index, points to the version it is bound
to, has a life-cycle state and the two intent flags `markForRollingUpdate` and
`markForDeletion`. -/
structure Slot where
  Index : Int
  Version : VPtr
  State : SlotState
  markForRollingUpdate : Bool
  markForDeletion : Bool
deriving DecidableEq, Repr

/-- The slot map `map[int]*Slot`: a finite map without duplicate keys. An app owns its slots
exclusively, so a slot object is identified with its entry in the map. -/
abbrev SlotMap := AList (fun _ : Int => Slot)

/-- The calls that leave the `App` object, as they are recorded in the trace: the three
writes to the persistent store that `app.go` issues through `WithConvertApp`, and the calls
into the slot layer that start, replace or kill a task. -/
inductive Effect where
  | CreateApp
  | UpdateApp
  | CommitAppProposeVersion
  | DispatchNewTask (index : Int) (version : VPtr)
  | UpdateTask (index : Int) (version : VPtr) (isRollingUpdate : Bool)
  | Kill (index : Int)
  | Remove (index : Int)
deriving DecidableEq, Repr

/-! ## The app -/

def APP_MODE_FIXED : String := "fixed"

def APP_MODE_REPLICATES : String := "replicates"

def APP_STATE_NORMAL : String := "normal"

def APP_STATE_MARK_FOR_CREATING : String := "creating"

def APP_STATE_MARK_FOR_DELETION : String := "deleting"

def APP_STATE_MARK_FOR_UPDATING : String := "updating"

def APP_STATE_MARK_FOR_CANCEL_UPDATE : String := "cancel_update"

def APP_STATE_MARK_FOR_SCALE_UP : String := "scale_up"

def APP_STATE_MARK_FOR_SCALE_DOWN : String := "scale_down"

/-- The struct `App`. `Versions` is a slice of nil-able pointers; `Created` and `Updated`
are Unix times. The fields `slotsLock`, `Scontext` and `OfferAllocatorRef` carry no state of
the life cycle and are left out. -/
structure App where
  AppId : String
  Versions : List (Option VPtr)
  slots : SlotMap
  CurrentVersion : Option VPtr
  ProposedVersion : Option VPtr
  Mode : String
  Created : Int
  Updated : Int
  State : String
  ClusterId : String
  inTransaction : Bool
  touched : Bool

/-- An app together with the version objects it points to and the trace of the calls it has
made (oldest first). -/
structure World where
  heap : Heap
  app : App
  trace : List Effect

/-- The outcome of an operation that returns an `error`: it returned nil, it returned an
error, or it panicked on a nil pointer. -/
inductive Outcome where
  | ok (w : World)
  | error (msg : String) (w : World)
  | panic

/-- The world an operation has left behind, when it returned. -/
def Outcome.world? : Outcome → Option World
  | .ok w => some w
  | .error _ w => some w
  | .panic => none

/-- Whether the operation returned an error. -/
def Outcome.isError : Outcome → Bool
  | .error _ _ => true
  | _ => false

/-- Whether the operation returned without an error. -/
def Outcome.isOk : Outcome → Bool
  | .ok _ => true
  | _ => false

/-! ## The slot layer -/

/-- Modelled from the spec: `NewSlot(app, version, index)` of the missing `state/slot.go`
constructs the slot with the given index, bound to the given version, in `PENDING_OFFER`,
with both intent flags unset. -/
def NewSlot (version : VPtr) (index : Int) : Slot :=
  { Index := index, Version := version, State := .pendingOffer,
    markForRollingUpdate := false, markForDeletion := false }

/-- Modelled from the spec: `slot.DispatchNewTask(version)` of the missing `state/slot.go`
creates a task of the given version for the slot, which then waits for an offer. -/
def Slot.DispatchNewTask (s : Slot) (version : VPtr) : Slot :=
  { s with Version := version, State := .pendingOffer }

/-- Modelled from the spec: the intent to kill the current task of a slot (section 4.5 of the
spec): a slot in `ASSIGNED`, `STARTING` or `RUNNING` moves to `KILLING`. -/
def Slot.KillTask (s : Slot) : Slot :=
  if s.State = .assigned ∨ s.State = .starting ∨ s.State = .running then
    { s with State := .killing }
  else s

/-- Modelled from the spec: `slot.UpdateTask(version, isRollingUpdate)` of the missing
`state/slot.go` binds the slot to `version`, sets its rolling-update flag and replaces its
task (the current task is killed). -/
def Slot.UpdateTask (s : Slot) (version : VPtr) (isRollingUpdate : Bool) : Slot :=
  { s.KillTask with Version := version, markForRollingUpdate := isRollingUpdate }

/-- Modelled from the spec: `slot.Kill()` of the missing `state/slot.go` kills the task and
marks the slot for deletion, so that the slot is removed once it reaches `KILLED`. -/
def Slot.Kill (s : Slot) : Slot :=
  { s.KillTask with markForDeletion := true }

/-- Modelled from the spec: `slot.SetMarkForRollingUpdate(b)` of the missing
`state/slot.go` sets the rolling-update flag. -/
def Slot.SetMarkForRollingUpdate (s : Slot) (b : Bool) : Slot :=
  { s with markForRollingUpdate := b }

/-- Apply `f` to every slot of the map (`for _, slot := range app.slots`). -/
def SlotMap.mapSlots (f : Slot → Slot) (m : SlotMap) : SlotMap :=
  ⟨m.entries.map (fun e => ⟨e.1, f e.2⟩), by
    have h := m.nodupKeys
    unfold List.NodupKeys at *
    have hk : (m.entries.map (fun e => (⟨e.1, f e.2⟩ : Sigma (fun _ : Int => Slot)))).keys
        = m.entries.keys := by
      simp [List.keys, List.map_map, Function.comp]
    rw [hk]; exact h⟩

/-! ## Storage related helpers of `App` -/

/-- The method `app.update()`: one `UpdateApp` write, then `touched = false`. -/
def update (w : World) : World :=
  { w with trace := w.trace ++ [Effect.UpdateApp], app := { w.app with touched := false } }

/-- The method `app.create()`: one `CreateApp` write, then `touched = false`. -/
def create (w : World) : World :=
  { w with trace := w.trace ++ [Effect.CreateApp], app := { w.app with touched := false } }

/-- The method `app.Touch(force)`. -/
def Touch (w : World) (force : Bool) : World :=
  if force then update w
  else if w.app.inTransaction then { w with app := { w.app with touched := true } }
  else update w

/-- The method `app.BeginTx()`. -/
def BeginTx (w : World) : World :=
  { w with app := { w.app with inTransaction := true } }

/-- The method `app.Commit()`. -/
def Commit (w : World) : World :=
  update { w with app := { w.app with inTransaction := false, touched := false } }

/-! ## Accessors -/

/-- The method `app.IsReplicates()`. -/
def IsReplicates (w : World) : Bool := w.app.Mode = APP_MODE_REPLICATES

/-- The method `app.IsFixed()`. -/
def IsFixed (w : World) : Bool := w.app.Mode = APP_MODE_FIXED

/-- The method `app.SetState(state)`. -/
def SetState (w : World) (state : String) : World :=
  Touch { w with app := { w.app with State := state } } false

/-- The method `app.StateIs(state)`. -/
def StateIs (w : World) (state : String) : Bool := w.app.State = state

/-- The method `app.RunningInstances()`. -/
def RunningInstances (w : World) : Int :=
  (w.app.slots.entries.countP (fun e => e.2.State = SlotState.running) : Nat)

/-- The method `app.RollingUpdateInstances()`. -/
def RollingUpdateInstances (w : World) : Int :=
  (w.app.slots.entries.countP (fun e => e.2.markForRollingUpdate) : Nat)

/-- The method `app.MarkForDeletionInstances()`. -/
def MarkForDeletionInstances (w : World) : Int :=
  (w.app.slots.entries.countP (fun e => e.2.markForDeletion) : Nat)

/-- The method `app.CanBeCleanAfterDeletion()`. -/
def CanBeCleanAfterDeletion (w : World) : Bool :=
  StateIs w APP_STATE_MARK_FOR_DELETION && w.app.slots.entries.length = 0

/-- The method `app.GetSlot(index)`. -/
def GetSlot (w : World) (index : Int) : Option Slot := w.app.slots.lookup index

/-- The method `app.SetSlot(index, slot)`. -/
def SetSlot (w : World) (index : Int) (slot : Slot) : World :=
  Touch { w with app := { w.app with slots := w.app.slots.insert index slot } } false

/-- A call of a method of the slot at `index`, when the map has one
(`if slot, found := app.GetSlot(index); found { slot.m() }`): the slot object changes by
`f` and the call is recorded. -/
def callSlot (w : World) (index : Int) (f : Slot → Slot) (e : Effect) : World :=
  match GetSlot w index with
  | some s =>
    { w with app := { w.app with slots := w.app.slots.replace index (f s) },
             trace := w.trace ++ [e] }
  | none => w

/-- The call `slot.DispatchNewTask(version)` on the slot at `index`. -/
def dispatchNewTaskAt (w : World) (index : Int) (version : VPtr) : World :=
  callSlot w index (fun s => s.DispatchNewTask version) (Effect.DispatchNewTask index version)

/-- The call `slot.UpdateTask(version, isRollingUpdate)` on the slot at `index`. -/
def updateTaskAt (w : World) (index : Int) (version : VPtr) (isRollingUpdate : Bool) : World :=
  callSlot w index (fun s => s.UpdateTask version isRollingUpdate)
    (Effect.UpdateTask index version isRollingUpdate)

/-- The call `slot.Kill()` on the slot at `index`. -/
def killAt (w : World) (index : Int) : World :=
  callSlot w index Slot.Kill (Effect.Kill index)

/-- The method `app.RemoveSlot(index)`. -/
def RemoveSlot (w : World) (index : Int) : World :=
  let w1 := callSlot w index id (Effect.Remove index)
  Touch { w1 with app := { w1.app with slots := w1.app.slots.erase index } } false

/-! ## Version validation -/

/-- Modelled from the spec: `utils.SliceUnique` (package `utils` is not among the sources)
tells whether the names are pairwise distinct; validation rejects duplicate port-mapping
names. -/
def SliceUnique (xs : List String) : Bool := decide xs.Nodup

/-- Modelled from the spec: `utils.SliceContains` (package `utils` is not among the sources)
tells whether the name is one of the list; validation rejects a health check that refers to
an unknown port name. -/
def SliceContains (xs : List String) (x : String) : Bool := decide (x ∈ xs)

/-- The first loop over the port mappings in `validateAndFormatVersion`: every port mapping
has a name that is not blank. -/
def checkPortMappingNames (E : Env) : List PortMapping → Option String
  | [] => none
  | portmapping :: rest =>
    if E.TrimSpace portmapping.Name = "" then
      some "each port mapping should have a uniquely identified name"
    else checkPortMappingNames E rest

/-- The loop over the health checks in `validateAndFormatVersion`. -/
def checkHealthChecks (E : Env) (portNames : List String) : List HealthCheck → Option String
  | [] => none
  | hc :: rest =>
    if E.TrimSpace hc.PortName = "" then
      some "port name should not empty and match name in docker's PortMappings"
    else if !SliceContains portNames hc.PortName then
      some ("no port name " ++ hc.PortName ++ " found in docker's PortMappings")
    else if !SliceContains ["tcp", "http", "TCP", "HTTP"] hc.Protocol then
      some ("doesn't recoginized protocol " ++ hc.Protocol ++ " for health check")
    else if (hc.Protocol = "http" ∨ hc.Protocol = "HTTP") ∧ hc.Path.length = 0 then
      some "no path provided for health check with HTTP protocol"
    else checkHealthChecks E portNames rest

/-- The block "validation for fixed mode application" of `validateAndFormatVersion`. -/
def validateFixed (E : Env) (version : Version) (docker : Docker) : Option String :=
  if (version.Ip.length : Int) ≠ version.Instances.val then
    some ("should provide exactly " ++ toString version.Instances.val ++ " ip for FIXED type app")
  else if docker.PortMappings.length > 0 then
    some "fixed mode application doesn't support portmapping"
  else if version.HealthChecks.length > 0 then
    some "fixed mode application doesn't health check"
  else if E.ToLower docker.Network ≠ E.SWAN_RESERVED_NETWORK then
    some "fixed mode app suppose the only network driver should be macvlan and name is swan"
  else none

/-- The block "validation for replicates mode app" of `validateAndFormatVersion`. -/
def validateReplicates (E : Env) (version : Version) (docker : Docker) : Option String :=
  if E.ToLower docker.Network ≠ "bridge" then
    some "replicates mode app suppose the only network driver should be bridge"
  else
    match checkPortMappingNames E docker.PortMappings with
    | some err => some err
    | none =>
      let portNames := docker.PortMappings.map PortMapping.Name
      if !SliceUnique portNames then
        some "each port mapping should have a uniquely identified name"
      else checkHealthChecks E portNames version.HealthChecks

/-- The statement `if len(version.Mode) == 0 { version.Mode = string(APP_MODE_REPLICATES) }`
of `validateAndFormatVersion`. -/
def formatVersion (version : Version) : Version :=
  if version.Mode.length = 0 then { version with Mode := APP_MODE_REPLICATES } else version

/-- The checks of `validateAndFormatVersion` that follow the default of the mode; `docker` is
`version.Container.Docker`. -/
def validateFormatted (E : Env) (version : Version) (docker : Docker) : Option String :=
  if version.Mode ≠ APP_MODE_REPLICATES ∧ version.Mode ≠ APP_MODE_FIXED then
    some ("enrecognized app mode " ++ version.Mode)
  else
    match (if version.Mode = APP_MODE_FIXED then validateFixed E version docker else none) with
    | some err => some err
    | none =>
      if version.Mode = APP_MODE_REPLICATES then validateReplicates E version docker else none

/-- The body of `validateAndFormatVersion` on the version object: the object as the call
leaves it (an empty mode is replaced by `replicates`) and the error, if any. -/
def formatAndValidate (E : Env) (version : Version) : Version × Option String :=
  match version.Container with
  | none =>
    (version, some "swan only support mesos docker containerization, no container found")
  | some container =>
    match container.Docker with
    | none =>
      (version, some "swan only support mesos docker containerization, no container found")
    | some docker => (formatVersion version, validateFormatted E (formatVersion version) docker)

/-- The function `validateAndFormatVersion(version)` on a pointer: the heap after the call and
the error, if any. -/
def validateAndFormatVersion (E : Env) (heap : Heap) (version : VPtr) : Heap × Option String :=
  let r := formatAndValidate E (heap version)
  (heap.set version r.1, r.2)

/-- The method `app.checkProposedVersionValid(version)`: its body is `return nil`. -/
def checkProposedVersionValid (_w : World) (_version : VPtr) : Option String := none

/-! ## Operations -/

/-- The result of `NewApp`: an app, or an error and no app. -/
inductive NewAppResult where
  | ok (w : World)
  | error (msg : String) (heap : Heap) (trace : List Effect)

/-- The loop `for i := 0; i < int(version.Instances); i++` of `NewApp`: `n` iterations that
are left, starting at index `i`. -/
def newAppLoop (version : VPtr) : Nat → Int → World → World
  | 0, _, w => w
  | n + 1, i, w =>
    let slot := NewSlot version i
    let w1 := SetSlot w i slot
    let w2 := dispatchNewTaskAt w1 i slot.Version
    newAppLoop version n (i + 1) w2

/-- The function `NewApp(version, allocator, scontext)`. `now` is the Unix time of the call,
`clusterId` is `mesos_connector.Instance().ClusterId`, `createAppErr` is what the first
`persistentStore.CreateApp` returns. -/
def NewApp (E : Env) (heap : Heap) (trace : List Effect) (version : VPtr) (now : Int)
    (clusterId : String) (createAppErr : Option String) : NewAppResult :=
  match validateAndFormatVersion E heap version with
  | (heap1, some err) => NewAppResult.error err heap1 trace
  | (heap1, none) =>
    let app : App :=
      { Versions := [some version], slots := ∅, CurrentVersion := some version,
        ProposedVersion := none, AppId := (heap1 version).AppId, ClusterId := clusterId,
        Created := now, Updated := now, inTransaction := false, touched := true,
        Mode := "", State := "" }
    let app :=
      if (heap1 version).Mode = "fixed" then { app with Mode := APP_MODE_FIXED }
      else { app with Mode := APP_MODE_REPLICATES }
    let v1 : Version := { (heap1 version) with ID := toString now }
    let heap2 := heap1.set version v1
    let trace1 := trace ++ [Effect.CreateApp]
    match createAppErr with
    | some err => NewAppResult.error err heap2 trace1
    | none =>
      let w : World := { heap := heap2, app := app, trace := trace1 }
      let w1 := newAppLoop version (heap2 version).Instances.val.toNat 0 w
      let w2 := SetState w1 APP_STATE_MARK_FOR_CREATING
      NewAppResult.ok (create w2)

/-- The loop `for i := newInstances; i > 0; i--` of `ScaleUp`, at `i = n`; `c` is
`app.CurrentVersion`. -/
def scaleUpLoop (c : VPtr) : Nat → World → World
  | 0, w => w
  | n + 1, w =>
    let slotIndex := (w.heap c).Instances.val - ((n + 1 : Nat) : Int)
    let slot := NewSlot c slotIndex
    let w1 := SetSlot w slotIndex slot
    let w2 := dispatchNewTaskAt w1 slotIndex slot.Version
    scaleUpLoop c n w2

/-- The method `app.ScaleUp(newInstances, newIps)`; `now` is the Unix time of the call. -/
def ScaleUp (w : World) (newInstances : Int) (newIps : List String) (now : Int) : Outcome :=
  if !StateIs w APP_STATE_NORMAL then Outcome.error "app not in normal state" w
  else if newInstances ≤ 0 then Outcome.error "specify instances num want to increase" w
  else if IsFixed w && decide ((newIps.length : Int) ≠ newInstances) then
    Outcome.error ("please provide " ++ toString newInstances ++ " unique ip") w
  else
    let w1 := BeginTx w
    match w1.app.CurrentVersion with
    | none => Outcome.panic
    | some c =>
      let v1 : Version := { (w1.heap c) with Ip := (w1.heap c).Ip ++ newIps }
      let w2 := { w1 with heap := w1.heap.set c v1 }
      let v2 : Version :=
        { (w2.heap c) with Instances := int32 ((w2.heap c).Instances.val + (int32 newInstances).val) }
      let w3 := { w2 with heap := w2.heap.set c v2 }
      let w4 := { w3 with app := { w3.app with Updated := now } }
      let w5 := SetState w4 APP_STATE_MARK_FOR_SCALE_UP
      let w6 := scaleUpLoop c newInstances.toNat w5
      Outcome.ok (Commit w6)

/-- The loop `for i := removeInstances; i > 0; i--` of `ScaleDown`, at `i = n`: every
iteration pushes a deferred call for `slotIndex` on the defer stack (newest first).
`instances` is `int(app.CurrentVersion.Instances)`. -/
def scaleDownDefers (instances : Int) : Nat → List Int → List Int
  | 0, stack => stack
  | n + 1, stack => scaleDownDefers instances n ((instances + ((n + 1 : Nat) : Int) - 1) :: stack)

/-- The method `app.ScaleDown(removeInstances)`; `now` is the Unix time of the call. The
deferred calls run newest first when the method returns, `app.Commit()` last. -/
def ScaleDown (w : World) (removeInstances : Int) (now : Int) : Outcome :=
  if !StateIs w APP_STATE_NORMAL then Outcome.error "app not in normal state" w
  else
    match w.app.CurrentVersion with
    | none => Outcome.panic
    | some c =>
      if removeInstances ≥ (w.heap c).Instances.val then
        Outcome.error
          ("no more than " ++ toString (w.heap c).Instances.val ++ " instances can be shutdown") w
      else
        let w1 := BeginTx w
        let v1 : Version :=
          { (w1.heap c) with Instances := int32 ((w1.heap c).Instances.val - removeInstances) }
        let w2 := { w1 with heap := w1.heap.set c v1 }
        let w3 := { w2 with app := { w2.app with Updated := now } }
        let w4 := SetState w3 APP_STATE_MARK_FOR_SCALE_DOWN
        let stack := scaleDownDefers (w4.heap c).Instances.val removeInstances.toNat []
        let w5 := stack.foldl killAt w4
        Outcome.ok (Commit w5)

/-- The method `app.Delete()`. The order in which Go ranges over the map is not specified;
the model takes the order of the entries. -/
def Delete (w : World) : Outcome :=
  let w1 := BeginTx w
  let w2 := SetState w1 APP_STATE_MARK_FOR_DELETION
  let w3 := w2.app.slots.keys.foldl killAt w2
  Outcome.ok (Commit w3)

/-- The method `app.Update(version, store)`; `now` is the Unix time of the call. The
parameter `store` is not used by the method. -/
def Update (E : Env) (w : World) (version : VPtr) (now : Int) : Outcome :=
  if !StateIs w APP_STATE_NORMAL || w.app.ProposedVersion.isSome then
    Outcome.error "app not in normal state" w
  else
    match validateAndFormatVersion E w.heap version with
    | (heap1, some err) => Outcome.error err { w with heap := heap1 }
    | (heap1, none) =>
      let w0 := { w with heap := heap1 }
      match checkProposedVersionValid w0 version with
      | some err => Outcome.error err w0
      | none =>
        let w1 := BeginTx w0
        match w1.app.CurrentVersion with
        | none => Outcome.error "update failed: current version was losted" (Commit w1)
        | some c =>
          let w2 := SetState w1 APP_STATE_MARK_FOR_UPDATING
          let v1 : Version := { (w2.heap version) with ID := toString now }
          let w3 := { w2 with heap := w2.heap.set version v1 }
          let v2 : Version := { (w3.heap version) with PerviousVersionID := (w3.heap c).ID }
          let w4 := { w3 with heap := w3.heap.set version v2 }
          let w5 := { w4 with app := { w4.app with ProposedVersion := some version } }
          let w6 := updateTaskAt w5 0 version true
          Outcome.ok (Commit w6)

/-- The loop `for i := 0; i < instances; i++` of `ProceedingRollingUpdate`, with `n`
iterations left at index `i`: every iteration pushes a deferred call for
`slotIndex := i + app.RollingUpdateInstances()` on the defer stack (newest first). -/
def proceedingDefers (w : World) : Nat → Int → List Int → List Int
  | 0, _, stack => stack
  | n + 1, i, stack => proceedingDefers w n (i + 1) ((i + RollingUpdateInstances w) :: stack)

/-- The method `app.ProceedingRollingUpdate(instances)`. The deferred calls run newest first
when the method returns, `app.Commit()` last. -/
def ProceedingRollingUpdate (w : World) (instances : Int) : Outcome :=
  match w.app.ProposedVersion with
  | none => Outcome.error "app not in rolling update state" w
  | some p =>
    if instances < 1 then
      Outcome.error "please specify how many instance want proceeding the update" w
    else
      match w.app.CurrentVersion with
      | none => Outcome.panic
      | some c =>
        if instances + RollingUpdateInstances w > (w.heap c).Instances.val then
          Outcome.error "update instances count exceed the maximum instances number" w
        else
          let w1 := BeginTx w
          let stack := proceedingDefers w1 instances.toNat 0 []
          let w2 := stack.foldl (fun w slotIndex => updateTaskAt w slotIndex p true) w1
          Outcome.ok (Commit w2)

/-- The loop `for i := app.RollingUpdateInstances() - 1; i >= 0; i--` of `CancelUpdate`, at
`i = n - 1`; `c` is `app.CurrentVersion`. -/
def cancelUpdateLoop (c : VPtr) : Nat → World → World
  | 0, w => w
  | n + 1, w => cancelUpdateLoop c n (updateTaskAt w (n : Int) c true)

/-- The method `app.CancelUpdate()`. -/
def CancelUpdate (w : World) : Outcome :=
  if w.app.State ≠ APP_STATE_MARK_FOR_UPDATING ∨ w.app.ProposedVersion = none then
    Outcome.error "app not in updating state" w
  else
    match w.app.CurrentVersion with
    | none => Outcome.error "cancel update failed: current version was nil" w
    | some c =>
      let w1 := BeginTx w
      let w2 := SetState w1 APP_STATE_MARK_FOR_CANCEL_UPDATE
      let w3 := cancelUpdateLoop c (RollingUpdateInstances w2).toNat w2
      Outcome.ok (Commit w3)

/-- The case `APP_STATE_MARK_FOR_UPDATING` of `Reevaluate`, after its condition holds. -/
def commitProposedVersion (w : World) : World :=
  let w1 := SetState w APP_STATE_NORMAL
  let w2 := { w1 with app := { w1.app with CurrentVersion := w1.app.ProposedVersion } }
  let w3 := { w2 with app := { w2.app with Versions := w2.app.Versions ++ [w2.app.CurrentVersion] } }
  let w4 := { w3 with app := { w3.app with ProposedVersion := none } }
  let w5 := { w4 with trace := w4.trace ++ [Effect.CommitAppProposeVersion] }
  { w5 with app := { w5.app with
      slots := w5.app.slots.mapSlots (fun slot => slot.SetMarkForRollingUpdate false) } }

/-- The case `APP_STATE_MARK_FOR_CANCEL_UPDATE` of `Reevaluate`, after its condition holds. -/
def revertProposedVersion (w : World) : World :=
  let w1 := SetState w APP_STATE_NORMAL
  let w2 := { w1 with app := { w1.app with ProposedVersion := none } }
  { w2 with app := { w2.app with
      slots := w2.app.slots.mapSlots (fun slot => slot.SetMarkForRollingUpdate false) } }

/-- The `switch app.State` of `Reevaluate`: `none` is a panic on a nil pointer (a nil
`app.CurrentVersion`, or `app.slots[0]` of a map without the key 0). In the case
`cancel_update` a nil `app.CurrentVersion` differs from the version of slot 0, which is not
nil, and the second operand of `&&` is not evaluated. -/
def reevaluateSwitch (w : World) : Option World :=
  if w.app.State = APP_STATE_NORMAL then some w
  else if w.app.State = APP_STATE_MARK_FOR_DELETION then some w
  else if w.app.State = APP_STATE_MARK_FOR_UPDATING then
    match w.app.CurrentVersion with
    | none => none
    | some c =>
      if RollingUpdateInstances w = (w.heap c).Instances.val ∧
          RunningInstances w = (w.heap c).Instances.val then
        some (commitProposedVersion w)
      else some w
  else if w.app.State = APP_STATE_MARK_FOR_CANCEL_UPDATE then
    match w.app.slots.lookup 0 with
    | none => none
    | some slot0 =>
      match w.app.CurrentVersion with
      | none => some w
      | some c =>
        if slot0.Version = c ∧ RunningInstances w = (w.heap c).Instances.val then
          some (revertProposedVersion w)
        else some w
  else if w.app.State = APP_STATE_MARK_FOR_CREATING then
    match w.app.CurrentVersion with
    | none => none
    | some c =>
      if RunningInstances w = (w.heap c).Instances.val then some (SetState w APP_STATE_NORMAL)
      else some w
  else if w.app.State = APP_STATE_MARK_FOR_SCALE_UP then
    match w.app.CurrentVersion with
    | none => none
    | some c =>
      if StateIs w APP_STATE_MARK_FOR_SCALE_UP ∧ RunningInstances w = (w.heap c).Instances.val then
        some (SetState w APP_STATE_NORMAL)
      else some w
  else if w.app.State = APP_STATE_MARK_FOR_SCALE_DOWN then
    match w.app.CurrentVersion with
    | none => none
    | some c =>
      if (w.app.slots.entries.length : Int) = (w.heap c).Instances.val ∧
          MarkForDeletionInstances w = 0 then
        some (SetState w APP_STATE_NORMAL)
      else some w
  else some w

/-- The method `app.Reevaluate()`: the switch, then `app.Touch(false)`. -/
def Reevaluate (w : World) : Option World :=
  (reevaluateSwitch w).map (fun w1 => Touch w1 false)

/-! ## The life of an app -/

/-- One step in the life of an app: a call of one of its operations that returned, with or
without an error, or a change of its slots by the slot layer (a task that starts running, a
slot that is removed, ...). -/
inductive Step (E : Env) : World → World → Prop where
  | ScaleUp {w w1 : World} (newInstances : Int) (newIps : List String) (now : Int) :
      (ScaleUp w newInstances newIps now).world? = some w1 → Step E w w1
  | ScaleDown {w w1 : World} (removeInstances : Int) (now : Int) :
      (ScaleDown w removeInstances now).world? = some w1 → Step E w w1
  | Update {w w1 : World} (version : VPtr) (now : Int) :
      (Update E w version now).world? = some w1 → Step E w w1
  | ProceedingRollingUpdate {w w1 : World} (instances : Int) :
      (ProceedingRollingUpdate w instances).world? = some w1 → Step E w w1
  | CancelUpdate {w w1 : World} :
      (CancelUpdate w).world? = some w1 → Step E w w1
  | Delete {w w1 : World} :
      (Delete w).world? = some w1 → Step E w w1
  | Reevaluate {w w1 : World} :
      Reevaluate w = some w1 → Step E w w1
  | slots (w : World) (m : SlotMap) :
      Step E w { w with app := { w.app with slots := m } }

/-- The apps that `NewApp` returns and what becomes of them. -/
inductive Reachable (E : Env) : World → Prop where
  | NewApp {w : World} (heap : Heap) (trace : List Effect) (version : VPtr) (now : Int)
      (clusterId : String) (createAppErr : Option String) :
      NewApp E heap trace version now clusterId createAppErr = NewAppResult.ok w →
      Reachable E w
  | step {w w1 : World} : Reachable E w → Step E w w1 → Reachable E w1

/-- What an operation that returned an error must have left as it was: the state, the
pointers to the current and the proposed version, the history, the slot map, and the
instance count and the IP list of every version object. A version object is what it was,
except that validation may have replaced its empty mode by `replicates`. -/
def Unchanged (w w1 : World) : Prop :=
  w1.app.State = w.app.State ∧ w1.app.CurrentVersion = w.app.CurrentVersion ∧
  w1.app.ProposedVersion = w.app.ProposedVersion ∧ w1.app.Versions = w.app.Versions ∧
  w1.app.slots = w.app.slots ∧
  (∀ q, (w1.heap q).Instances = (w.heap q).Instances ∧ (w1.heap q).Ip = (w.heap q).Ip) ∧
  ∀ q, w1.heap q = w.heap q ∨
    ((w.heap q).Mode.length = 0 ∧ w1.heap q = { (w.heap q) with Mode := APP_MODE_REPLICATES })

/-! ## Sample apps -/

/-- A replicates-mode version on the bridge network, without port mappings. -/
def sampleVersion (id : String) (instances : GoInt32) : Version :=
  { ID := id, PerviousVersionID := "", AppId := "web", RunAs := "swan",
    Mode := APP_MODE_REPLICATES, Instances := instances, Ip := [],
    Container := some { Docker := some { Network := "bridge", PortMappings := [] } },
    HealthChecks := [] }

/-- A heap with a version of two instances at address 1, a version of three instances at
address 2 and a version without a container everywhere else. -/
def sampleHeap : Heap := fun p =>
  if p = 1 then sampleVersion "1" (int32 2)
  else if p = 2 then sampleVersion "2" (int32 3)
  else { sampleVersion "" (int32 0) with Container := none }

/-- A running slot bound to the version at address 1. -/
def sampleSlot (index : Int) : Slot :=
  { Index := index, Version := 1, State := SlotState.running,
    markForRollingUpdate := false, markForDeletion := false }

/-- An app in state `normal` that runs the version at address 1 in two slots. -/
def sampleApp : App :=
  { AppId := "web", Versions := [some 1],
    slots := ((∅ : SlotMap).insert 0 (sampleSlot 0)).insert 1 (sampleSlot 1),
    CurrentVersion := some 1, ProposedVersion := none, Mode := APP_MODE_REPLICATES,
    Created := 0, Updated := 0, State := APP_STATE_NORMAL, ClusterId := "cluster",
    inTransaction := false, touched := false }

/-- The sample app in its world. -/
def sampleWorld : World := { heap := sampleHeap, app := sampleApp, trace := [] }

/-- What the storage helpers and the calls into the slot layer leave alone: the version
objects and every field of the app but the slot map and the flags `inTransaction` and
`touched`. -/
def SameFrame (w w1 : World) : Prop :=
  w1.heap = w.heap ∧ w1.app.State = w.app.State ∧
  w1.app.CurrentVersion = w.app.CurrentVersion ∧
  w1.app.ProposedVersion = w.app.ProposedVersion ∧ w1.app.Versions = w.app.Versions ∧
  w1.app.Mode = w.app.Mode

/-! ## A sample run -/

/-- The world that an operation leaves behind, or `w0` when it panicked. -/
def Outcome.worldD (o : Outcome) (w0 : World) : World := (o.world?).getD w0

/-- Every task of the app reports `RUNNING`. -/
def allRunning (w : World) : World :=
  { w with app := { w.app with
      slots := w.app.slots.mapSlots (fun slot => { slot with State := SlotState.running }) } }

/-- `NewApp` with the version at address 1 of the sample heap: two slots are dispatched. -/
def run0 : World :=
  match NewApp asciiEnv sampleHeap [] 1 100 "cluster" none with
  | NewAppResult.ok w => w
  | NewAppResult.error _ _ _ => sampleWorld

/-- Both tasks run and the app is reevaluated: it is in state `normal`. -/
def run1 : World := (Reevaluate (allRunning run0)).getD sampleWorld

/-- `Update` with the version at address 2: slot 0 is replaced. -/
def run2 : World := (Update asciiEnv run1 2 200).worldD sampleWorld

/-- `CancelUpdate`: slot 0 goes back to the version at address 1. -/
def run3 : World := (CancelUpdate run2).worldD sampleWorld

/-- `ProceedingRollingUpdate(1)` in state `cancel_update`: slot 1 is replaced. -/
def run4 : World := (ProceedingRollingUpdate run3 1).worldD sampleWorld

/-- Both tasks run and the app is reevaluated. -/
def run5 : World := (Reevaluate (allRunning run4)).getD sampleWorld

/-- From `run2`, `ProceedingRollingUpdate(1)`, after which both tasks run. -/
def run6 : World := allRunning ((ProceedingRollingUpdate run2 1).worldD sampleWorld)

/-- An app in state `normal` without slots whose current version has the instance count
`-1`. -/
def negativeWorld : World :=
  { heap := fun _ => sampleVersion "1" (int32 (-1)),
    app := { sampleApp with slots := ∅ }, trace := [] }

/-- From `run1`, `ScaleDown(1)`: slot 1 is killed and the app is in state `scale_down`. -/
def run7 : World := (ScaleDown run1 1 300).worldD sampleWorld

/-! ## Sample versions -/

/-- A fixed-mode version of three instances with two IPs on the reserved network. -/
def fixedVersion : Version :=
  { ID := "", PerviousVersionID := "", AppId := "db", RunAs := "swan",
    Mode := APP_MODE_FIXED, Instances := int32 3, Ip := ["10.0.0.1", "10.0.0.2"],
    Container := some { Docker := some { Network := "swan", PortMappings := [] } },
    HealthChecks := [] }

/-- A replicates-mode version with one port mapping `web` and one health check on it, of the
given protocol and path. -/
def checkedVersion (protocol path : String) : Version :=
  { ID := "", PerviousVersionID := "", AppId := "web", RunAs := "swan",
    Mode := APP_MODE_REPLICATES, Instances := int32 1, Ip := [],
    Container := some { Docker := some { Network := "bridge", PortMappings := [{ Name := "web" }] } },
    HealthChecks := [{ PortName := "web", Protocol := protocol, Path := path }] }

/-- A replicates-mode version of one instance on the bridge network that carries an IP. -/
def ipVersion : Version := { (sampleVersion "1" (int32 1)) with Ip := ["10.0.0.1"] }

/-! ## The life of an app that is given no IP -/

/-- One step in the life of an app to which nobody passes an IP: as `Step`, but `ScaleUp` is
called without new IPs and `Update` with a version whose IP list is empty. -/
inductive StepWithoutIps (E : Env) : World → World → Prop where
  | ScaleUp {w w1 : World} (newInstances : Int) (now : Int) :
      (ScaleUp w newInstances [] now).world? = some w1 → StepWithoutIps E w w1
  | ScaleDown {w w1 : World} (removeInstances : Int) (now : Int) :
      (ScaleDown w removeInstances now).world? = some w1 → StepWithoutIps E w w1
  | Update {w w1 : World} (version : VPtr) (now : Int) :
      (w.heap version).Ip = [] →
      (Update E w version now).world? = some w1 → StepWithoutIps E w w1
  | ProceedingRollingUpdate {w w1 : World} (instances : Int) :
      (ProceedingRollingUpdate w instances).world? = some w1 → StepWithoutIps E w w1
  | CancelUpdate {w w1 : World} :
      (CancelUpdate w).world? = some w1 → StepWithoutIps E w w1
  | Delete {w w1 : World} :
      (Delete w).world? = some w1 → StepWithoutIps E w w1
  | Reevaluate {w w1 : World} :
      Reevaluate w = some w1 → StepWithoutIps E w w1
  | slots (w : World) (m : SlotMap) :
      StepWithoutIps E w { w with app := { w.app with slots := m } }

/-- The apps that `NewApp` returns for a version whose IP list is empty, and what becomes of
them when nobody passes an IP. -/
inductive ReachableWithoutIps (E : Env) : World → Prop where
  | NewApp {w : World} (heap : Heap) (trace : List Effect) (version : VPtr) (now : Int)
      (clusterId : String) (createAppErr : Option String) :
      (heap version).Ip = [] →
      NewApp E heap trace version now clusterId createAppErr = NewAppResult.ok w →
      ReachableWithoutIps E w
  | step {w w1 : World} : ReachableWithoutIps E w → StepWithoutIps E w w1 →
      ReachableWithoutIps E w1

/-! ## Sample apps of other shapes -/

/-- A fixed-mode version of three instances with three IPs on the reserved network. -/
def fixedVersion3 : Version :=
  { fixedVersion with Ip := ["10.0.0.1", "10.0.0.2", "10.0.0.3"] }

/-- `NewApp` with the fixed-mode version of three instances: three slots are dispatched. -/
def fixedRun0 : World :=
  match NewApp asciiEnv (fun _ => fixedVersion3) [] 1 100 "cluster" none with
  | NewAppResult.ok w => w
  | NewAppResult.error _ _ _ => sampleWorld

/-- The three tasks run and the app is reevaluated: it is in state `normal`. -/
def fixedRun1 : World := (Reevaluate (allRunning fixedRun0)).getD sampleWorld

/-- A heap whose version objects are replicates-mode versions of zero instances. -/
def zeroHeap : Heap := fun _ => sampleVersion "0" (int32 0)

/-- `NewApp` with a version of zero instances: no slot is dispatched. -/
def zeroRun0 : World :=
  match NewApp asciiEnv zeroHeap [] 1 100 "cluster" none with
  | NewAppResult.ok w => w
  | NewAppResult.error _ _ _ => sampleWorld

/-- The app of zero instances is reevaluated: it is in state `normal`. -/
def zeroRun1 : World := (Reevaluate zeroRun0).getD sampleWorld

/-- `Update` with the version at address 2: the app is in state `updating`. -/
def zeroRun2 : World := (Update asciiEnv zeroRun1 2 200).worldD sampleWorld

/-- `CancelUpdate`: the app is in state `cancel_update`. -/
def zeroRun3 : World := (CancelUpdate zeroRun2).worldD sampleWorld

/-! ## The manager: leadership events -/

/-- Modelled from the spec: `raft.LeadershipState` (package `raft` is not among the sources),
the event that the raft node sends when leadership changes. `handleLeadershipEvents` compares
it with `raft.IsLeader` and `raft.IsFollower`; `other` stands for any further value of the
type. -/
inductive LeadershipState where
  | IsLeader
  | IsFollower
  | other (n : Nat)
deriving DecidableEq, Repr

/-- What `handleLeadershipEvents` does to the rest of the manager. A cancel function is named
by the number of the call of `context.WithCancel` that returned it, and a context by the
cancel function it was made with. -/
inductive ManagerEffect where
  | Info (msg : String)
  | EventBusStart
  | WithCancel (cancel : Nat)
  | FrameworkStart (cancel : Nat)
  | Cancel (cancel : Nat)
deriving DecidableEq, Repr

/-- The manager as `handleLeadershipEvents` sees it: the number of contexts made so far and
what has been done, oldest first. -/
structure ManagerState where
  contexts : Nat
  trace : List ManagerEffect
deriving DecidableEq, Repr

/-- The call `context.WithCancel(ctx)`: a new context and its cancel function. -/
def WithCancel (m : ManagerState) : ManagerState × Nat × Nat :=
  ({ contexts := m.contexts + 1, trace := m.trace ++ [ManagerEffect.WithCancel m.contexts] },
    m.contexts, m.contexts)

/-- One iteration of the loop of `handleLeadershipEvents` for an event received from
`leadershipCh`. The variable `cancelFunc` is declared in the iteration
(`var cancelFunc context.CancelFunc`), so it is nil when the iteration starts, and no
statement assigns a cancel function to it: the one that `context.WithCancel` returns is
discarded (`frameworkCtx, _ := context.WithCancel(ctx)`). The call
`manager.framework.Start(frameworkCtx)` is recorded; the next event is handled when it has
returned. -/
def handleLeadershipEvent (m : ManagerState) (newState : LeadershipState) : ManagerState :=
  let cancelFunc : Option Nat := none
  if newState = LeadershipState.IsLeader then
    let m1 := { m with trace := m.trace ++ [ManagerEffect.Info "Now i become a leader !!!"] }
    let m2 := { m1 with trace := m1.trace ++ [ManagerEffect.EventBusStart] }
    let r := WithCancel m2
    let frameworkCtx := r.2.1
    { r.1 with trace := r.1.trace ++ [ManagerEffect.FrameworkStart frameworkCtx] }
  else if newState = LeadershipState.IsFollower then
    let m1 := { m with trace := m.trace ++ [ManagerEffect.Info "Now i become a follower !!!"] }
    match cancelFunc with
    | some cancel =>
      let m2 := { m1 with trace := m1.trace ++ [ManagerEffect.Cancel cancel] }
      { m2 with trace := m2.trace ++ [ManagerEffect.Info "Scheduler has been stopped"] }
    | none => m1
  else m

/-- The method `manager.handleLeadershipEvents(ctx, leadershipCh)` on the events that
`leadershipCh` delivers before `ctx` is done, in the order they are received. -/
def handleLeadershipEvents (m : ManagerState) (events : List LeadershipState) : ManagerState :=
  events.foldl handleLeadershipEvent m

/-! ## The store: slots in the bucket tree -/

/-- What lies at a path of the bucket tree of the bolt database: a nested bucket, or a key
with its value. -/
inductive Entry where
  | bucket
  | value (data : String)
deriving DecidableEq, Repr

/-- The bucket tree that a writable bolt transaction works on, given by what lies at each
path from the root. A path is the list of the keys on the way down, outermost first; a bucket
is named by its path, the root by the empty path. -/
def Tree : Type := List String → Option Entry

/-- The tree with `e` at `path`. -/
def Tree.set (t : Tree) (path : List String) (e : Entry) : Tree :=
  fun p => if p = path then some e else t p

/-- The errors of the bolt library that the slot writes can meet. -/
def ErrBucketNotFound : String := "bucket not found"

def ErrBucketNameRequired : String := "bucket name required"

def ErrIncompatibleValue : String := "incompatible value"

def ErrKeyRequired : String := "key required"

def ErrKeyTooLarge : String := "key too large"

def ErrValueTooLarge : String := "value too large"

/-- The constants `MaxKeySize` and `MaxValueSize` of the bolt library, in bytes. -/
def MaxKeySize : Nat := 32768

def MaxValueSize : Nat := 2147483646

/-- The method `Bucket.Bucket(name)` of the bolt library (`Tx.Bucket(name)` at the root): the
nested bucket of that name, nil when there is none. -/
def Tree.Bucket (t : Tree) (bkt : List String) (name : String) : Option (List String) :=
  if t (bkt ++ [name]) = some Entry.bucket then some (bkt ++ [name]) else none

/-- The method `Bucket.CreateBucketIfNotExists(key)` of the bolt library: the nested bucket
of that name, created when there is none; an error for an empty name and for a key that
holds a value. -/
def Tree.CreateBucketIfNotExists (t : Tree) (bkt : List String) (key : String) :
    Tree × Except String (List String) :=
  if key = "" then (t, Except.error ErrBucketNameRequired)
  else
    match t (bkt ++ [key]) with
    | some Entry.bucket => (t, Except.ok (bkt ++ [key]))
    | some (Entry.value _) => (t, Except.error ErrIncompatibleValue)
    | none => (t.set (bkt ++ [key]) Entry.bucket, Except.ok (bkt ++ [key]))

/-- The method `Bucket.Put(key, value)` of the bolt library: the value of the key is set; an
error for an empty key, for a key or a value that is too large, and for a key that holds a
nested bucket. -/
def Tree.Put (t : Tree) (bkt : List String) (key value : String) : Tree × Option String :=
  if key = "" then (t, some ErrKeyRequired)
  else if key.utf8ByteSize > MaxKeySize then (t, some ErrKeyTooLarge)
  else if value.utf8ByteSize > MaxValueSize then (t, some ErrValueTooLarge)
  else if t (bkt ++ [key]) = some Entry.bucket then (t, some ErrIncompatibleValue)
  else (t.set (bkt ++ [key]) (Entry.value value), none)

/-- The method `Bucket.DeleteBucket(key)` of the bolt library: the nested bucket of that name
is deleted with all that it holds; an error when there is no such bucket and when the key
holds a value. -/
def Tree.DeleteBucket (t : Tree) (bkt : List String) (key : String) : Tree × Option String :=
  match t (bkt ++ [key]) with
  | none => (t, some ErrBucketNotFound)
  | some (Entry.value _) => (t, some ErrIncompatibleValue)
  | some Entry.bucket =>
    (fun p => if p.take (bkt ++ [key]).length = bkt ++ [key] then none else t p, none)

/-- Modelled from the spec: `types.Slot` of package `raft/types` (not among the sources), the
stored form of a slot. The store reads its `AppId` and its `Id` and serialises the whole. -/
structure types.Slot where
  AppId : String
  Id : String
  State : String
deriving DecidableEq, Repr

/-- What `raft/store/slot.go` uses without defining it and what no other source file defines:
the bucket keys of package `store` and the method `slot.Marshal()` of `types.Slot`. The model
takes them as a parameter. -/
structure StoreEnv where
  bucketKeyStorageVersion : String
  bucketKeyApps : String
  bucketKeySlots : String
  BucketKeyData : String
  Marshal : types.Slot → Except String String

/-- Modelled from the spec: `createBucketIfNotExists(tx, keys...)` of package `store` (its
file is not among the sources) goes down from `bkt` along `keys` and creates each bucket of
the persisted layout that does not exist; it stops at the first error. -/
def createBucketIfNotExists (t : Tree) :
    List String → List String → Tree × Except String (List String)
  | bkt, [] => (t, Except.ok bkt)
  | bkt, key :: keys =>
    match t.CreateBucketIfNotExists bkt key with
    | (t1, Except.error err) => (t1, Except.error err)
    | (t1, Except.ok b) => createBucketIfNotExists t1 b keys

/-- Modelled from the spec: `getBucket(tx, keys...)` of package `store` (its file is not
among the sources) goes down from `bkt` along `keys`; nil when a bucket of the path does not
exist. -/
def getBucket (t : Tree) : List String → List String → Option (List String)
  | bkt, [] => some bkt
  | bkt, key :: keys =>
    match t.Bucket bkt key with
    | none => none
    | some b => getBucket t b keys

/-- The function `withCreateSlotBucketIfNotExists(tx, appId, slotId, fn)`. -/
def withCreateSlotBucketIfNotExists (E : StoreEnv) (t : Tree) (appId slotId : String)
    (fn : Tree → List String → Tree × Option String) : Tree × Option String :=
  match createBucketIfNotExists t []
      [E.bucketKeyStorageVersion, E.bucketKeyApps, appId, E.bucketKeySlots, slotId] with
  | (t1, Except.error err) => (t1, some err)
  | (t1, Except.ok bkt) => fn t1 bkt

/-- The function `GetSlotsBucket(tx, appId)`. -/
def GetSlotsBucket (E : StoreEnv) (t : Tree) (appId : String) : Option (List String) :=
  getBucket t [] [E.bucketKeyStorageVersion, E.bucketKeyApps, appId, E.bucketKeySlots]

/-- The function `GetSlotBucket(tx, appId, slotId)`. -/
def GetSlotBucket (E : StoreEnv) (t : Tree) (appId slotId : String) : Option (List String) :=
  getBucket t [] [E.bucketKeyStorageVersion, E.bucketKeyApps, appId, E.bucketKeySlots, slotId]

/-- The function `putSlot(tx, slot)`: the tree that the transaction is left with, and the
error, if any. -/
def putSlot (E : StoreEnv) (t : Tree) (slot : types.Slot) : Tree × Option String :=
  withCreateSlotBucketIfNotExists E t slot.AppId slot.Id (fun t1 bkt =>
    match E.Marshal slot with
    | Except.error err => (t1, some err)
    | Except.ok p => t1.Put bkt E.BucketKeyData p)

/-- The function `removeSlot(tx, appId, slotId)`: the tree that the transaction is left with,
and the error, if any. -/
def removeSlot (E : StoreEnv) (t : Tree) (appId slotId : String) : Tree × Option String :=
  match GetSlotsBucket E t appId with
  | none => (t, none)
  | some slotsBkt => t.DeleteBucket slotsBkt slotId

/-- The bucket keys of the persisted layout and a serialisation, for evaluating the model on
concrete inputs. -/
def sampleStoreEnv : StoreEnv where
  bucketKeyStorageVersion := "v1"
  bucketKeyApps := "apps"
  bucketKeySlots := "slots"
  BucketKeyData := "data"
  Marshal := fun slot => Except.ok (slot.Id ++ ":" ++ slot.State)

/-- The empty store. -/
def emptyTree : Tree := fun _ => none

/-- Slot `0` of the app `web`, in its stored form. -/
def storedSlot : types.Slot := { AppId := "web", Id := "0", State := "running" }

/-- The store after `putSlot` of the stored sample slot. -/
def storedTree : Tree := (putSlot sampleStoreEnv emptyTree storedSlot).1

/-! # Theorems -/

theorem formatAndValidate_fst (E : Env) (v : Version) :
    (formatAndValidate E v).1 = v ∨
      (v.Mode.length = 0 ∧ (formatAndValidate E v).1 = { v with Mode := APP_MODE_REPLICATES }) := by
  unfold formatAndValidate
  split
  · left; rfl
  · split
    · left; rfl
    · by_cases hm : v.Mode.length = 0
      · right; exact ⟨hm, by simp [formatVersion, hm]⟩
      · left; simp [formatVersion, hm]

theorem validateAndFormatVersion_heap (E : Env) (h : Heap) (version q : VPtr) :
    (validateAndFormatVersion E h version).1 q = h q ∨
      ((h q).Mode.length = 0 ∧
        (validateAndFormatVersion E h version).1 q = { (h q) with Mode := APP_MODE_REPLICATES }) := by
  unfold validateAndFormatVersion Heap.set
  by_cases hq : q = version
  · subst hq
    simpa using formatAndValidate_fst E (h q)
  · simp [hq]

theorem unchanged_refl (w : World) : Unchanged w w :=
  ⟨rfl, rfl, rfl, rfl, rfl, fun _ => ⟨rfl, rfl⟩, fun _ => Or.inl rfl⟩

theorem unchanged_of_heap (E : Env) (w : World) (version : VPtr) :
    Unchanged w { w with heap := (validateAndFormatVersion E w.heap version).1 } := by
  refine ⟨rfl, rfl, rfl, rfl, rfl, fun q => ?_, fun q => ?_⟩
  · rcases validateAndFormatVersion_heap E w.heap version q with h | ⟨_, h⟩
    · exact ⟨congrArg Version.Instances h, congrArg Version.Ip h⟩
    · constructor
      · show ((validateAndFormatVersion E w.heap version).1 q).Instances = _
        rw [h]
      · show ((validateAndFormatVersion E w.heap version).1 q).Ip = _
        rw [h]
  · exact validateAndFormatVersion_heap E w.heap version q

theorem ScaleUp_error (w : World) (newInstances : Int) (newIps : List String) (now : Int)
    (msg : String) (w1 : World) (h : ScaleUp w newInstances newIps now = Outcome.error msg w1) :
    w1 = w := by
  unfold ScaleUp at h
  split_ifs at h
  · injection h with _ h; exact h.symm
  · injection h with _ h; exact h.symm
  · injection h with _ h; exact h.symm
  · simp only at h
    split at h <;> cases h

theorem ScaleDown_error (w : World) (removeInstances : Int) (now : Int)
    (msg : String) (w1 : World) (h : ScaleDown w removeInstances now = Outcome.error msg w1) :
    w1 = w := by
  unfold ScaleDown at h
  split_ifs at h
  · injection h with _ h; exact h.symm
  · split at h
    · cases h
    · split at h
      · injection h with _ h; exact h.symm
      · cases h

theorem CancelUpdate_error (w : World) 
    (msg : String) (w1 : World) (h : CancelUpdate w = Outcome.error msg w1) :
    w1 = w := by
  unfold CancelUpdate at h
  split_ifs at h
  · injection h with _ h; exact h.symm
  · split at h
    · injection h with _ h; exact h.symm
    · cases h

theorem Update_error (E : Env) (w : World) (version : VPtr) (now : Int)
    (msg : String) (w1 : World) (h : Update E w version now = Outcome.error msg w1) :
    Unchanged w w1 := by
  unfold Update at h
  split_ifs at h
  · injection h with _ h; subst h; exact unchanged_refl w
  · split at h
    · rename_i heap1 err hv
      injection h with _ h; subst h
      have := unchanged_of_heap E w version
      rw [hv] at this; exact this
    · rename_i heap1 hv
      simp only [checkProposedVersionValid] at h
      split at h
      · injection h with _ h; subst h
        have := unchanged_of_heap E w version
        rw [hv] at this
        exact this
      · cases h

/-- C5: precondition failures are surfaced without mutation. `ScaleUp` returns an error
when the state is not `normal`, when `newInstances <= 0`, and on a fixed-mode app that is given
a number of IPs other than `newInstances`; `ScaleDown` returns an error when the state is not
`normal` and when `removeInstances` is at least the current instance count; `Update` returns
an error when the state is not `normal`, when a proposed version is present and when the
version fails validation; `CancelUpdate` returns an error when the state is not `updating`.
Whenever one of the four returns an error, the state, the current version (the pointer, and
the instance count and IP list of every version object), the proposed version, the history
and the slot map are what they were before the call; the only write to a version object is
that validation may have replaced an empty mode of the version passed to `Update`. -/
theorem precondition_failure_without_mutation (E : Env) (w : World) :
    (∀ (newInstances : Int) (newIps : List String) (now : Int),
        (w.app.State ≠ APP_STATE_NORMAL ∨ newInstances ≤ 0 ∨
          (w.app.Mode = APP_MODE_FIXED ∧ (newIps.length : Int) ≠ newInstances)) →
        (ScaleUp w newInstances newIps now).isError = true) ∧
    (∀ (removeInstances now : Int),
        (w.app.State ≠ APP_STATE_NORMAL ∨
          ∃ c, w.app.CurrentVersion = some c ∧ removeInstances ≥ (w.heap c).Instances.val) →
        (ScaleDown w removeInstances now).isError = true) ∧
    (∀ (version : VPtr) (now : Int),
        (w.app.State ≠ APP_STATE_NORMAL ∨ w.app.ProposedVersion ≠ none ∨
          (validateAndFormatVersion E w.heap version).2 ≠ none) →
        (Update E w version now).isError = true) ∧
    (w.app.State ≠ APP_STATE_MARK_FOR_UPDATING → (CancelUpdate w).isError = true) ∧
    (∀ (msg : String) (w1 : World),
        ((∃ newInstances newIps now, ScaleUp w newInstances newIps now = Outcome.error msg w1) ∨
         (∃ removeInstances now, ScaleDown w removeInstances now = Outcome.error msg w1) ∨
         (∃ version now, Update E w version now = Outcome.error msg w1) ∨
         CancelUpdate w = Outcome.error msg w1) →
        Unchanged w w1) := by
  refine ⟨?_, ?_, ?_, ?_, ?_⟩
  · intro newInstances newIps now h
    unfold ScaleUp
    by_cases h1 : StateIs w APP_STATE_NORMAL = true
    · have hs : w.app.State = APP_STATE_NORMAL := by simpa [StateIs] using h1
      simp only [h1, Bool.not_true, Bool.false_eq_true, if_false]
      by_cases h2 : newInstances ≤ 0
      · simp [h2, Outcome.isError]
      · rcases h with h | h | ⟨hm, hl⟩
        · exact absurd hs h
        · exact absurd h h2
        · simp [h2, IsFixed, hm, hl, Outcome.isError]
    · simp [h1, Outcome.isError]
  · intro removeInstances now h
    unfold ScaleDown
    by_cases h1 : StateIs w APP_STATE_NORMAL = true
    · have hs : w.app.State = APP_STATE_NORMAL := by simpa [StateIs] using h1
      rcases h with h | ⟨c, hc, hge⟩
      · exact absurd hs h
      · simp [h1, hc, hge, Outcome.isError]
    · simp [h1, Outcome.isError]
  · intro version now h
    unfold Update
    by_cases h1 : (!StateIs w APP_STATE_NORMAL || w.app.ProposedVersion.isSome) = true
    · simp [h1, Outcome.isError]
    · rw [if_neg h1]
      have h1' : w.app.State = APP_STATE_NORMAL ∧ w.app.ProposedVersion = none := by
        simpa [StateIs] using h1
      rcases h with h | h | h
      · exact absurd h1'.1 h
      · exact absurd h1'.2 h
      · cases hv : validateAndFormatVersion E w.heap version with
        | mk heap1 r =>
          cases r with
          | none => simp [hv] at h
          | some err => simp [Outcome.isError]
  · intro h
    unfold CancelUpdate
    simp [h, Outcome.isError]
  · intro msg w1 h
    rcases h with ⟨a, b, c, h⟩ | ⟨a, b, h⟩ | ⟨a, b, h⟩ | h
    · rw [ScaleUp_error w a b c msg w1 h]; exact unchanged_refl w
    · rw [ScaleDown_error w a b msg w1 h]; exact unchanged_refl w
    · exact Update_error E w a b msg w1 h
    · rw [CancelUpdate_error w msg w1 h]; exact unchanged_refl w

/-- Witness for C5 on the sample app: a `ScaleUp` by zero instances and a `CancelUpdate`
outside a rolling update fail, and the failed `ScaleUp` leaves the app as it was. -/
theorem precondition_failure_without_mutation_witness :
    (ScaleUp sampleWorld 0 [] 0).isError = true ∧
    (ScaleDown sampleWorld 2 0).isError = true ∧
    (Update asciiEnv sampleWorld 3 0).isError = true ∧
    (CancelUpdate sampleWorld).isError = true ∧
    Unchanged sampleWorld sampleWorld :=
  ⟨(precondition_failure_without_mutation asciiEnv sampleWorld).1 0 [] 0
      (Or.inr (Or.inl (by decide))),
   (precondition_failure_without_mutation asciiEnv sampleWorld).2.1 2 0
      (Or.inr ⟨1, rfl, by decide⟩),
   (precondition_failure_without_mutation asciiEnv sampleWorld).2.2.1 3 0
      (Or.inr (Or.inr (by decide))),
   (precondition_failure_without_mutation asciiEnv sampleWorld).2.2.2.1 (by decide),
   (precondition_failure_without_mutation asciiEnv sampleWorld).2.2.2.2
      "specify instances num want to increase" sampleWorld (Or.inl ⟨0, [], 0, rfl⟩)⟩

/-! ## Frame lemmas -/

theorem SameFrame.refl (w : World) : SameFrame w w := ⟨rfl, rfl, rfl, rfl, rfl, rfl⟩

theorem SameFrame.trans {a b c : World} (h1 : SameFrame a b) (h2 : SameFrame b c) :
    SameFrame a c := by
  obtain ⟨a1, a2, a3, a4, a5, a6⟩ := h1
  obtain ⟨b1, b2, b3, b4, b5, b6⟩ := h2
  exact ⟨b1.trans a1, b2.trans a2, b3.trans a3, b4.trans a4, b5.trans a5, b6.trans a6⟩

theorem update_frame (w : World) : SameFrame w (update w) := ⟨rfl, rfl, rfl, rfl, rfl, rfl⟩

theorem Touch_frame (w : World) (force : Bool) : SameFrame w (Touch w force) := by
  unfold Touch
  split_ifs <;> exact ⟨rfl, rfl, rfl, rfl, rfl, rfl⟩

theorem BeginTx_frame (w : World) : SameFrame w (BeginTx w) := ⟨rfl, rfl, rfl, rfl, rfl, rfl⟩

theorem Commit_frame (w : World) : SameFrame w (Commit w) := ⟨rfl, rfl, rfl, rfl, rfl, rfl⟩

theorem SetSlot_frame (w : World) (index : Int) (slot : Slot) :
    SameFrame w (SetSlot w index slot) := by
  unfold SetSlot Touch
  split_ifs <;> exact ⟨rfl, rfl, rfl, rfl, rfl, rfl⟩

theorem callSlot_frame (w : World) (index : Int) (f : Slot → Slot) (e : Effect) :
    SameFrame w (callSlot w index f e) := by
  unfold callSlot
  split
  · exact ⟨rfl, rfl, rfl, rfl, rfl, rfl⟩
  · exact SameFrame.refl w

theorem foldl_frame {α : Type} (g : World → α → World) (hg : ∀ w a, SameFrame w (g w a))
    (l : List α) (w : World) : SameFrame w (l.foldl g w) := by
  induction l generalizing w with
  | nil => exact SameFrame.refl w
  | cons a l ih => exact (hg w a).trans (ih (g w a))

theorem scaleUpLoop_frame (c : VPtr) (n : Nat) (w : World) :
    SameFrame w (scaleUpLoop c n w) := by
  induction n generalizing w with
  | zero => exact SameFrame.refl w
  | succ n ih =>
    unfold scaleUpLoop
    exact ((SetSlot_frame w _ _).trans (callSlot_frame _ _ _ _)).trans (ih _)

theorem newAppLoop_frame (version : VPtr) (n : Nat) (i : Int) (w : World) :
    SameFrame w (newAppLoop version n i w) := by
  induction n generalizing w i with
  | zero => exact SameFrame.refl w
  | succ n ih =>
    unfold newAppLoop
    exact ((SetSlot_frame w _ _).trans (callSlot_frame _ _ _ _)).trans (ih _ _)

theorem cancelUpdateLoop_frame (c : VPtr) (n : Nat) (w : World) :
    SameFrame w (cancelUpdateLoop c n w) := by
  induction n generalizing w with
  | zero => exact SameFrame.refl w
  | succ n ih =>
    unfold cancelUpdateLoop
    exact (callSlot_frame _ _ _ _).trans (ih _)

theorem SetState_state (w : World) (state : String) : (SetState w state).app.State = state := by
  unfold SetState Touch update
  split_ifs <;> rfl

theorem SetState_rest (w : World) (state : String) :
    (SetState w state).heap = w.heap ∧
    (SetState w state).app.CurrentVersion = w.app.CurrentVersion ∧
    (SetState w state).app.ProposedVersion = w.app.ProposedVersion ∧
    (SetState w state).app.Versions = w.app.Versions ∧
    (SetState w state).app.Mode = w.app.Mode ∧
    (SetState w state).app.slots = w.app.slots := by
  unfold SetState Touch update
  split_ifs <;> exact ⟨rfl, rfl, rfl, rfl, rfl, rfl⟩

/-! ## What the operations do to the state and to the version pointers -/

theorem ScaleUp_ok {w w1 : World} {newInstances : Int} {newIps : List String} {now : Int}
    (h : ScaleUp w newInstances newIps now = Outcome.ok w1) :
    w.app.State = APP_STATE_NORMAL ∧ w1.app.State = APP_STATE_MARK_FOR_SCALE_UP ∧
    w1.app.CurrentVersion = w.app.CurrentVersion ∧
    w1.app.ProposedVersion = w.app.ProposedVersion ∧ w1.app.Versions = w.app.Versions ∧
    w1.app.Mode = w.app.Mode := by
  unfold ScaleUp at h
  split_ifs at h with h1 h2 h3
  simp only at h
  split at h
  · cases h
  · rename_i c hc
    injection h with h
    subst h
    have hs : w.app.State = APP_STATE_NORMAL := by simpa [StateIs] using h1
    refine ⟨hs, ?_⟩
    obtain ⟨-, f2, f3, f4, f5, f6⟩ :=
      (scaleUpLoop_frame c newInstances.toNat _).trans (Commit_frame _)
    rw [f2, f3, f4, f5, f6, SetState_state]
    obtain ⟨-, g3, g4, g5, g6, -⟩ := SetState_rest _ _
    exact ⟨rfl, g3, g4, g5, g6⟩

theorem ScaleDown_ok {w w1 : World} {removeInstances now : Int}
    (h : ScaleDown w removeInstances now = Outcome.ok w1) :
    w.app.State = APP_STATE_NORMAL ∧ w1.app.State = APP_STATE_MARK_FOR_SCALE_DOWN ∧
    w1.app.CurrentVersion = w.app.CurrentVersion ∧
    w1.app.ProposedVersion = w.app.ProposedVersion ∧ w1.app.Versions = w.app.Versions ∧
    w1.app.Mode = w.app.Mode := by
  unfold ScaleDown at h
  split_ifs at h with h1
  split at h
  · cases h
  · rename_i c hc
    split at h
    · cases h
    · injection h with h
      subst h
      have hs : w.app.State = APP_STATE_NORMAL := by simpa [StateIs] using h1
      refine ⟨hs, ?_⟩
      obtain ⟨-, f2, f3, f4, f5, f6⟩ :=
        (foldl_frame killAt (fun w a => callSlot_frame w a _ _) _ _).trans (Commit_frame _)
      rw [f2, f3, f4, f5, f6, SetState_state]
      obtain ⟨-, g3, g4, g5, g6, -⟩ := SetState_rest _ _
      exact ⟨rfl, g3, g4, g5, g6⟩

theorem Delete_ok {w w1 : World} (h : (Delete w).world? = some w1) :
    w1.app.State = APP_STATE_MARK_FOR_DELETION ∧
    w1.app.CurrentVersion = w.app.CurrentVersion ∧
    w1.app.ProposedVersion = w.app.ProposedVersion ∧ w1.app.Versions = w.app.Versions ∧
    w1.app.Mode = w.app.Mode ∧ w1.heap = w.heap := by
  unfold Delete at h
  simp only [Outcome.world?, Option.some.injEq] at h
  subst h
  obtain ⟨f1, f2, f3, f4, f5, f6⟩ :=
    (foldl_frame killAt (fun w a => callSlot_frame w a _ _) _ _).trans (Commit_frame _)
  rw [f1, f2, f3, f4, f5, f6, SetState_state]
  obtain ⟨g1, g3, g4, g5, g6, -⟩ := SetState_rest _ _
  exact ⟨rfl, g3, g4, g5, g6, g1⟩

theorem ProceedingRollingUpdate_world {w w1 : World} {instances : Int}
    (h : (ProceedingRollingUpdate w instances).world? = some w1) : SameFrame w w1 := by
  unfold ProceedingRollingUpdate at h
  split at h
  · simp only [Outcome.world?, Option.some.injEq] at h; subst h; exact SameFrame.refl w
  · split_ifs at h
    · simp only [Outcome.world?, Option.some.injEq] at h; subst h; exact SameFrame.refl w
    · split at h
      · simp [Outcome.world?] at h
      · split_ifs at h
        · simp only [Outcome.world?, Option.some.injEq] at h; subst h; exact SameFrame.refl w
        · simp only [Outcome.world?, Option.some.injEq] at h
          subst h
          exact ((BeginTx_frame w).trans
            (foldl_frame _ (fun w a => callSlot_frame w a _ _) _ _)).trans (Commit_frame _)

theorem CancelUpdate_ok {w w1 : World} (h : CancelUpdate w = Outcome.ok w1) :
    w.app.State = APP_STATE_MARK_FOR_UPDATING ∧
    w1.app.State = APP_STATE_MARK_FOR_CANCEL_UPDATE ∧
    w1.app.CurrentVersion = w.app.CurrentVersion ∧
    w1.app.ProposedVersion = w.app.ProposedVersion ∧ w1.app.Versions = w.app.Versions ∧
    w1.app.Mode = w.app.Mode ∧ w1.heap = w.heap := by
  unfold CancelUpdate at h
  split_ifs at h with h1
  split at h
  · cases h
  · rename_i c hc
    injection h with h
    subst h
    have hs : w.app.State = APP_STATE_MARK_FOR_UPDATING := by
      by_contra hne; exact h1 (Or.inl hne)
    refine ⟨hs, ?_⟩
    obtain ⟨f1, f2, f3, f4, f5, f6⟩ :=
      (cancelUpdateLoop_frame c _ _).trans (Commit_frame _)
    rw [f1, f2, f3, f4, f5, f6, SetState_state]
    obtain ⟨g1, g3, g4, g5, g6, -⟩ := SetState_rest _ _
    exact ⟨rfl, g3, g4, g5, g6, g1⟩

theorem Update_ok {E : Env} {w w1 : World} {version : VPtr} {now : Int}
    (h : Update E w version now = Outcome.ok w1) :
    w.app.State = APP_STATE_NORMAL ∧ w.app.ProposedVersion = none ∧
    w1.app.State = APP_STATE_MARK_FOR_UPDATING ∧
    w1.app.ProposedVersion = some version ∧
    w1.app.CurrentVersion = w.app.CurrentVersion ∧ w1.app.Versions = w.app.Versions ∧
    w1.app.Mode = w.app.Mode ∧
    ∃ c, w.app.CurrentVersion = some c ∧
      (w1.heap version).PerviousVersionID = (w1.heap c).ID := by
  unfold Update at h
  split_ifs at h with h1
  have h1' : w.app.State = APP_STATE_NORMAL ∧ w.app.ProposedVersion = none := by
    simpa [StateIs] using h1
  split at h
  · cases h
  · rename_i heap1 hv
    simp only [checkProposedVersionValid] at h
    split at h
    · cases h
    · rename_i c hc
      injection h with h
      subst h
      refine ⟨h1'.1, h1'.2, ?_⟩
      obtain ⟨f1, f2, f3, f4, f5, f6⟩ := (callSlot_frame _ 0 _ _).trans (Commit_frame _)
      unfold updateTaskAt
      rw [f1, f2, f3, f4, f5, f6]
      obtain ⟨g1, g3, g4, g5, g6, -⟩ := SetState_rest (BeginTx { w with heap := heap1 })
        APP_STATE_MARK_FOR_UPDATING
      refine ⟨SetState_state _ _, rfl, g3, g5, g6, c, hc, ?_⟩
      simp only [Heap.set, if_true]
      by_cases hcv : c = version
      · simp [hcv]
      · simp [hcv]

theorem Update_error_world {E : Env} {w w1 : World} {version : VPtr} {now : Int} {msg : String}
    (h : Update E w version now = Outcome.error msg w1) :
    w1.app.State = w.app.State ∧ w1.app.ProposedVersion = w.app.ProposedVersion ∧
    w1.app.CurrentVersion = w.app.CurrentVersion ∧
    (w.app.State = APP_STATE_NORMAL ∨ w1.heap = w.heap) := by
  obtain ⟨u1, u2, u3, -⟩ := Update_error E w version now msg w1 h
  refine ⟨u1, u3, u2, ?_⟩
  unfold Update at h
  split_ifs at h with h1
  · injection h with _ h; subst h; exact Or.inr rfl
  · left
    have h1' : w.app.State = APP_STATE_NORMAL ∧ w.app.ProposedVersion = none := by
      simpa [StateIs] using h1
    exact h1'.1

theorem NewApp_ok {E : Env} {heap : Heap} {trace : List Effect} {version : VPtr} {now : Int}
    {clusterId : String} {createAppErr : Option String} {w : World}
    (h : NewApp E heap trace version now clusterId createAppErr = NewAppResult.ok w) :
    w.app.State = APP_STATE_MARK_FOR_CREATING ∧ w.app.ProposedVersion = none ∧
    w.app.CurrentVersion = some version ∧ w.app.Versions = [some version] := by
  unfold NewApp at h
  split at h
  · cases h
  · simp only at h
    split at h
    · cases h
    · injection h with h
      subst h
      have hc : ∀ w0 : World, SameFrame w0 (create w0) := fun _ => ⟨rfl, rfl, rfl, rfl, rfl, rfl⟩
      obtain ⟨-, f2, f3, f4, f5, -⟩ := hc (SetState (newAppLoop version _ 0 _) APP_STATE_MARK_FOR_CREATING)
      rw [f2, f3, f4, f5, SetState_state]
      obtain ⟨-, g3, g4, g5, -, -⟩ := SetState_rest (newAppLoop version _ 0 _) APP_STATE_MARK_FOR_CREATING
      rw [g3, g4, g5]
      obtain ⟨-, -, k3, k4, k5, -⟩ := newAppLoop_frame version _ 0 _
      rw [k3, k4, k5]
      split_ifs <;> exact ⟨rfl, rfl, rfl, rfl⟩

theorem lookup_mapSlots (f : Slot → Slot) (m : SlotMap) (i : Int) :
    (m.mapSlots f).lookup i = (m.lookup i).map f := by
  unfold SlotMap.mapSlots AList.lookup
  exact List.dlookup_map₂ (γ := fun _ => Slot) (δ := fun _ => Slot) (l := m.entries)
    (f := fun _ => f) i

theorem commitProposedVersion_fields (w : World) :
    (commitProposedVersion w).app.State = APP_STATE_NORMAL ∧
    (commitProposedVersion w).app.CurrentVersion = w.app.ProposedVersion ∧
    (commitProposedVersion w).app.Versions = w.app.Versions ++ [w.app.ProposedVersion] ∧
    (commitProposedVersion w).app.ProposedVersion = none ∧
    (commitProposedVersion w).heap = w.heap ∧
    (commitProposedVersion w).app.slots =
      w.app.slots.mapSlots (fun slot => slot.SetMarkForRollingUpdate false) := by
  unfold commitProposedVersion
  obtain ⟨g1, g3, g4, g5, g6, g7⟩ := SetState_rest w APP_STATE_NORMAL
  simp only [SetState_state, g1, g4, g5, g7]
  exact ⟨trivial, trivial, trivial, trivial, trivial, trivial⟩

theorem revertProposedVersion_fields (w : World) :
    (revertProposedVersion w).app.State = APP_STATE_NORMAL ∧
    (revertProposedVersion w).app.CurrentVersion = w.app.CurrentVersion ∧
    (revertProposedVersion w).app.Versions = w.app.Versions ∧
    (revertProposedVersion w).app.ProposedVersion = none ∧
    (revertProposedVersion w).heap = w.heap ∧
    (revertProposedVersion w).app.slots =
      w.app.slots.mapSlots (fun slot => slot.SetMarkForRollingUpdate false) := by
  unfold revertProposedVersion
  obtain ⟨g1, g3, g4, g5, g6, g7⟩ := SetState_rest w APP_STATE_NORMAL
  simp only [SetState_state, g1, g3, g5, g7]
  exact ⟨trivial, trivial, trivial, trivial, trivial, trivial⟩

/-- The worlds that the switch of `Reevaluate` can produce. -/
theorem reevaluateSwitch_cases {w w2 : World} (h : reevaluateSwitch w = some w2) :
    w2 = w ∨
    (w.app.State = APP_STATE_MARK_FOR_UPDATING ∧ w2 = commitProposedVersion w ∧
      ∃ c, w.app.CurrentVersion = some c ∧
        RollingUpdateInstances w = (w.heap c).Instances.val ∧
        RunningInstances w = (w.heap c).Instances.val) ∨
    (w.app.State = APP_STATE_MARK_FOR_CANCEL_UPDATE ∧ w2 = revertProposedVersion w ∧
      ∃ slot0 c, w.app.slots.lookup 0 = some slot0 ∧ w.app.CurrentVersion = some c ∧
        slot0.Version = c ∧ RunningInstances w = (w.heap c).Instances.val) ∨
    ((w.app.State = APP_STATE_MARK_FOR_CREATING ∨ w.app.State = APP_STATE_MARK_FOR_SCALE_UP ∨
        w.app.State = APP_STATE_MARK_FOR_SCALE_DOWN) ∧ w2 = SetState w APP_STATE_NORMAL) := by
  unfold reevaluateSwitch at h
  split_ifs at h with h1 h2 h3 h4 h5 h6 h7
  · left; injection h with h; exact h.symm
  · left; injection h with h; exact h.symm
  · split at h
    · cases h
    · rename_i c hc
      split_ifs at h with hcond
      · injection h with h
        exact Or.inr (Or.inl ⟨h3, h.symm, c, hc, hcond.1, hcond.2⟩)
      · left; injection h with h; exact h.symm
  · split at h
    · cases h
    · rename_i slot0 hs
      split at h
      · left; injection h with h; exact h.symm
      · rename_i c hc
        split_ifs at h with ha
        · injection h with h
          exact Or.inr (Or.inr (Or.inl ⟨h4, h.symm, slot0, c, hs, hc, ha.1, ha.2⟩))
        · left; injection h with h; exact h.symm
  · split at h
    · cases h
    · split_ifs at h
      · injection h with h
        exact Or.inr (Or.inr (Or.inr ⟨Or.inl h5, h.symm⟩))
      · left; injection h with h; exact h.symm
  · split at h
    · cases h
    · split_ifs at h
      · injection h with h
        exact Or.inr (Or.inr (Or.inr ⟨Or.inr (Or.inl h6), h.symm⟩))
      · left; injection h with h; exact h.symm
  · split at h
    · cases h
    · split_ifs at h
      · injection h with h
        exact Or.inr (Or.inr (Or.inr ⟨Or.inr (Or.inr h7), h.symm⟩))
      · left; injection h with h; exact h.symm
  · left; injection h with h; exact h.symm

theorem Reevaluate_eq {w w1 : World} (h : Reevaluate w = some w1) :
    ∃ w2, reevaluateSwitch w = some w2 ∧ w1 = Touch w2 false := by
  unfold Reevaluate at h
  cases hs : reevaluateSwitch w with
  | none => simp [hs] at h
  | some w2 =>
    refine ⟨w2, rfl, ?_⟩
    simp [hs] at h
    exact h.symm

theorem world?_eq_some {o : Outcome} {w1 : World} (h : o.world? = some w1) :
    o = Outcome.ok w1 ∨ ∃ msg, o = Outcome.error msg w1 := by
  cases o with
  | ok w => left; simp only [Outcome.world?, Option.some.injEq] at h; rw [h]
  | error msg w => right; simp only [Outcome.world?, Option.some.injEq] at h; exact ⟨msg, by rw [h]⟩
  | panic => simp [Outcome.world?] at h

/-! ## Invariants of the life of an app -/

/-- A proposed version is present only in the states `updating`, `cancel_update` and
`deleting`. -/
theorem proposed_only_while_updating {E : Env} {w : World} (hw : Reachable E w) :
    w.app.ProposedVersion ≠ none →
      w.app.State = APP_STATE_MARK_FOR_UPDATING ∨
      w.app.State = APP_STATE_MARK_FOR_CANCEL_UPDATE ∨
      w.app.State = APP_STATE_MARK_FOR_DELETION := by
  induction hw with
  | NewApp heap trace version now clusterId createAppErr h =>
    intro hp
    exact absurd (NewApp_ok h).2.1 hp
  | step hw hs ih =>
    rename_i w w1
    have hnone : ∀ s : String, w.app.State = s → s ≠ APP_STATE_MARK_FOR_UPDATING →
        s ≠ APP_STATE_MARK_FOR_CANCEL_UPDATE → s ≠ APP_STATE_MARK_FOR_DELETION →
        w.app.ProposedVersion = none := by
      intro s hs1 n1 n2 n3
      by_contra hp
      rcases ih hp with h | h | h
      · exact n1 (hs1.symm.trans h)
      · exact n2 (hs1.symm.trans h)
      · exact n3 (hs1.symm.trans h)
    cases hs with
    | ScaleUp newInstances newIps now h =>
      rcases world?_eq_some h with h | ⟨msg, h⟩
      · obtain ⟨a, b, c, d, -⟩ := ScaleUp_ok h
        intro hp
        rw [d] at hp
        exact absurd (hnone _ a (by decide) (by decide) (by decide)) hp
      · rw [ScaleUp_error _ _ _ _ _ _ h]; exact ih
    | ScaleDown removeInstances now h =>
      rcases world?_eq_some h with h | ⟨msg, h⟩
      · obtain ⟨a, b, c, d, -⟩ := ScaleDown_ok h
        intro hp
        rw [d] at hp
        exact absurd (hnone _ a (by decide) (by decide) (by decide)) hp
      · rw [ScaleDown_error _ _ _ _ _ h]; exact ih
    | Update version now h =>
      rcases world?_eq_some h with h | ⟨msg, h⟩
      · intro _
        exact Or.inl (Update_ok h).2.2.1
      · obtain ⟨a, b, -⟩ := Update_error_world h
        rw [a, b]; exact ih
    | ProceedingRollingUpdate instances h =>
      obtain ⟨-, a, -, b, -⟩ := ProceedingRollingUpdate_world h
      rw [a, b]; exact ih
    | CancelUpdate h =>
      rcases world?_eq_some h with h | ⟨msg, h⟩
      · intro _
        exact Or.inr (Or.inl (CancelUpdate_ok h).2.1)
      · rw [CancelUpdate_error _ _ _ h]; exact ih
    | Delete h =>
      intro _
      exact Or.inr (Or.inr (Delete_ok h).1)
    | Reevaluate h =>
      obtain ⟨w2, hsw, rfl⟩ := Reevaluate_eq h
      obtain ⟨-, a, -, b, -⟩ := Touch_frame w2 false
      rw [a, b]
      rcases reevaluateSwitch_cases hsw with rfl | ⟨-, rfl, -⟩ | ⟨-, rfl, -⟩ | ⟨hst, rfl⟩
      · exact ih
      · intro hp; exact absurd (commitProposedVersion_fields w).2.2.2.1 hp
      · intro hp; exact absurd (revertProposedVersion_fields w).2.2.2.1 hp
      · intro hp
        rw [(SetState_rest w _).2.2.1] at hp
        rcases hst with hst | hst | hst
        · exact absurd (hnone _ hst (by decide) (by decide) (by decide)) hp
        · exact absurd (hnone _ hst (by decide) (by decide) (by decide)) hp
        · exact absurd (hnone _ hst (by decide) (by decide) (by decide)) hp
    | slots m => exact ih

/-- While an app is in state `updating`, its proposed version carries the identifier of the
current version as its previous-version identifier: `Update` has set it. -/
theorem proposed_back_reference {E : Env} {w : World} (hw : Reachable E w) :
    w.app.State = APP_STATE_MARK_FOR_UPDATING →
      ∃ p c, w.app.ProposedVersion = some p ∧ w.app.CurrentVersion = some c ∧
        (w.heap p).PerviousVersionID = (w.heap c).ID := by
  induction hw with
  | NewApp heap trace version now clusterId createAppErr h =>
    intro hs
    rw [(NewApp_ok h).1] at hs
    exact absurd hs (by decide)
  | step hw hs ih =>
    rename_i w w1
    cases hs with
    | ScaleUp newInstances newIps now h =>
      rcases world?_eq_some h with h | ⟨msg, h⟩
      · intro hs; rw [(ScaleUp_ok h).2.1] at hs; exact absurd hs (by decide)
      · rw [ScaleUp_error _ _ _ _ _ _ h]; exact ih
    | ScaleDown removeInstances now h =>
      rcases world?_eq_some h with h | ⟨msg, h⟩
      · intro hs; rw [(ScaleDown_ok h).2.1] at hs; exact absurd hs (by decide)
      · rw [ScaleDown_error _ _ _ _ _ h]; exact ih
    | Update version now h =>
      rcases world?_eq_some h with h | ⟨msg, h⟩
      · intro _
        obtain ⟨-, -, -, a, b, -, -, c, hc, hprev⟩ := Update_ok h
        exact ⟨version, c, a, b.trans hc, hprev⟩
      · obtain ⟨a, b, c, d⟩ := Update_error_world h
        intro hs
        rw [a] at hs
        rcases d with d | d
        · rw [d] at hs; exact absurd hs (by decide)
        · rw [b, c, d]; exact ih hs
    | ProceedingRollingUpdate instances h =>
      obtain ⟨a, b, c, d, -⟩ := ProceedingRollingUpdate_world h
      rw [a, b, c, d]; exact ih
    | CancelUpdate h =>
      rcases world?_eq_some h with h | ⟨msg, h⟩
      · intro hs; rw [(CancelUpdate_ok h).2.1] at hs; exact absurd hs (by decide)
      · rw [CancelUpdate_error _ _ _ h]; exact ih
    | Delete h =>
      intro hs; rw [(Delete_ok h).1] at hs; exact absurd hs (by decide)
    | Reevaluate h =>
      obtain ⟨w2, hsw, rfl⟩ := Reevaluate_eq h
      obtain ⟨a, b, c, d, -⟩ := Touch_frame w2 false
      rw [a, b, c, d]
      rcases reevaluateSwitch_cases hsw with rfl | ⟨-, rfl, -⟩ | ⟨-, rfl, -⟩ | ⟨hst, rfl⟩
      · exact ih
      · intro hs; rw [(commitProposedVersion_fields w).1] at hs; exact absurd hs (by decide)
      · intro hs; rw [(revertProposedVersion_fields w).1] at hs; exact absurd hs (by decide)
      · intro hs; rw [SetState_state] at hs; exact absurd hs (by decide)
    | slots m => exact ih

theorem reachable_run0 : Reachable asciiEnv run0 :=
  Reachable.NewApp sampleHeap [] 1 100 "cluster" none rfl

theorem reachable_run1 : Reachable asciiEnv run1 :=
  (reachable_run0.step (Step.slots run0 _)).step (Step.Reevaluate (w := allRunning run0) rfl)

theorem reachable_run2 : Reachable asciiEnv run2 :=
  reachable_run1.step (Step.Update 2 200 rfl)

theorem reachable_run3 : Reachable asciiEnv run3 :=
  reachable_run2.step (Step.CancelUpdate rfl)

theorem reachable_run4 : Reachable asciiEnv run4 :=
  reachable_run3.step (Step.ProceedingRollingUpdate 1 rfl)

theorem reachable_run5 : Reachable asciiEnv run5 :=
  (reachable_run4.step (Step.slots run4 _)).step (Step.Reevaluate (w := allRunning run4) rfl)

theorem reachable_run6 : Reachable asciiEnv run6 :=
  (reachable_run2.step (Step.ProceedingRollingUpdate 1 rfl)).step (Step.slots _ _)


theorem Touch_slots (w : World) (force : Bool) : (Touch w force).app.slots = w.app.slots := by
  unfold Touch update
  split_ifs <;> rfl

/-- C1: rolling-update completion. For every app in state `updating` with proposed version
`p` (and a current version `c`), `Reevaluate` returns, and it moves the app to `normal`
exactly when the number of slots marked for rolling update and the number of running slots
both equal `CurrentVersion.Instances`. When it does, the history is the old history with
the one element `p` appended, the current version is `p`, the proposed version is nil, no
slot is marked for rolling update and no version object has changed; when it does not, the
state, the history, the current and the proposed version are unchanged. For an app that
`NewApp` has returned and that went through any sequence of operations, `p` carries the
identifier of the version that was current before as its `PerviousVersionID`. -/
theorem rolling_update_completion (E : Env) :
    (∀ (w : World) (p c : VPtr),
      w.app.State = APP_STATE_MARK_FOR_UPDATING → w.app.ProposedVersion = some p →
      w.app.CurrentVersion = some c →
      ∃ w1, Reevaluate w = some w1 ∧
        (w1.app.State = APP_STATE_NORMAL ↔
          (RollingUpdateInstances w = (w.heap c).Instances.val ∧
            RunningInstances w = (w.heap c).Instances.val)) ∧
        (w1.app.State = APP_STATE_NORMAL →
          w1.app.Versions = w.app.Versions ++ [some p] ∧ w1.app.CurrentVersion = some p ∧
          w1.app.ProposedVersion = none ∧
          (∀ i slot, w1.app.slots.lookup i = some slot → slot.markForRollingUpdate = false) ∧
          w1.heap = w.heap) ∧
        (w1.app.State ≠ APP_STATE_NORMAL →
          w1.app.State = w.app.State ∧ w1.app.Versions = w.app.Versions ∧
          w1.app.CurrentVersion = w.app.CurrentVersion ∧
          w1.app.ProposedVersion = w.app.ProposedVersion)) ∧
    (∀ (w w1 : World) (p c : VPtr), Reachable E w →
      w.app.State = APP_STATE_MARK_FOR_UPDATING → w.app.ProposedVersion = some p →
      w.app.CurrentVersion = some c → Reevaluate w = some w1 →
      (w1.heap p).PerviousVersionID = (w.heap c).ID) := by
  constructor
  · intro w p c hs hp hc
    have hsw : reevaluateSwitch w =
        if RollingUpdateInstances w = (w.heap c).Instances.val ∧
            RunningInstances w = (w.heap c).Instances.val
        then some (commitProposedVersion w) else some w := by
      unfold reevaluateSwitch
      rw [if_neg (by rw [hs]; decide), if_neg (by rw [hs]; decide), if_pos hs]
      simp only [hc]
    by_cases hcond : RollingUpdateInstances w = (w.heap c).Instances.val ∧
        RunningInstances w = (w.heap c).Instances.val
    · rw [if_pos hcond] at hsw
      refine ⟨Touch (commitProposedVersion w) false, by simp [Reevaluate, hsw], ?_⟩
      obtain ⟨f1, f2, f3, f4, f5, -⟩ := Touch_frame (commitProposedVersion w) false
      obtain ⟨c1, c2, c3, c4, c5, c6⟩ := commitProposedVersion_fields w
      have hst : (Touch (commitProposedVersion w) false).app.State = APP_STATE_NORMAL :=
        f2.trans c1
      refine ⟨⟨fun _ => hcond, fun _ => hst⟩, fun _ => ?_, fun hne => absurd hst hne⟩
      refine ⟨by rw [f5, c3, hp], by rw [f3, c2, hp], by rw [f4, c4], ?_, by rw [f1, c5]⟩
      intro i slot hl
      rw [Touch_slots, c6, lookup_mapSlots] at hl
      cases hl0 : w.app.slots.lookup i with
      | none => simp [hl0] at hl
      | some s0 =>
        simp only [hl0, Option.map_some', Option.some.injEq] at hl
        rw [← hl]; rfl
    · rw [if_neg hcond] at hsw
      refine ⟨Touch w false, by simp [Reevaluate, hsw], ?_⟩
      obtain ⟨f1, f2, f3, f4, f5, -⟩ := Touch_frame w false
      have hst : (Touch w false).app.State ≠ APP_STATE_NORMAL := by
        rw [f2, hs]; decide
      exact ⟨⟨fun h => absurd h hst, fun h => absurd h hcond⟩, fun h => absurd h hst,
        fun _ => ⟨f2, f5, f3, f4⟩⟩
  · intro w w1 p c hw hs hp hc hr
    obtain ⟨p1, c1, hp1, hc1, hprev⟩ := proposed_back_reference hw hs
    rw [hp] at hp1
    rw [hc] at hc1
    injection hp1 with hp1
    injection hc1 with hc1
    subst hp1
    subst hc1
    obtain ⟨w2, hsw, rfl⟩ := Reevaluate_eq hr
    rw [(Touch_frame w2 false).1]
    rcases reevaluateSwitch_cases hsw with rfl | ⟨-, rfl, -⟩ | ⟨-, rfl, -⟩ | ⟨-, rfl⟩
    · exact hprev
    · rw [(commitProposedVersion_fields w).2.2.2.2.1]; exact hprev
    · rw [(revertProposedVersion_fields w).2.2.2.2.1]; exact hprev
    · rw [(SetState_rest w _).1]; exact hprev

/-- Witness for C1: in the sample run, after `Update` and `ProceedingRollingUpdate(1)` both
slots are marked and run; `Reevaluate` completes the update. -/
theorem rolling_update_completion_witness :
    (∃ w1, Reevaluate run6 = some w1 ∧
        (w1.app.State = APP_STATE_NORMAL ↔
          (RollingUpdateInstances run6 = (run6.heap 1).Instances.val ∧
            RunningInstances run6 = (run6.heap 1).Instances.val)) ∧
        (w1.app.State = APP_STATE_NORMAL →
          w1.app.Versions = run6.app.Versions ++ [some 2] ∧ w1.app.CurrentVersion = some 2 ∧
          w1.app.ProposedVersion = none ∧
          (∀ i slot, w1.app.slots.lookup i = some slot → slot.markForRollingUpdate = false) ∧
          w1.heap = run6.heap) ∧
        (w1.app.State ≠ APP_STATE_NORMAL →
          w1.app.State = run6.app.State ∧ w1.app.Versions = run6.app.Versions ∧
          w1.app.CurrentVersion = run6.app.CurrentVersion ∧
          w1.app.ProposedVersion = run6.app.ProposedVersion)) ∧
    (run6.heap 2).PerviousVersionID = (run6.heap 1).ID :=
  ⟨(rolling_update_completion asciiEnv).1 run6 2 1 (by decide) (by decide) (by decide),
   (rolling_update_completion asciiEnv).2 run6 ((Reevaluate run6).getD sampleWorld) 2 1
      reachable_run6 (by decide) (by decide) (by decide) rfl⟩

/-- C2: for every app that `NewApp` has returned and that went through any finite sequence
of `ScaleUp`, `ScaleDown`, `Update`, `ProceedingRollingUpdate`, `CancelUpdate`, `Delete` and
`Reevaluate` calls, successful or failing, with arbitrary changes of its slots in between:
in state `normal` the proposed version is nil; a proposed version is present only in the
states `updating`, `cancel_update` and `deleting`. -/
theorem normal_has_no_proposed_version (E : Env) (w : World) (hw : Reachable E w) :
    (w.app.State = APP_STATE_NORMAL → w.app.ProposedVersion = none) ∧
    (w.app.ProposedVersion ≠ none →
      w.app.State = APP_STATE_MARK_FOR_UPDATING ∨
      w.app.State = APP_STATE_MARK_FOR_CANCEL_UPDATE ∨
      w.app.State = APP_STATE_MARK_FOR_DELETION) := by
  refine ⟨fun hs => ?_, proposed_only_while_updating hw⟩
  by_contra hp
  rcases proposed_only_while_updating hw hp with h | h | h
  · rw [hs] at h; exact absurd h (by decide)
  · rw [hs] at h; exact absurd h (by decide)
  · rw [hs] at h; exact absurd h (by decide)

/-- Witness for C2: the sample run after the cancelled update is in state `normal` and has
no proposed version; in the middle of the update it has one and is in state `updating`. -/
theorem normal_has_no_proposed_version_witness :
    run5.app.ProposedVersion = none ∧
    (run2.app.State = APP_STATE_MARK_FOR_UPDATING ∨
      run2.app.State = APP_STATE_MARK_FOR_CANCEL_UPDATE ∨
      run2.app.State = APP_STATE_MARK_FOR_DELETION) :=
  ⟨(normal_has_no_proposed_version asciiEnv run5 reachable_run5).1 (by decide),
   (normal_has_no_proposed_version asciiEnv run2 reachable_run2).2 (by decide)⟩

/-! ## Where the code departs from the specification -/

/-- C3, evaluated on the sample run: `NewApp` with two instances, both tasks run and the
app is reevaluated (`normal`), `Update` to the version at address 2 (slot 0 is replaced),
`CancelUpdate` (slot 0 goes back to the version at address 1), `ProceedingRollingUpdate(1)`,
which the code accepts in state `cancel_update` (slot 1 is bound to the version at address 2),
both tasks run and the app is reevaluated. The app is then in state `normal` with the version
at address 1 as its current version, while slot 1 is bound to the version at address 2. -/
theorem normal_with_slot_of_other_version :
    Reachable asciiEnv run5 ∧ run3.app.State = APP_STATE_MARK_FOR_CANCEL_UPDATE ∧
    run5.app.State = APP_STATE_NORMAL ∧ run5.app.CurrentVersion = some 1 ∧
    (run5.app.slots.lookup 0).map Slot.Version = some 1 ∧
    (run5.app.slots.lookup 1).map Slot.Version = some 2 :=
  ⟨reachable_run5, by decide, by decide, by decide, by decide, by decide⟩

/-- C4, evaluated on the sample run: after `NewApp` and `Reevaluate` the app is in state
`normal` and runs a version of two instances; a version of three instances passes
validation, and `Update` accepts it: it returns no error, the app is in state `updating` and
the version is its proposed version. -/
theorem update_accepts_other_instance_count :
    Reachable asciiEnv run1 ∧
    run1.app.State = APP_STATE_NORMAL ∧ run1.app.ProposedVersion = none ∧
    run1.app.CurrentVersion = some 1 ∧
    (run1.heap 1).Instances.val = 2 ∧ (run1.heap 2).Instances.val = 3 ∧
    (validateAndFormatVersion asciiEnv run1.heap 2).2 = none ∧
    ∃ w1, Update asciiEnv run1 2 200 = Outcome.ok w1 ∧
      w1.app.State = APP_STATE_MARK_FOR_UPDATING ∧ w1.app.ProposedVersion = some 2 :=
  ⟨reachable_run1, by decide, by decide, by decide, by decide, by decide, by decide,
    _, rfl, by decide, by decide⟩

/-- C6, evaluated on the sample run: after `CancelUpdate` the app is in state
`cancel_update` and still has its proposed version; `ProceedingRollingUpdate(1)` returns no
error and replaces the task of slot 1 by one of the proposed version. -/
theorem proceeding_accepted_in_cancel_update :
    Reachable asciiEnv run3 ∧
    run3.app.State = APP_STATE_MARK_FOR_CANCEL_UPDATE ∧ run3.app.ProposedVersion = some 2 ∧
    ∃ w1, ProceedingRollingUpdate run3 1 = Outcome.ok w1 ∧
      w1.trace = run3.trace ++ [Effect.UpdateTask 1 2 true, Effect.UpdateApp] ∧
      (w1.app.slots.lookup 1).map Slot.Version = some 2 :=
  ⟨reachable_run3, by decide, by decide, _, rfl, by decide, by decide⟩

/-- C9, evaluated on the sample run: after `NewApp` and `Reevaluate` the app is in state
`normal` with two instances; `ScaleDown(-1)` returns no error and leaves three instances,
`ScaleDown(0)` returns no error and leaves two. -/
theorem scale_down_by_negative_increases :
    Reachable asciiEnv run1 ∧
    run1.app.State = APP_STATE_NORMAL ∧ (run1.heap 1).Instances.val = 2 ∧
    (∃ w1, ScaleDown run1 (-1) 0 = Outcome.ok w1 ∧ (w1.heap 1).Instances.val = 3) ∧
    (∃ w1, ScaleDown run1 0 0 = Outcome.ok w1 ∧ (w1.heap 1).Instances.val = 2) :=
  ⟨reachable_run1, by decide, by decide, ⟨_, rfl, by decide⟩, ⟨_, rfl, by decide⟩⟩

/-! ## Calls into the slot layer -/

theorem dlookup_kreplace (i j : Int) (s : Slot) (l : List (Sigma fun _ : Int => Slot)) :
    List.dlookup j (List.kreplace i s l) =
      if j = i then (List.dlookup i l).map (fun _ => s) else List.dlookup j l := by
  induction l with
  | nil => simp [List.kreplace]
  | cons x l ih =>
    obtain ⟨k, v⟩ := x
    by_cases hk : i = k
    · subst hk
      have h1 : List.kreplace i s (⟨i, v⟩ :: l) = ⟨i, s⟩ :: l := by
        unfold List.kreplace
        exact List.lookmap_cons_some _ l (by simp)
      rw [h1]
      by_cases hj : j = i
      · subst hj; simp
      · have hj1 : j ≠ (⟨i, s⟩ : Sigma fun _ : Int => Slot).1 := hj
        have hj2 : j ≠ (⟨i, v⟩ : Sigma fun _ : Int => Slot).1 := hj
        rw [List.dlookup_cons_ne l _ hj1, List.dlookup_cons_ne l _ hj2]
        simp [hj]
    · have h1 : List.kreplace i s (⟨k, v⟩ :: l) = ⟨k, v⟩ :: List.kreplace i s l := by
        unfold List.kreplace
        exact List.lookmap_cons_none _ l (by simp [hk])
      rw [h1]
      by_cases hjk : j = k
      · subst hjk
        have hji : j ≠ i := fun h => hk h.symm
        simp [hji]
      · have hj2 : j ≠ (⟨k, v⟩ : Sigma fun _ : Int => Slot).1 := hjk
        have hi2 : i ≠ (⟨k, v⟩ : Sigma fun _ : Int => Slot).1 := hk
        rw [List.dlookup_cons_ne _ _ hj2, List.dlookup_cons_ne l _ hi2, List.dlookup_cons_ne l _ hj2, ih]

theorem lookup_replace (m : SlotMap) (i j : Int) (s : Slot) :
    (m.replace i s).lookup j = if j = i then (m.lookup i).map (fun _ => s) else m.lookup j :=
  dlookup_kreplace i j s m.entries

theorem callSlot_lookup (w : World) (i j : Int) (f : Slot → Slot) (e : Effect) :
    (callSlot w i f e).app.slots.lookup j =
      if j = i then (w.app.slots.lookup i).map f else w.app.slots.lookup j := by
  unfold callSlot GetSlot
  cases h : w.app.slots.lookup i with
  | none =>
    by_cases hj : j = i
    · subst hj; simp [h]
    · simp [hj]
  | some s =>
    simp only [lookup_replace, h, Option.map_some']

theorem callSlot_trace (w : World) (i : Int) (f : Slot → Slot) (e : Effect) :
    (callSlot w i f e).trace =
      w.trace ++ (if (w.app.slots.lookup i).isSome then [e] else []) := by
  unfold callSlot GetSlot
  cases h : w.app.slots.lookup i <;> simp

theorem callSlot_keys (w : World) (i : Int) (f : Slot → Slot) (e : Effect) :
    (callSlot w i f e).app.slots.keys = w.app.slots.keys := by
  unfold callSlot GetSlot
  cases h : w.app.slots.lookup i with
  | none => rfl
  | some s => exact AList.keys_replace _ _ _

theorem callSlot_inTransaction (w : World) (i : Int) (f : Slot → Slot) (e : Effect) :
    (callSlot w i f e).app.inTransaction = w.app.inTransaction := by
  unfold callSlot GetSlot
  cases h : w.app.slots.lookup i <;> rfl

/-- A run of calls into the slot layer, one for each index of a list without repetitions,
all of which the map has: every call is recorded, in the order of the list, and the slots of
the list, and no others, have changed. -/
theorem foldl_callSlot (f : Int → Slot → Slot) (e : Int → Effect) (l : List Int) (w : World)
    (hnd : l.Nodup) (hmem : ∀ i ∈ l, (w.app.slots.lookup i).isSome) :
    (l.foldl (fun w i => callSlot w i (f i) (e i)) w).trace = w.trace ++ l.map e ∧
    (l.foldl (fun w i => callSlot w i (f i) (e i)) w).app.slots.keys = w.app.slots.keys ∧
    ∀ j, (l.foldl (fun w i => callSlot w i (f i) (e i)) w).app.slots.lookup j =
      if j ∈ l then (w.app.slots.lookup j).map (f j) else w.app.slots.lookup j := by
  induction l generalizing w with
  | nil => simp
  | cons a l ih =>
    have hnd' := (List.nodup_cons.mp hnd)
    have hmem' : ∀ i ∈ l, ((callSlot w a (f a) (e a)).app.slots.lookup i).isSome := by
      intro i hi
      rw [callSlot_lookup]
      have hia : i ≠ a := fun h => hnd'.1 (h ▸ hi)
      simp only [hia, if_false]
      exact hmem i (List.mem_cons_of_mem _ hi)
    obtain ⟨t, k, lk⟩ := ih (callSlot w a (f a) (e a)) hnd'.2 hmem'
    simp only [List.foldl_cons]
    refine ⟨?_, ?_, ?_⟩
    · rw [t, callSlot_trace]
      simp [hmem a (List.mem_cons_self _ _)]
    · rw [k, callSlot_keys]
    · intro j
      rw [lk, callSlot_lookup]
      by_cases hja : j = a
      · subst hja
        simp [hnd'.1]
      · simp [hja]

theorem SetState_inTransaction (w : World) (state : String) (h : w.app.inTransaction = true) :
    SetState w state = { w with app := { w.app with State := state, touched := true } } := by
  unfold SetState Touch
  simp [h]

theorem Commit_trace (w : World) : (Commit w).trace = w.trace ++ [Effect.UpdateApp] := rfl

theorem Commit_slots (w : World) : (Commit w).app.slots = w.app.slots := rfl

theorem Commit_heap (w : World) : (Commit w).heap = w.heap := rfl

/-- C10: for every app in state `normal` without a proposed version and with a current
version `c`, and every version `v` that validation accepts, `Update` returns no error.
Afterwards the state is `updating`, the proposed version is `v`, the `PerviousVersionID` of
`v` is the identifier of the current version, the current version and the history are
unchanged (no version object but `v` itself is written), and the replacement task is
dispatched for slot 0 only: the one call into the slot layer is `UpdateTask(v, true)` on
slot 0, if the app has a slot 0, and every other slot is as it was. -/
theorem update_starts_rolling_update (E : Env) (w : World) (v c : VPtr) (now : Int)
    (hs : w.app.State = APP_STATE_NORMAL) (hp : w.app.ProposedVersion = none)
    (hc : w.app.CurrentVersion = some c)
    (hv : (validateAndFormatVersion E w.heap v).2 = none) :
    ∃ w1, Update E w v now = Outcome.ok w1 ∧
      w1.app.State = APP_STATE_MARK_FOR_UPDATING ∧
      w1.app.ProposedVersion = some v ∧
      (w1.heap v).PerviousVersionID = (w1.heap c).ID ∧
      (v ≠ c → (w1.heap v).PerviousVersionID = (w.heap c).ID) ∧
      w1.app.CurrentVersion = some c ∧ w1.app.Versions = w.app.Versions ∧
      (∀ q, q ≠ v → w1.heap q = w.heap q) ∧
      w1.trace = w.trace ++
        (if (w.app.slots.lookup 0).isSome then [Effect.UpdateTask 0 v true] else []) ++
        [Effect.UpdateApp] ∧
      w1.app.slots.lookup 0 = (w.app.slots.lookup 0).map (fun slot => slot.UpdateTask v true) ∧
      (∀ i, i ≠ 0 → w1.app.slots.lookup i = w.app.slots.lookup i) ∧
      w1.app.slots.keys = w.app.slots.keys := by
  have h1 : (!StateIs w APP_STATE_NORMAL || w.app.ProposedVersion.isSome) = false := by
    simp [StateIs, hs, hp]
  cases hval : validateAndFormatVersion E w.heap v with
  | mk heap1 r =>
    rw [hval] at hv
    simp only at hv
    subst hv
    have hheap1 : ∀ q, q ≠ v → heap1 q = w.heap q := by
      intro q hq
      have : (validateAndFormatVersion E w.heap v).1 q = w.heap q := by
        simp [validateAndFormatVersion, Heap.set, hq]
      rw [hval] at this
      exact this
    have hU : Update E w v now = Outcome.ok (Commit (updateTaskAt
        { heap := (heap1.set v { (heap1 v) with ID := toString now }).set v
            { ((heap1.set v { (heap1 v) with ID := toString now }) v) with
              PerviousVersionID := ((heap1.set v { (heap1 v) with ID := toString now }) c).ID },
          app := { w.app with State := APP_STATE_MARK_FOR_UPDATING, touched := true,
                              inTransaction := true, ProposedVersion := some v },
          trace := w.trace } 0 v true)) := by
      unfold Update
      rw [h1]
      simp only [Bool.false_eq_true, if_false, hval, checkProposedVersionValid, BeginTx, hc]
      rw [SetState_inTransaction _ _ rfl]
    refine ⟨_, hU, ?_⟩
    unfold updateTaskAt
    obtain ⟨f1, f2, f3, f4, f5, f6⟩ := (callSlot_frame _ 0 _ _).trans (Commit_frame _)
    rw [f1, f2, f3, f4, f5, Commit_trace, callSlot_trace, Commit_slots, callSlot_lookup,
      callSlot_keys]
    refine ⟨rfl, rfl, ?_, ?_, hc, rfl, ?_, ?_, ?_, ?_, rfl⟩
    · simp only [Heap.set, if_true]
      by_cases hcv : c = v <;> simp [hcv]
    · intro hvc
      have hcv : c ≠ v := fun h => hvc h.symm
      simp only [Heap.set, if_true, hcv, if_false]
      rw [hheap1 c hcv]
    · intro q hq
      simp only [Heap.set, hq, if_false]
      exact hheap1 q hq
    · simp
    · simp
    · intro i hi
      rw [callSlot_lookup]
      simp [hi]

/-- Witness for C10 on the sample app, updated to the version at address 2. -/
theorem update_starts_rolling_update_witness :
    ∃ w1, Update asciiEnv sampleWorld 2 200 = Outcome.ok w1 ∧
      w1.app.State = APP_STATE_MARK_FOR_UPDATING ∧
      w1.app.ProposedVersion = some 2 ∧
      (w1.heap 2).PerviousVersionID = (w1.heap 1).ID ∧
      ((2 : VPtr) ≠ 1 → (w1.heap 2).PerviousVersionID = (sampleWorld.heap 1).ID) ∧
      w1.app.CurrentVersion = some 1 ∧ w1.app.Versions = sampleWorld.app.Versions ∧
      (∀ q, q ≠ 2 → w1.heap q = sampleWorld.heap q) ∧
      w1.trace = sampleWorld.trace ++
        (if (sampleWorld.app.slots.lookup 0).isSome then [Effect.UpdateTask 0 2 true] else []) ++
        [Effect.UpdateApp] ∧
      w1.app.slots.lookup 0 =
        (sampleWorld.app.slots.lookup 0).map (fun slot => slot.UpdateTask 2 true) ∧
      (∀ i, i ≠ 0 → w1.app.slots.lookup i = sampleWorld.app.slots.lookup i) ∧
      w1.app.slots.keys = sampleWorld.app.slots.keys :=
  update_starts_rolling_update asciiEnv sampleWorld 2 1 200 (by decide) (by decide)
    (by decide) (by decide)

/-! ## Index ranges -/

theorem int32_val_of_range (x : Int) (h1 : -2147483648 ≤ x) (h2 : x ≤ 2147483647) :
    (int32 x).val = x := by
  unfold int32
  simp only
  omega

theorem mem_map_range (a : Int) (n : Nat) (j : Int) :
    j ∈ (List.range n).map (fun k : Nat => a + (k : Int)) ↔ a ≤ j ∧ j < a + (n : Int) := by
  simp only [List.mem_map, List.mem_range]
  constructor
  · rintro ⟨k, hk, rfl⟩
    omega
  · rintro ⟨h1, h2⟩
    refine ⟨(j - a).toNat, ?_, ?_⟩ <;> omega

theorem nodup_map_range (a : Int) (n : Nat) :
    ((List.range n).map (fun k : Nat => a + (k : Int))).Nodup := by
  refine (List.nodup_range n).map ?_
  intro x y h
  simp only at h
  omega

theorem count_map_range (g : Int → Effect) (hg : Function.Injective g) (a : Int) (n : Nat)
    (j : Int) :
    ((List.range n).map (fun k : Nat => g (a + (k : Int)))).count (g j) =
      if a ≤ j ∧ j < a + (n : Int) then 1 else 0 := by
  have hl : (List.range n).map (fun k : Nat => g (a + (k : Int))) =
      ((List.range n).map (fun k : Nat => a + (k : Int))).map g := by
    rw [List.map_map]; rfl
  rw [hl]
  split_ifs with h
  · exact List.count_eq_one_of_mem ((nodup_map_range a n).map hg)
      (List.mem_map_of_mem g ((mem_map_range a n j).mpr h))
  · refine List.count_eq_zero_of_not_mem ?_
    intro hm
    obtain ⟨x, hx, hxe⟩ := List.mem_map.mp hm
    rw [hg hxe] at hx
    exact h ((mem_map_range a n j).mp hx)

theorem scaleDownDefers_eq (instances : Int) (n : Nat) (stack : List Int) :
    scaleDownDefers instances n stack =
      (List.range n).map (fun k : Nat => instances + (k : Int)) ++ stack := by
  induction n generalizing stack with
  | zero => simp [scaleDownDefers]
  | succ n ih =>
    unfold scaleDownDefers
    rw [ih, List.range_succ, List.map_append]
    simp only [List.map_cons, List.map_nil, List.append_assoc, List.singleton_append]
    congr 2
    push_cast
    ring

/-- C8: for every app in state `normal` that has a slot at every index of `[0, old_n)`,
`old_n = CurrentVersion.Instances`, and every `delta` with `0 < delta < old_n`, `ScaleDown`
returns no error. Afterwards the instance count is `new_n = old_n - delta` (nothing else of a
version object has changed), the state is `scale_down`, `Kill` has been issued exactly once
to each slot with index in `[new_n, old_n)`, in ascending order, and to no other slot, and the
slot map has the keys it had: `ScaleDown` removes no slot. -/
theorem scale_down_kills_tail (w : World) (c : VPtr) (delta now : Int)
    (hs : w.app.State = APP_STATE_NORMAL) (hc : w.app.CurrentVersion = some c)
    (hslots : ∀ i, 0 ≤ i → i < (w.heap c).Instances.val → (w.app.slots.lookup i).isSome)
    (hd0 : 0 < delta) (hd1 : delta < (w.heap c).Instances.val) :
    ∃ w1, ScaleDown w delta now = Outcome.ok w1 ∧
      (w1.heap c).Instances.val = (w.heap c).Instances.val - delta ∧
      w1.heap = w.heap.set c { (w.heap c) with
        Instances := int32 ((w.heap c).Instances.val - delta) } ∧
      w1.app.State = APP_STATE_MARK_FOR_SCALE_DOWN ∧
      w1.trace = w.trace ++
        (List.range delta.toNat).map
          (fun k : Nat => Effect.Kill ((w.heap c).Instances.val - delta + (k : Int))) ++
        [Effect.UpdateApp] ∧
      (∀ i, w1.trace.count (Effect.Kill i) = w.trace.count (Effect.Kill i) +
        if (w.heap c).Instances.val - delta ≤ i ∧ i < (w.heap c).Instances.val then 1 else 0) ∧
      w1.app.slots.keys = w.app.slots.keys ∧
      (∀ i, w1.app.slots.lookup i =
        if (w.heap c).Instances.val - delta ≤ i ∧ i < (w.heap c).Instances.val
        then (w.app.slots.lookup i).map Slot.Kill else w.app.slots.lookup i) := by
  have hb := (w.heap c).Instances.property
  have hnew : (int32 ((w.heap c).Instances.val - delta)).val = (w.heap c).Instances.val - delta :=
    int32_val_of_range _ (by omega) (by omega)
  have hkill : killAt = fun w i => callSlot w i ((fun _ => Slot.Kill) i) (Effect.Kill i) := rfl
  have hU : ScaleDown w delta now = Outcome.ok (Commit
      (((List.range delta.toNat).map
          (fun k : Nat => (w.heap c).Instances.val - delta + (k : Int))).foldl killAt
        { heap := w.heap.set c { (w.heap c) with
            Instances := int32 ((w.heap c).Instances.val - delta) },
          app := { w.app with State := APP_STATE_MARK_FOR_SCALE_DOWN, touched := true,
                              inTransaction := true, Updated := now },
          trace := w.trace })) := by
    unfold ScaleDown
    have h1 : (!StateIs w APP_STATE_NORMAL) = false := by simp [StateIs, hs]
    rw [h1]
    simp only [Bool.false_eq_true, if_false, hc, BeginTx]
    rw [if_neg (by omega), SetState_inTransaction _ _ rfl, scaleDownDefers_eq]
    simp only [Heap.set, if_true, hnew, List.append_nil]
  refine ⟨_, hU, ?_⟩
  have hmem : ∀ i ∈ (List.range delta.toNat).map
      (fun k : Nat => (w.heap c).Instances.val - delta + (k : Int)),
      (w.app.slots.lookup i).isSome := by
    intro i hi
    have := (mem_map_range _ _ _).mp hi
    exact hslots i (by omega) (by omega)
  rw [hkill]
  obtain ⟨t, k, lk⟩ := foldl_callSlot (fun _ => Slot.Kill) Effect.Kill _
    { heap := w.heap.set c { (w.heap c) with
        Instances := int32 ((w.heap c).Instances.val - delta) },
      app := { w.app with State := APP_STATE_MARK_FOR_SCALE_DOWN, touched := true,
                          inTransaction := true, Updated := now },
      trace := w.trace } (nodup_map_range _ _) hmem
  obtain ⟨f1, f2, -⟩ := (foldl_frame _ (fun w a => callSlot_frame w a _ _) _ _).trans
    (Commit_frame ((List.foldl (fun w i => callSlot w i ((fun _ => Slot.Kill) i) (Effect.Kill i))
      { heap := w.heap.set c { (w.heap c) with
          Instances := int32 ((w.heap c).Instances.val - delta) },
        app := { w.app with State := APP_STATE_MARK_FOR_SCALE_DOWN, touched := true,
                            inTransaction := true, Updated := now },
        trace := w.trace }
      ((List.range delta.toNat).map
        (fun k : Nat => (w.heap c).Instances.val - delta + (k : Int))))))
  have htrace : (Commit ((List.foldl (fun w i => callSlot w i ((fun _ => Slot.Kill) i) (Effect.Kill i))
      { heap := w.heap.set c { (w.heap c) with
          Instances := int32 ((w.heap c).Instances.val - delta) },
        app := { w.app with State := APP_STATE_MARK_FOR_SCALE_DOWN, touched := true,
                            inTransaction := true, Updated := now },
        trace := w.trace }
      ((List.range delta.toNat).map
        (fun k : Nat => (w.heap c).Instances.val - delta + (k : Int)))))).trace =
      w.trace ++ (List.range delta.toNat).map
          (fun k : Nat => Effect.Kill ((w.heap c).Instances.val - delta + (k : Int))) ++
        [Effect.UpdateApp] := by
    rw [Commit_trace, t, List.map_map]
    rfl
  refine ⟨?_, f1, f2, htrace, ?_, ?_, ?_⟩
  · rw [f1]
    simp only [Heap.set, if_true, hnew]
  · intro i
    rw [htrace, List.count_append, List.count_append,
      count_map_range Effect.Kill (fun a b h => by injection h) _ _ i]
    have hn : ((delta.toNat : Nat) : Int) = delta := Int.toNat_of_nonneg (le_of_lt hd0)
    rw [hn]
    simp
  · rw [Commit_slots, k]
  · intro i
    rw [Commit_slots, lk]
    have hn : ((delta.toNat : Nat) : Int) = delta := Int.toNat_of_nonneg (le_of_lt hd0)
    simp only [mem_map_range, hn, sub_add_cancel]

/-- Witness for C8: the sample app of two instances is scaled down by one. -/
theorem scale_down_kills_tail_witness :
    ∃ w1, ScaleDown sampleWorld 1 0 = Outcome.ok w1 ∧
      (w1.heap 1).Instances.val = (sampleWorld.heap 1).Instances.val - 1 ∧
      w1.heap = sampleWorld.heap.set 1 { (sampleWorld.heap 1) with
        Instances := int32 ((sampleWorld.heap 1).Instances.val - 1) } ∧
      w1.app.State = APP_STATE_MARK_FOR_SCALE_DOWN ∧
      w1.trace = sampleWorld.trace ++
        (List.range (1 : Int).toNat).map
          (fun k : Nat => Effect.Kill ((sampleWorld.heap 1).Instances.val - 1 + (k : Int))) ++
        [Effect.UpdateApp] ∧
      (∀ i, w1.trace.count (Effect.Kill i) = sampleWorld.trace.count (Effect.Kill i) +
        if (sampleWorld.heap 1).Instances.val - 1 ≤ i ∧ i < (sampleWorld.heap 1).Instances.val
        then 1 else 0) ∧
      w1.app.slots.keys = sampleWorld.app.slots.keys ∧
      (∀ i, w1.app.slots.lookup i =
        if (sampleWorld.heap 1).Instances.val - 1 ≤ i ∧ i < (sampleWorld.heap 1).Instances.val
        then (sampleWorld.app.slots.lookup i).map Slot.Kill else sampleWorld.app.slots.lookup i) :=
  scale_down_kills_tail sampleWorld 1 1 0 (by decide) (by decide)
    (by
      intro i h0 h1
      have h2 : (sampleWorld.heap 1).Instances.val = 2 := by decide
      rw [h2] at h1
      have h3 : i = 0 ∨ i = 1 := by omega
      rcases h3 with rfl | rfl <;> decide)
    (by decide) (by decide)

theorem SetSlot_inTransaction (w : World) (index : Int) (slot : Slot)
    (h : w.app.inTransaction = true) :
    SetSlot w index slot =
      { w with app := { w.app with slots := w.app.slots.insert index slot, touched := true } } := by
  unfold SetSlot Touch
  simp [h]

/-- One iteration of the loop of `ScaleUp` inside the transaction. -/
theorem scaleUp_iteration (w : World) (c : VPtr) (index : Int)
    (h : w.app.inTransaction = true) :
    (dispatchNewTaskAt (SetSlot w index (NewSlot c index)) index (NewSlot c index).Version).trace
      = w.trace ++ [Effect.DispatchNewTask index c] ∧
    (∀ j, (dispatchNewTaskAt (SetSlot w index (NewSlot c index)) index
        (NewSlot c index).Version).app.slots.lookup j =
      if j = index then some (NewSlot c index) else w.app.slots.lookup j) ∧
    (dispatchNewTaskAt (SetSlot w index (NewSlot c index)) index
        (NewSlot c index).Version).app.inTransaction = true := by
  rw [SetSlot_inTransaction w index _ h]
  unfold dispatchNewTaskAt
  refine ⟨?_, ?_, ?_⟩
  · rw [callSlot_trace]
    simp [AList.lookup_insert, NewSlot]
  · intro j
    rw [callSlot_lookup]
    by_cases hj : j = index
    · subst hj
      simp [AList.lookup_insert, NewSlot, Slot.DispatchNewTask]
    · simp [hj, AList.lookup_insert_ne hj]
  · rw [callSlot_inTransaction]
    exact h

theorem scaleUpLoop_spec (c : VPtr) (n : Nat) (w : World) (h : w.app.inTransaction = true) :
    (scaleUpLoop c n w).trace = w.trace ++ (List.range n).map
      (fun k : Nat => Effect.DispatchNewTask ((w.heap c).Instances.val - (n : Int) + (k : Int)) c) ∧
    (∀ j, (scaleUpLoop c n w).app.slots.lookup j =
      if (w.heap c).Instances.val - (n : Int) ≤ j ∧ j < (w.heap c).Instances.val
      then some (NewSlot c j) else w.app.slots.lookup j) := by
  induction n generalizing w with
  | zero =>
    refine ⟨by simp [scaleUpLoop], fun j => ?_⟩
    have : ¬ ((w.heap c).Instances.val - ((0 : Nat) : Int) ≤ j ∧ j < (w.heap c).Instances.val) := by
      push_cast; omega
    simp only [scaleUpLoop, this, if_false]
  | succ n ih =>
    unfold scaleUpLoop
    simp only
    obtain ⟨t, l, tx⟩ := scaleUp_iteration w c ((w.heap c).Instances.val - ((n + 1 : Nat) : Int)) h
    have hheap : (dispatchNewTaskAt (SetSlot w ((w.heap c).Instances.val - ((n + 1 : Nat) : Int))
        (NewSlot c ((w.heap c).Instances.val - ((n + 1 : Nat) : Int))))
        ((w.heap c).Instances.val - ((n + 1 : Nat) : Int))
        (NewSlot c ((w.heap c).Instances.val - ((n + 1 : Nat) : Int))).Version).heap = w.heap :=
      ((SetSlot_frame w _ _).trans (callSlot_frame _ _ _ _)).1
    obtain ⟨t2, l2⟩ := ih _ tx
    rw [hheap] at t2 l2
    refine ⟨?_, fun j => ?_⟩
    · rw [t2, t, List.range_succ_eq_map, List.map_cons, List.map_map, List.append_assoc]
      congr 1
      simp only [List.singleton_append, List.cons.injEq]
      refine ⟨by push_cast; ring_nf, ?_⟩
      apply List.map_congr_left
      intro k _
      simp only [Function.comp]
      congr 1
      push_cast
      ring
    · rw [l2, l]
      by_cases h1 : (w.heap c).Instances.val - (n : Int) ≤ j ∧ j < (w.heap c).Instances.val
      · have h2 : (w.heap c).Instances.val - ((n + 1 : Nat) : Int) ≤ j ∧
            j < (w.heap c).Instances.val := by push_cast; omega
        simp only [h1, h2, and_self, if_true]
      · by_cases h3 : j = (w.heap c).Instances.val - ((n + 1 : Nat) : Int)
        · have h2 : (w.heap c).Instances.val - ((n + 1 : Nat) : Int) ≤ j ∧
              j < (w.heap c).Instances.val := by push_cast at h3 ⊢; omega
          rw [if_neg h1, if_pos h3, if_pos h2, h3]
        · have h2 : ¬ ((w.heap c).Instances.val - ((n + 1 : Nat) : Int) ≤ j ∧
              j < (w.heap c).Instances.val) := by push_cast at h3 ⊢; omega
          rw [if_neg h1, if_neg h3, if_neg h2]

/-- The version objects after the two assignments to `app.CurrentVersion` in `ScaleUp`. -/
theorem scaleUp_heap (h : Heap) (c : VPtr) (ips : List String) (d : Int) :
    (h.set c { (h c) with Ip := (h c).Ip ++ ips }).set c
        { ((h.set c { (h c) with Ip := (h c).Ip ++ ips }) c) with
          Instances := int32 (((h.set c { (h c) with Ip := (h c).Ip ++ ips }) c).Instances.val + d) }
      = h.set c { (h c) with Ip := (h c).Ip ++ ips, Instances := int32 ((h c).Instances.val + d) } := by
  funext q
  simp only [Heap.set]
  by_cases hq : q = c <;> simp [hq]

/-- What a successful `ScaleUp` has done: the loop has run, inside the transaction, on the
world `W` that the assignments before it have left, and `Commit` has followed. -/
theorem ScaleUp_eq (w : World) (c : VPtr) (delta now : Int) (ips : List String)
    (hs : w.app.State = APP_STATE_NORMAL) (hc : w.app.CurrentVersion = some c)
    (hd : 0 < delta) (hips : w.app.Mode = APP_MODE_FIXED → (ips.length : Int) = delta) :
    ∃ W : World, ScaleUp w delta ips now = Outcome.ok (Commit (scaleUpLoop c delta.toNat W)) ∧
      W.heap = w.heap.set c { (w.heap c) with
          Ip := (w.heap c).Ip ++ ips,
          Instances := int32 ((w.heap c).Instances.val + (int32 delta).val) } ∧
      W.trace = w.trace ∧ W.app.slots = w.app.slots ∧
      W.app.State = APP_STATE_MARK_FOR_SCALE_UP ∧
      W.app.CurrentVersion = w.app.CurrentVersion ∧ W.app.inTransaction = true := by
  refine ⟨World.mk (w.heap.set c { (w.heap c) with
          Ip := (w.heap c).Ip ++ ips,
          Instances := int32 ((w.heap c).Instances.val + (int32 delta).val) })
        { w.app with State := APP_STATE_MARK_FOR_SCALE_UP, touched := true,
                     inTransaction := true, Updated := now }
        w.trace, ?_, rfl, rfl, rfl, rfl, rfl, rfl⟩
  unfold ScaleUp
  have h1 : (!StateIs w APP_STATE_NORMAL) = false := by simp [StateIs, hs]
  have h3 : (IsFixed w && decide ((ips.length : Int) ≠ delta)) = false := by
    by_cases hm : w.app.Mode = APP_MODE_FIXED
    · simp [IsFixed, hm, hips hm]
    · simp [IsFixed, hm]
  rw [h1, h3]
  simp only [Bool.false_eq_true, if_false, BeginTx, hc]
  rw [if_neg (by omega), SetState_inTransaction _ _ rfl, scaleUp_heap]

/-- C7, as amended: for every app in state `normal` whose slot indices are exactly `[0, n)`
with `n = CurrentVersion.Instances`, `0 <= n`, every `delta > 0` with
`n + delta <= 2147483647` and, for a fixed-mode app, every list of exactly `delta` IPs,
`ScaleUp` returns no error. Afterwards the instance count is `n + delta`, the slot indices
are exactly `[0, n + delta)`, the slots at the indices `[0, n)` are the slots they were, each
slot at an index of `[n, n + delta)` is new, bound to the current version, and has had
exactly one task dispatched, and the state is `scale_up`. -/
theorem scale_up_adds_slots (w : World) (c : VPtr) (delta now : Int) (ips : List String)
    (hs : w.app.State = APP_STATE_NORMAL) (hc : w.app.CurrentVersion = some c)
    (hn : 0 ≤ (w.heap c).Instances.val)
    (hkeys : ∀ i, i ∈ w.app.slots ↔ 0 ≤ i ∧ i < (w.heap c).Instances.val)
    (hd : 0 < delta) (hmax : (w.heap c).Instances.val + delta ≤ 2147483647)
    (hips : w.app.Mode = APP_MODE_FIXED → (ips.length : Int) = delta) :
    ∃ w1, ScaleUp w delta ips now = Outcome.ok w1 ∧
      (w1.heap c).Instances.val = (w.heap c).Instances.val + delta ∧
      (w1.heap c).Ip = (w.heap c).Ip ++ ips ∧
      (∀ q, q ≠ c → w1.heap q = w.heap q) ∧
      w1.app.State = APP_STATE_MARK_FOR_SCALE_UP ∧
      w1.app.CurrentVersion = some c ∧
      (∀ i, i ∈ w1.app.slots ↔ 0 ≤ i ∧ i < (w.heap c).Instances.val + delta) ∧
      (∀ i, 0 ≤ i → i < (w.heap c).Instances.val →
        w1.app.slots.lookup i = w.app.slots.lookup i) ∧
      (∀ i, (w.heap c).Instances.val ≤ i → i < (w.heap c).Instances.val + delta →
        w1.app.slots.lookup i = some (NewSlot c i) ∧
        w1.trace.count (Effect.DispatchNewTask i c) =
          w.trace.count (Effect.DispatchNewTask i c) + 1) ∧
      w1.trace = w.trace ++
        (List.range delta.toNat).map
          (fun k : Nat => Effect.DispatchNewTask ((w.heap c).Instances.val + (k : Int)) c) ++
        [Effect.UpdateApp] := by
  have hb := (w.heap c).Instances.property
  have hdelta : (int32 delta).val = delta := int32_val_of_range _ (by omega) (by omega)
  have hnew : (int32 ((w.heap c).Instances.val + (int32 delta).val)).val =
      (w.heap c).Instances.val + delta := by
    rw [hdelta]; exact int32_val_of_range _ (by omega) (by omega)
  have hnat : ((delta.toNat : Nat) : Int) = delta := Int.toNat_of_nonneg (le_of_lt hd)
  obtain ⟨W, hU, hWheap, hWtrace, hWslots, hWstate, hWcur, hWtx⟩ :=
    ScaleUp_eq w c delta now ips hs hc hd hips
  have hI : (W.heap c).Instances.val = (w.heap c).Instances.val + delta := by
    rw [hWheap]; simp only [Heap.set, if_true]; exact hnew
  refine ⟨_, hU, ?_⟩
  obtain ⟨t, l⟩ := scaleUpLoop_spec c delta.toNat W hWtx
  obtain ⟨f1, f2, f3, -⟩ := (scaleUpLoop_frame c delta.toNat W).trans (Commit_frame _)
  rw [hI, hnat, add_sub_cancel_right, hWtrace] at t
  have l2 : ∀ j, (scaleUpLoop c delta.toNat W).app.slots.lookup j =
      if (w.heap c).Instances.val ≤ j ∧ j < (w.heap c).Instances.val + delta
      then some (NewSlot c j) else w.app.slots.lookup j := by
    intro j
    rw [l j, hI, hnat, add_sub_cancel_right, hWslots]
  have htrace : (Commit (scaleUpLoop c delta.toNat W)).trace = w.trace ++
        (List.range delta.toNat).map
          (fun k : Nat => Effect.DispatchNewTask ((w.heap c).Instances.val + (k : Int)) c) ++
        [Effect.UpdateApp] := by
    rw [Commit_trace, t]
  refine ⟨?_, ?_, ?_, f2.trans hWstate, (f3.trans hWcur).trans hc, ?_, ?_, ?_, htrace⟩
  · rw [f1]; exact hI
  · rw [f1, hWheap]; simp only [Heap.set, if_true]
  · intro q hq
    rw [f1, hWheap]; simp only [Heap.set, hq, if_false]
  · intro i
    rw [← AList.lookup_isSome, Commit_slots, l2]
    by_cases hi : (w.heap c).Instances.val ≤ i ∧ i < (w.heap c).Instances.val + delta
    · rw [if_pos hi]
      simp only [Option.isSome_some, true_iff]
      omega
    · rw [if_neg hi, AList.lookup_isSome, hkeys]
      omega
  · intro i h0 h1
    rw [Commit_slots, l2, if_neg (by omega)]
  · intro i h0 h1
    refine ⟨by rw [Commit_slots, l2, if_pos ⟨h0, h1⟩], ?_⟩
    rw [htrace, List.count_append, List.count_append,
      count_map_range (fun i => Effect.DispatchNewTask i c) (fun a b h => by injection h) _ _ i,
      hnat, if_pos ⟨h0, h1⟩]
    simp

theorem sampleWorld_keys (i : Int) : i ∈ sampleWorld.app.slots ↔ 0 ≤ i ∧ i < 2 := by
  rw [AList.mem_keys]
  have h : sampleWorld.app.slots.keys = [1, 0] := by decide
  rw [h]
  simp only [List.mem_cons, List.mem_singleton, List.not_mem_nil, or_false]
  omega

/-- Witness for C7 on the sample app of two instances, scaled up by one. -/
theorem scale_up_adds_slots_witness :
    ∃ w1, ScaleUp sampleWorld 1 [] 0 = Outcome.ok w1 ∧
      (w1.heap 1).Instances.val = (sampleWorld.heap 1).Instances.val + 1 ∧
      (w1.heap 1).Ip = (sampleWorld.heap 1).Ip ++ [] ∧
      (∀ q, q ≠ 1 → w1.heap q = sampleWorld.heap q) ∧
      w1.app.State = APP_STATE_MARK_FOR_SCALE_UP ∧
      w1.app.CurrentVersion = some 1 ∧
      (∀ i, i ∈ w1.app.slots ↔ 0 ≤ i ∧ i < (sampleWorld.heap 1).Instances.val + 1) ∧
      (∀ i, 0 ≤ i → i < (sampleWorld.heap 1).Instances.val →
        w1.app.slots.lookup i = sampleWorld.app.slots.lookup i) ∧
      (∀ i, (sampleWorld.heap 1).Instances.val ≤ i → i < (sampleWorld.heap 1).Instances.val + 1 →
        w1.app.slots.lookup i = some (NewSlot 1 i) ∧
        w1.trace.count (Effect.DispatchNewTask i 1) =
          sampleWorld.trace.count (Effect.DispatchNewTask i 1) + 1) ∧
      w1.trace = sampleWorld.trace ++
        (List.range (1 : Int).toNat).map
          (fun k : Nat => Effect.DispatchNewTask ((sampleWorld.heap 1).Instances.val + (k : Int)) 1) ++
        [Effect.UpdateApp] :=
  scale_up_adds_slots sampleWorld 1 1 0 [] (by decide) (by decide) (by decide)
    sampleWorld_keys (by decide) (by decide) (by decide)

/-- C7 as stated fails at two inputs. An app in state `normal` without slots whose instance
count is `-1` has the slot indices `[0, -1)`; `ScaleUp` by one instance gives it a slot at
index `-1`, outside `[0, 0)`. The sample app of two instances has the slot indices `[0, 2)`;
`ScaleUp` by `2147483646` instances leaves the instance count `-2147483648`, not
`2147483648`: the count is an `int32`. -/
theorem scale_up_counterexample :
    (negativeWorld.app.State = APP_STATE_NORMAL ∧ negativeWorld.app.CurrentVersion = some 1 ∧
      (negativeWorld.heap 1).Instances.val = -1 ∧
      (∀ i, i ∈ negativeWorld.app.slots ↔ 0 ≤ i ∧ i < -1) ∧
      ∃ w1, ScaleUp negativeWorld 1 [] 0 = Outcome.ok w1 ∧ (-1 : Int) ∈ w1.app.slots ∧
        ¬ (0 ≤ (-1 : Int) ∧ (-1 : Int) < -1 + 1)) ∧
    (sampleWorld.app.State = APP_STATE_NORMAL ∧ sampleWorld.app.CurrentVersion = some 1 ∧
      (sampleWorld.heap 1).Instances.val = 2 ∧
      (∀ i, i ∈ sampleWorld.app.slots ↔ 0 ≤ i ∧ i < 2) ∧
      ∃ w1, ScaleUp sampleWorld 2147483646 [] 0 = Outcome.ok w1 ∧
        (w1.heap 1).Instances.val = -2147483648 ∧
        (w1.heap 1).Instances.val ≠ 2 + 2147483646) := by
  refine ⟨⟨by decide, by decide, by decide, ?_, _, rfl, by decide, by decide⟩,
    ⟨by decide, by decide, by decide, sampleWorld_keys, ?_⟩⟩
  · intro i
    constructor
    · intro h; exact absurd h (AList.not_mem_empty i)
    · intro h; omega
  · obtain ⟨W, hU, hWheap, -⟩ := ScaleUp_eq sampleWorld 1 2147483646 0 [] (by decide)
      (by decide) (by decide) (by decide)
    have hheap : (Commit (scaleUpLoop 1 (2147483646 : Int).toNat W)).heap = W.heap :=
      ((scaleUpLoop_frame 1 _ W).trans (Commit_frame _)).1
    have hval : ((Commit (scaleUpLoop 1 (2147483646 : Int).toNat W)).heap 1).Instances.val =
        -2147483648 := by
      rw [hheap, hWheap]
      simp only [Heap.set, if_true]
      decide
    exact ⟨_, hU, hval, by rw [hval]; decide⟩

/-- The part of C6 that the code keeps: without a proposed version, for `instances < 1` and
when `instances` and the number of slots marked for rolling update exceed the instance count,
`ProceedingRollingUpdate` returns an error and the world is as it was. -/
theorem proceeding_rejects (w : World) (instances : Int)
    (h : w.app.ProposedVersion = none ∨ instances < 1 ∨
      ∃ c, w.app.CurrentVersion = some c ∧
        instances + RollingUpdateInstances w > (w.heap c).Instances.val) :
    ∃ msg, ProceedingRollingUpdate w instances = Outcome.error msg w := by
  unfold ProceedingRollingUpdate
  cases hp : w.app.ProposedVersion with
  | none => exact ⟨_, rfl⟩
  | some p =>
    simp only
    by_cases h1 : instances < 1
    · rw [if_pos h1]; exact ⟨_, rfl⟩
    · rw [if_neg h1]
      rcases h with h | h | ⟨c, hc, h⟩
      · rw [hp] at h; cases h
      · exact absurd h h1
      · simp only [hc]
        rw [if_pos h]; exact ⟨_, rfl⟩

/-- The part of C9 that the code keeps: a successful `ScaleDown` by a positive number of
instances leaves fewer instances than before, and at least one. -/
theorem scale_down_by_positive_decreases (w w1 : World) (c : VPtr) (delta now : Int)
    (hc : w.app.CurrentVersion = some c) (hd : 0 < delta)
    (h : ScaleDown w delta now = Outcome.ok w1) :
    (w1.heap c).Instances.val < (w.heap c).Instances.val ∧ 1 ≤ (w1.heap c).Instances.val := by
  have hb := (w.heap c).Instances.property
  unfold ScaleDown at h
  split_ifs at h with h1
  simp only [hc] at h
  split_ifs at h with h2
  injection h with h
  subst h
  obtain ⟨f1, -⟩ :=
    (foldl_frame killAt (fun w a => callSlot_frame w a _ _) _ _).trans (Commit_frame _)
  rw [f1, (SetState_rest _ _).1]
  simp only [BeginTx, Heap.set, if_true]
  rw [int32_val_of_range _ (by omega) (by omega)]
  omega

/-! ## Reevaluation outside a rolling update -/

theorem Touch_state (w : World) (force : Bool) : (Touch w force).app.State = w.app.State :=
  (Touch_frame w force).2.1

/-- No slot is marked for deletion exactly when the count of `MarkForDeletionInstances` is
zero. -/
theorem markForDeletionInstances_eq_zero (w : World) :
    MarkForDeletionInstances w = 0 ↔
      ∀ i slot, w.app.slots.lookup i = some slot → slot.markForDeletion = false := by
  unfold MarkForDeletionInstances
  rw [Int.natCast_eq_zero, List.countP_eq_zero]
  constructor
  · intro h i slot hl
    have hm : (⟨i, slot⟩ : Sigma fun _ : Int => Slot) ∈ w.app.slots.entries :=
      AList.mem_lookup_iff.mp (by rw [hl]; exact rfl)
    have := h _ hm
    simpa using this
  · intro h e he
    obtain ⟨i, slot⟩ := e
    have hl : w.app.slots.lookup i = some slot := by
      have := AList.mem_lookup_iff.mpr he
      exact this
    simp [h i slot hl]

/-- C13: for every app in state `cancel_update` that has a slot at index 0, `Reevaluate`
returns, and it sets the state to `normal` exactly when slot 0 is bound to the current
version and the number of running slots equals `CurrentVersion.Instances`. On that transition
the proposed version becomes nil, the rolling-update mark of every slot is cleared, and the
current version and the history are unchanged; otherwise the state, the proposed version and
the slots (with their marks) are unchanged. -/
theorem cancel_update_completion (w : World) (slot0 : Slot)
    (hs : w.app.State = APP_STATE_MARK_FOR_CANCEL_UPDATE)
    (h0 : w.app.slots.lookup 0 = some slot0) :
    ∃ w1, Reevaluate w = some w1 ∧
      (w1.app.State = APP_STATE_NORMAL ↔
        ∃ c, w.app.CurrentVersion = some c ∧ slot0.Version = c ∧
          RunningInstances w = (w.heap c).Instances.val) ∧
      (w1.app.State = APP_STATE_NORMAL →
        w1.app.ProposedVersion = none ∧
        (∀ i slot, w1.app.slots.lookup i = some slot → slot.markForRollingUpdate = false) ∧
        w1.app.slots = w.app.slots.mapSlots (fun slot => slot.SetMarkForRollingUpdate false) ∧
        w1.app.CurrentVersion = w.app.CurrentVersion ∧ w1.app.Versions = w.app.Versions ∧
        w1.heap = w.heap) ∧
      (w1.app.State ≠ APP_STATE_NORMAL →
        w1.app.State = w.app.State ∧ w1.app.ProposedVersion = w.app.ProposedVersion ∧
        w1.app.slots = w.app.slots ∧ w1.app.CurrentVersion = w.app.CurrentVersion ∧
        w1.app.Versions = w.app.Versions ∧ w1.heap = w.heap) := by
  have hsw : reevaluateSwitch w =
      match w.app.CurrentVersion with
      | none => some w
      | some c =>
        if slot0.Version = c ∧ RunningInstances w = (w.heap c).Instances.val then
          some (revertProposedVersion w)
        else some w := by
    unfold reevaluateSwitch
    rw [if_neg (by rw [hs]; decide), if_neg (by rw [hs]; decide), if_neg (by rw [hs]; decide),
      if_pos hs]
    simp only [h0]
  have hstay : (Touch w false).app.State ≠ APP_STATE_NORMAL := by
    rw [Touch_state, hs]; decide
  by_cases hcond : ∃ c, w.app.CurrentVersion = some c ∧ slot0.Version = c ∧
      RunningInstances w = (w.heap c).Instances.val
  · obtain ⟨c, hc, hv, hr⟩ := hcond
    rw [hc] at hsw
    simp only at hsw
    rw [if_pos ⟨hv, hr⟩] at hsw
    obtain ⟨f1, f2, f3, f4, f5, -⟩ := Touch_frame (revertProposedVersion w) false
    obtain ⟨c1, c2, c3, c4, c5, c6⟩ := revertProposedVersion_fields w
    have hst : (Touch (revertProposedVersion w) false).app.State = APP_STATE_NORMAL :=
      f2.trans c1
    refine ⟨Touch (revertProposedVersion w) false, by simp [Reevaluate, hsw],
      ⟨fun _ => ⟨c, hc, hv, hr⟩, fun _ => hst⟩, fun _ => ?_,
      fun hne => absurd hst hne⟩
    refine ⟨by rw [f4, c4], ?_, by rw [Touch_slots, c6], by rw [f3, c2],
      by rw [f5, c3], by rw [f1, c5]⟩
    intro i slot hl
    rw [Touch_slots, c6, lookup_mapSlots] at hl
    cases hl0 : w.app.slots.lookup i with
    | none => simp [hl0] at hl
    | some s0 =>
      simp only [hl0, Option.map_some', Option.some.injEq] at hl
      rw [← hl]; rfl
  · have hw : reevaluateSwitch w = some w := by
      rw [hsw]
      split
      · rfl
      · rename_i c hc
        rw [if_neg (fun h => hcond ⟨c, hc, h.1, h.2⟩)]
    exact ⟨Touch w false, by simp [Reevaluate, hw],
      ⟨fun h => absurd h hstay, fun h => absurd h hcond⟩, fun h => absurd h hstay,
      fun _ => ⟨Touch_state w false, (Touch_frame w false).2.2.2.1, Touch_slots w false,
        (Touch_frame w false).2.2.1, (Touch_frame w false).2.2.2.2.1, (Touch_frame w false).1⟩⟩

/-- Witness for C13: in the sample run after `CancelUpdate`, once both tasks run, slot 0 is
bound to the current version and `Reevaluate` ends the cancellation. -/
theorem cancel_update_completion_witness :
    ∃ w1, Reevaluate (allRunning run3) = some w1 ∧
      (w1.app.State = APP_STATE_NORMAL ↔
        ∃ c, (allRunning run3).app.CurrentVersion = some c ∧
          (((allRunning run3).app.slots.lookup 0).getD (sampleSlot 0)).Version = c ∧
          RunningInstances (allRunning run3) = ((allRunning run3).heap c).Instances.val) ∧
      (w1.app.State = APP_STATE_NORMAL →
        w1.app.ProposedVersion = none ∧
        (∀ i slot, w1.app.slots.lookup i = some slot → slot.markForRollingUpdate = false) ∧
        w1.app.slots = (allRunning run3).app.slots.mapSlots
          (fun slot => slot.SetMarkForRollingUpdate false) ∧
        w1.app.CurrentVersion = (allRunning run3).app.CurrentVersion ∧
        w1.app.Versions = (allRunning run3).app.Versions ∧
        w1.heap = (allRunning run3).heap) ∧
      (w1.app.State ≠ APP_STATE_NORMAL →
        w1.app.State = (allRunning run3).app.State ∧
        w1.app.ProposedVersion = (allRunning run3).app.ProposedVersion ∧
        w1.app.slots = (allRunning run3).app.slots ∧
        w1.app.CurrentVersion = (allRunning run3).app.CurrentVersion ∧
        w1.app.Versions = (allRunning run3).app.Versions ∧ w1.heap = (allRunning run3).heap) :=
  cancel_update_completion (allRunning run3)
    (((allRunning run3).app.slots.lookup 0).getD (sampleSlot 0)) (by decide) (by decide)

/-- C14: for every app with a current version, `Reevaluate` returns and follows the table for
the creation and scaling states. In `creating` and in `scale_up` the state afterwards is
`normal` if the number of running slots equals `CurrentVersion.Instances` and is unchanged
otherwise; in `scale_down` the state afterwards is `normal` if the number of slots equals
`CurrentVersion.Instances` and no slot is marked for deletion, and is unchanged otherwise. In
all these cases the current version, the proposed version, the history, the slot map and the
version objects are unchanged. -/
theorem reevaluate_creating_and_scaling (w : World) (c : VPtr)
    (hc : w.app.CurrentVersion = some c) :
    ((w.app.State = APP_STATE_MARK_FOR_CREATING ∨ w.app.State = APP_STATE_MARK_FOR_SCALE_UP) →
      ∃ w1, Reevaluate w = some w1 ∧
        (RunningInstances w = (w.heap c).Instances.val → w1.app.State = APP_STATE_NORMAL) ∧
        (RunningInstances w ≠ (w.heap c).Instances.val → w1.app.State = w.app.State) ∧
        w1.app.CurrentVersion = w.app.CurrentVersion ∧
        w1.app.ProposedVersion = w.app.ProposedVersion ∧ w1.app.Versions = w.app.Versions ∧
        w1.app.slots = w.app.slots ∧ w1.heap = w.heap) ∧
    (w.app.State = APP_STATE_MARK_FOR_SCALE_DOWN →
      ∃ w1, Reevaluate w = some w1 ∧
        (((w.app.slots.entries.length : Int) = (w.heap c).Instances.val ∧
            ∀ i slot, w.app.slots.lookup i = some slot → slot.markForDeletion = false) →
          w1.app.State = APP_STATE_NORMAL) ∧
        (¬ ((w.app.slots.entries.length : Int) = (w.heap c).Instances.val ∧
            ∀ i slot, w.app.slots.lookup i = some slot → slot.markForDeletion = false) →
          w1.app.State = w.app.State) ∧
        w1.app.CurrentVersion = w.app.CurrentVersion ∧
        w1.app.ProposedVersion = w.app.ProposedVersion ∧ w1.app.Versions = w.app.Versions ∧
        w1.app.slots = w.app.slots ∧ w1.heap = w.heap) := by
  have hkeep : ∀ w2 : World, (Touch w2 false).app.CurrentVersion = w2.app.CurrentVersion ∧
      (Touch w2 false).app.ProposedVersion = w2.app.ProposedVersion ∧
      (Touch w2 false).app.Versions = w2.app.Versions ∧
      (Touch w2 false).app.slots = w2.app.slots ∧ (Touch w2 false).heap = w2.heap :=
    fun w2 => ⟨(Touch_frame w2 false).2.2.1, (Touch_frame w2 false).2.2.2.1,
      (Touch_frame w2 false).2.2.2.2.1, Touch_slots w2 false, (Touch_frame w2 false).1⟩
  have hset : (Touch (SetState w APP_STATE_NORMAL) false).app.CurrentVersion =
        w.app.CurrentVersion ∧
      (Touch (SetState w APP_STATE_NORMAL) false).app.ProposedVersion = w.app.ProposedVersion ∧
      (Touch (SetState w APP_STATE_NORMAL) false).app.Versions = w.app.Versions ∧
      (Touch (SetState w APP_STATE_NORMAL) false).app.slots = w.app.slots ∧
      (Touch (SetState w APP_STATE_NORMAL) false).heap = w.heap := by
    obtain ⟨k1, k2, k3, k4, k5⟩ := hkeep (SetState w APP_STATE_NORMAL)
    obtain ⟨g1, g3, g4, g5, -, g7⟩ := SetState_rest w APP_STATE_NORMAL
    exact ⟨k1.trans g3, k2.trans g4, k3.trans g5, k4.trans g7, k5.trans g1⟩
  have hnorm : (Touch (SetState w APP_STATE_NORMAL) false).app.State = APP_STATE_NORMAL := by
    rw [Touch_state, SetState_state]
  constructor
  · intro hs
    have hsw : reevaluateSwitch w =
        if RunningInstances w = (w.heap c).Instances.val then some (SetState w APP_STATE_NORMAL)
        else some w := by
      unfold reevaluateSwitch
      rcases hs with hs | hs
      · rw [if_neg (by rw [hs]; decide), if_neg (by rw [hs]; decide),
          if_neg (by rw [hs]; decide), if_neg (by rw [hs]; decide), if_pos hs]
        simp only [hc]
      · rw [if_neg (by rw [hs]; decide), if_neg (by rw [hs]; decide),
          if_neg (by rw [hs]; decide), if_neg (by rw [hs]; decide),
          if_neg (by rw [hs]; decide), if_pos hs]
        simp only [hc, StateIs, hs, decide_True, true_and]
    by_cases hr : RunningInstances w = (w.heap c).Instances.val
    · rw [if_pos hr] at hsw
      exact ⟨_, by simp [Reevaluate, hsw], fun _ => hnorm, fun h => absurd hr h, hset⟩
    · rw [if_neg hr] at hsw
      exact ⟨_, by simp [Reevaluate, hsw], fun h => absurd h hr, fun _ => Touch_state w false,
        hkeep w⟩
  · intro hs
    have hsw : reevaluateSwitch w =
        if (w.app.slots.entries.length : Int) = (w.heap c).Instances.val ∧
            MarkForDeletionInstances w = 0
        then some (SetState w APP_STATE_NORMAL) else some w := by
      unfold reevaluateSwitch
      rw [if_neg (by rw [hs]; decide), if_neg (by rw [hs]; decide),
        if_neg (by rw [hs]; decide), if_neg (by rw [hs]; decide),
        if_neg (by rw [hs]; decide), if_neg (by rw [hs]; decide), if_pos hs]
      simp only [hc]
    by_cases hr : (w.app.slots.entries.length : Int) = (w.heap c).Instances.val ∧
        ∀ i slot, w.app.slots.lookup i = some slot → slot.markForDeletion = false
    · rw [if_pos ⟨hr.1, (markForDeletionInstances_eq_zero w).mpr hr.2⟩] at hsw
      exact ⟨_, by simp [Reevaluate, hsw], fun _ => hnorm, fun h => absurd hr h, hset⟩
    · rw [if_neg (fun h => hr ⟨h.1, (markForDeletionInstances_eq_zero w).mp h.2⟩)] at hsw
      exact ⟨_, by simp [Reevaluate, hsw], fun h => absurd h hr, fun _ => Touch_state w false,
        hkeep w⟩

/-- Witness for C14: the sample app after `NewApp`, once both tasks run, leaves `creating`;
after `ScaleDown(1)` it stays in `scale_down` while slot 1 is marked for deletion. -/
theorem reevaluate_creating_and_scaling_witness :
    (∃ w1, Reevaluate (allRunning run0) = some w1 ∧
        (RunningInstances (allRunning run0) = ((allRunning run0).heap 1).Instances.val →
          w1.app.State = APP_STATE_NORMAL) ∧
        (RunningInstances (allRunning run0) ≠ ((allRunning run0).heap 1).Instances.val →
          w1.app.State = (allRunning run0).app.State) ∧
        w1.app.CurrentVersion = (allRunning run0).app.CurrentVersion ∧
        w1.app.ProposedVersion = (allRunning run0).app.ProposedVersion ∧
        w1.app.Versions = (allRunning run0).app.Versions ∧
        w1.app.slots = (allRunning run0).app.slots ∧ w1.heap = (allRunning run0).heap) ∧
    (∃ w1, Reevaluate run7 = some w1 ∧
        (((run7.app.slots.entries.length : Int) = (run7.heap 1).Instances.val ∧
            ∀ i slot, run7.app.slots.lookup i = some slot → slot.markForDeletion = false) →
          w1.app.State = APP_STATE_NORMAL) ∧
        (¬ ((run7.app.slots.entries.length : Int) = (run7.heap 1).Instances.val ∧
            ∀ i slot, run7.app.slots.lookup i = some slot → slot.markForDeletion = false) →
          w1.app.State = run7.app.State) ∧
        w1.app.CurrentVersion = run7.app.CurrentVersion ∧
        w1.app.ProposedVersion = run7.app.ProposedVersion ∧
        w1.app.Versions = run7.app.Versions ∧
        w1.app.slots = run7.app.slots ∧ w1.heap = run7.heap) :=
  ⟨(reevaluate_creating_and_scaling (allRunning run0) 1 (by decide)).1 (Or.inl (by decide)),
   (reevaluate_creating_and_scaling run7 1 (by decide)).2 (by decide)⟩


/-! ## Version validation -/

theorem string_length_eq_zero (s : String) : s.length = 0 ↔ s = "" := by
  constructor
  · intro h
    have : s.data = [] := List.length_eq_zero.mp h
    exact String.ext this
  · rintro rfl; rfl

theorem formatVersion_of_nonempty (v : Version) (h : v.Mode ≠ "") : formatVersion v = v := by
  unfold formatVersion
  rw [if_neg (fun hl => h ((string_length_eq_zero _).mp hl))]

theorem formatVersion_of_empty (v : Version) (h : v.Mode = "") :
    formatVersion v = { v with Mode := APP_MODE_REPLICATES } := by
  unfold formatVersion
  rw [if_pos ((string_length_eq_zero _).mpr h)]

theorem validateAndFormatVersion_snd (E : Env) (heap : Heap) (version : VPtr) :
    (validateAndFormatVersion E heap version).2 = (formatAndValidate E (heap version)).2 := rfl

theorem formatAndValidate_snd (E : Env) (v : Version) (container : Container) (docker : Docker)
    (hC : v.Container = some container) (hD : container.Docker = some docker) :
    (formatAndValidate E v).2 = validateFormatted E (formatVersion v) docker := by
  unfold formatAndValidate
  rw [hC]
  simp only [hD]

theorem checkPortMappingNames_eq_none (E : Env) (l : List PortMapping) :
    checkPortMappingNames E l = none ↔ ∀ pm ∈ l, E.TrimSpace pm.Name ≠ "" := by
  induction l with
  | nil => simp [checkPortMappingNames]
  | cons pm l ih =>
    unfold checkPortMappingNames
    by_cases h : E.TrimSpace pm.Name = ""
    · simp [h]
    · simp [h, ih]

theorem checkHealthChecks_eq_none (E : Env) (portNames : List String) (l : List HealthCheck) :
    checkHealthChecks E portNames l = none ↔
      ∀ hc ∈ l, E.TrimSpace hc.PortName ≠ "" ∧ hc.PortName ∈ portNames ∧
        hc.Protocol ∈ ["tcp", "http", "TCP", "HTTP"] ∧
        ((hc.Protocol = "http" ∨ hc.Protocol = "HTTP") → hc.Path ≠ "") := by
  induction l with
  | nil => simp [checkHealthChecks]
  | cons hc l ih =>
    have hrej : ∀ err : String, ¬ (E.TrimSpace hc.PortName ≠ "" ∧ hc.PortName ∈ portNames ∧
        hc.Protocol ∈ ["tcp", "http", "TCP", "HTTP"] ∧
        ((hc.Protocol = "http" ∨ hc.Protocol = "HTTP") → hc.Path ≠ "")) →
        ((some err : Option String) = none ↔
          ∀ hc1 ∈ hc :: l, E.TrimSpace hc1.PortName ≠ "" ∧ hc1.PortName ∈ portNames ∧
            hc1.Protocol ∈ ["tcp", "http", "TCP", "HTTP"] ∧
            ((hc1.Protocol = "http" ∨ hc1.Protocol = "HTTP") → hc1.Path ≠ "")) := by
      intro err hn
      constructor
      · intro h; cases h
      · intro hall; exact absurd (hall hc (List.mem_cons_self _ _)) hn
    unfold checkHealthChecks
    by_cases h1 : E.TrimSpace hc.PortName = ""
    · rw [if_pos h1]
      exact hrej _ (fun ha => ha.1 h1)
    · rw [if_neg h1]
      by_cases h2 : hc.PortName ∈ portNames
      · have h2' : (!SliceContains portNames hc.PortName) = false := by
          simp [SliceContains, h2]
        rw [h2']
        simp only [Bool.false_eq_true, if_false]
        by_cases h3 : hc.Protocol ∈ ["tcp", "http", "TCP", "HTTP"]
        · have h3' : (!SliceContains ["tcp", "http", "TCP", "HTTP"] hc.Protocol) = false := by
            simp only [SliceContains, Bool.not_eq_false', decide_eq_true_eq]; exact h3
          rw [h3']
          simp only [Bool.false_eq_true, if_false]
          by_cases h4 : (hc.Protocol = "http" ∨ hc.Protocol = "HTTP") ∧ hc.Path.length = 0
          · rw [if_pos h4]
            exact hrej _ (fun ha => ha.2.2.2 h4.1 ((string_length_eq_zero _).mp h4.2))
          · rw [if_neg h4, ih, List.forall_mem_cons]
            constructor
            · intro hall
              exact ⟨⟨h1, h2, h3,
                fun hp hpath => h4 ⟨hp, (string_length_eq_zero _).mpr hpath⟩⟩, hall⟩
            · intro hall; exact hall.2
        · have h3' : (!SliceContains ["tcp", "http", "TCP", "HTTP"] hc.Protocol) = true := by
            simp only [SliceContains, Bool.not_eq_true', decide_eq_false_iff_not]; exact h3
          rw [h3']
          simp only [if_true]
          exact hrej _ (fun ha => h3 ha.2.2.1)
      · have h2' : (!SliceContains portNames hc.PortName) = true := by
          simp [SliceContains, h2]
        rw [h2']
        simp only [if_true]
        exact hrej _ (fun ha => h2 ha.2.1)

theorem validateFixed_eq_none (E : Env) (v : Version) (docker : Docker) :
    validateFixed E v docker = none ↔
      (v.Ip.length : Int) = v.Instances.val ∧ docker.PortMappings = [] ∧
      v.HealthChecks = [] ∧ E.ToLower docker.Network = E.SWAN_RESERVED_NETWORK := by
  unfold validateFixed
  by_cases h1 : (v.Ip.length : Int) = v.Instances.val
  · by_cases h2 : docker.PortMappings = []
    · by_cases h3 : v.HealthChecks = []
      · by_cases h4 : E.ToLower docker.Network = E.SWAN_RESERVED_NETWORK
        · simp [h1, h2, h3, h4]
        · simp [h1, h2, h3, h4]
      · have : v.HealthChecks.length > 0 := List.length_pos.mpr h3
        simp [h1, h2, h3, this]
    · have : docker.PortMappings.length > 0 := List.length_pos.mpr h2
      simp [h1, h2, this]
  · simp [h1]

theorem validateReplicates_eq_none (E : Env) (v : Version) (docker : Docker) :
    validateReplicates E v docker = none ↔
      E.ToLower docker.Network = "bridge" ∧
      (∀ pm ∈ docker.PortMappings, E.TrimSpace pm.Name ≠ "") ∧
      (docker.PortMappings.map PortMapping.Name).Nodup ∧
      checkHealthChecks E (docker.PortMappings.map PortMapping.Name) v.HealthChecks = none := by
  unfold validateReplicates
  by_cases h1 : E.ToLower docker.Network = "bridge"
  · simp only [h1, ne_eq, not_true_eq_false, if_false, true_and]
    cases hp : checkPortMappingNames E docker.PortMappings with
    | some err =>
      have : ¬ ∀ pm ∈ docker.PortMappings, E.TrimSpace pm.Name ≠ "" := by
        rw [← checkPortMappingNames_eq_none, hp]; simp
      simp [this]
    | none =>
      have hall := (checkPortMappingNames_eq_none E _).mp hp
      by_cases hu : (docker.PortMappings.map PortMapping.Name).Nodup
      · simp only [SliceUnique, hu, decide_True, Bool.not_true, Bool.false_eq_true, if_false,
          true_and]
        exact ⟨fun h => ⟨hall, h⟩, fun h => h.2⟩
      · simp [SliceUnique, hu]
  · simp [h1]

theorem validateFormatted_fixed (E : Env) (v : Version) (docker : Docker)
    (h : v.Mode = APP_MODE_FIXED) : validateFormatted E v docker = validateFixed E v docker := by
  unfold validateFormatted
  have hne : APP_MODE_FIXED ≠ APP_MODE_REPLICATES := by decide
  rw [h]
  simp only [ne_eq, not_true_eq_false, and_false, if_false, if_true, hne]
  cases validateFixed E v docker <;> rfl

theorem validateFormatted_replicates (E : Env) (v : Version) (docker : Docker)
    (h : v.Mode = APP_MODE_REPLICATES) :
    validateFormatted E v docker = validateReplicates E v docker := by
  unfold validateFormatted
  have hne : APP_MODE_REPLICATES ≠ APP_MODE_FIXED := by decide
  rw [h]
  simp only [ne_eq, not_true_eq_false, false_and, if_false, if_true, hne]

theorem validateFormatted_other (E : Env) (v : Version) (docker : Docker)
    (h1 : v.Mode ≠ APP_MODE_REPLICATES) (h2 : v.Mode ≠ APP_MODE_FIXED) :
    validateFormatted E v docker ≠ none := by
  unfold validateFormatted
  rw [if_pos ⟨h1, h2⟩]
  simp

/-- C17: for every version with a container and a docker spec whose mode is `fixed`,
`validateAndFormatVersion` accepts it if and only if the number of IPs equals the instance
count, there are no port mappings, there are no health checks, and the docker network name,
lower-cased, equals the reserved swan network name. A version with no container, with no
docker spec, or with a non-empty mode other than `replicates` and `fixed` is rejected. -/
theorem fixed_mode_validation (E : Env) (heap : Heap) (version : VPtr) :
    (∀ (container : Container) (docker : Docker),
      (heap version).Container = some container → container.Docker = some docker →
      (heap version).Mode = APP_MODE_FIXED →
      ((validateAndFormatVersion E heap version).2 = none ↔
        (((heap version).Ip.length : Int) = (heap version).Instances.val ∧
          docker.PortMappings = [] ∧ (heap version).HealthChecks = [] ∧
          E.ToLower docker.Network = E.SWAN_RESERVED_NETWORK))) ∧
    (((heap version).Container = none ∨
        (∃ container, (heap version).Container = some container ∧ container.Docker = none) ∨
        ((heap version).Mode ≠ "" ∧ (heap version).Mode ≠ APP_MODE_REPLICATES ∧
          (heap version).Mode ≠ APP_MODE_FIXED)) →
      (validateAndFormatVersion E heap version).2 ≠ none) := by
  rw [validateAndFormatVersion_snd]
  constructor
  · intro container docker hC hD hm
    have hne : (heap version).Mode ≠ "" := by rw [hm]; decide
    rw [formatAndValidate_snd E _ container docker hC hD, formatVersion_of_nonempty _ hne,
      validateFormatted_fixed E _ docker hm, validateFixed_eq_none]
  · intro h
    rcases h with h | ⟨container, hC, hD⟩ | ⟨h0, h1, h2⟩
    · unfold formatAndValidate
      rw [h]
      simp
    · unfold formatAndValidate
      rw [hC]
      simp only [hD]
      simp
    · unfold formatAndValidate
      split
      · simp
      · split
        · simp
        · rw [formatVersion_of_nonempty _ h0]
          exact validateFormatted_other E _ _ h1 h2

/-- Witness for C17: the fixed-mode sample version of three instances with two IPs is
rejected, and so is the version without a container of the sample heap. -/
theorem fixed_mode_validation_witness :
    ((validateAndFormatVersion asciiEnv (fun _ => fixedVersion) 0).2 = none ↔
        (((fixedVersion).Ip.length : Int) = (fixedVersion).Instances.val ∧
          ({ Network := "swan", PortMappings := [] } : Docker).PortMappings = [] ∧
          (fixedVersion).HealthChecks = [] ∧
          asciiEnv.ToLower ({ Network := "swan", PortMappings := [] } : Docker).Network =
            asciiEnv.SWAN_RESERVED_NETWORK)) ∧
    (validateAndFormatVersion asciiEnv sampleHeap 0).2 ≠ none :=
  ⟨(fixed_mode_validation asciiEnv (fun _ => fixedVersion) 0).1
      { Docker := some { Network := "swan", PortMappings := [] } }
      { Network := "swan", PortMappings := [] } rfl rfl rfl,
   (fixed_mode_validation asciiEnv sampleHeap 0).2 (Or.inl (by decide))⟩

/-- What validation asks of a version in replicates mode (given or defaulted). -/
theorem formatAndValidate_replicates (E : Env) (v : Version) (container : Container)
    (docker : Docker) (hC : v.Container = some container) (hD : container.Docker = some docker)
    (hm : v.Mode = APP_MODE_REPLICATES ∨ v.Mode = "") :
    (formatAndValidate E v).2 = none ↔
      E.ToLower docker.Network = "bridge" ∧
      (∀ pm ∈ docker.PortMappings, E.TrimSpace pm.Name ≠ "") ∧
      (docker.PortMappings.map PortMapping.Name).Nodup ∧
      checkHealthChecks E (docker.PortMappings.map PortMapping.Name) v.HealthChecks = none := by
  rw [formatAndValidate_snd E v container docker hC hD]
  rcases hm with hm | hm
  · have hne : v.Mode ≠ "" := by rw [hm]; decide
    rw [formatVersion_of_nonempty _ hne, validateFormatted_replicates E _ docker hm,
      validateReplicates_eq_none]
  · rw [formatVersion_of_empty _ hm, validateFormatted_replicates E _ docker rfl,
      validateReplicates_eq_none]

/-- C18: for every version with a container and a docker spec whose mode is `replicates` or
empty and whose health checks all use the protocol `tcp` or `http`, `validateAndFormatVersion`
accepts it if and only if the docker network, lower-cased, is `bridge`, every port mapping
has a name that is not blank after trimming, the port-mapping names are pairwise distinct,
every health check names a port that is one of the port-mapping names, and every `http`
health check has a non-empty path. -/
theorem replicates_mode_validation (E : Env) (heap : Heap) (version : VPtr)
    (container : Container) (docker : Docker)
    (hC : (heap version).Container = some container) (hD : container.Docker = some docker)
    (hm : (heap version).Mode = APP_MODE_REPLICATES ∨ (heap version).Mode = "")
    (hproto : ∀ hc ∈ (heap version).HealthChecks, hc.Protocol = "tcp" ∨ hc.Protocol = "http") :
    (validateAndFormatVersion E heap version).2 = none ↔
      (E.ToLower docker.Network = "bridge" ∧
        (∀ pm ∈ docker.PortMappings, E.TrimSpace pm.Name ≠ "") ∧
        (docker.PortMappings.map PortMapping.Name).Nodup ∧
        (∀ hc ∈ (heap version).HealthChecks,
          hc.PortName ∈ docker.PortMappings.map PortMapping.Name) ∧
        (∀ hc ∈ (heap version).HealthChecks, hc.Protocol = "http" → hc.Path ≠ "")) := by
  rw [validateAndFormatVersion_snd, formatAndValidate_replicates E _ container docker hC hD hm,
    checkHealthChecks_eq_none]
  constructor
  · rintro ⟨h1, h2, h3, h4⟩
    exact ⟨h1, h2, h3, fun hc hmem => (h4 hc hmem).2.1,
      fun hc hmem hp => (h4 hc hmem).2.2.2 (Or.inl hp)⟩
  · rintro ⟨h1, h2, h3, h4, h5⟩
    refine ⟨h1, h2, h3, fun hc hmem => ⟨?_, h4 hc hmem, ?_, ?_⟩⟩
    · obtain ⟨pm, hpm, hname⟩ := List.mem_map.mp (h4 hc hmem)
      rw [← hname]
      exact h2 pm hpm
    · rcases hproto hc hmem with hp | hp
      · rw [hp]; decide
      · rw [hp]; decide
    · intro hp
      rcases hp with hp | hp
      · exact h5 hc hmem hp
      · rcases hproto hc hmem with hq | hq
        · rw [hq] at hp; exact absurd hp (by decide)
        · rw [hq] at hp; exact absurd hp (by decide)

/-- Witness for C18: the sample version with the port mapping `web` and an `http` health
check on it with the path `/`. -/
theorem replicates_mode_validation_witness :
    (validateAndFormatVersion asciiEnv (fun _ => checkedVersion "http" "/") 0).2 = none ↔
      (asciiEnv.ToLower
          ({ Network := "bridge", PortMappings := [{ Name := "web" }] } : Docker).Network =
          "bridge" ∧
        (∀ pm ∈ ({ Network := "bridge", PortMappings := [{ Name := "web" }] } : Docker).PortMappings,
          asciiEnv.TrimSpace pm.Name ≠ "") ∧
        (({ Network := "bridge", PortMappings := [{ Name := "web" }] } : Docker).PortMappings.map
          PortMapping.Name).Nodup ∧
        (∀ hc ∈ (checkedVersion "http" "/").HealthChecks,
          hc.PortName ∈
            ({ Network := "bridge", PortMappings := [{ Name := "web" }] } : Docker).PortMappings.map
              PortMapping.Name) ∧
        (∀ hc ∈ (checkedVersion "http" "/").HealthChecks, hc.Protocol = "http" → hc.Path ≠ "")) :=
  replicates_mode_validation asciiEnv (fun _ => checkedVersion "http" "/") 0
    { Docker := some { Network := "bridge", PortMappings := [{ Name := "web" }] } }
    { Network := "bridge", PortMappings := [{ Name := "web" }] } rfl rfl (Or.inl rfl)
    (by
      intro hc hmem
      have h : hc = { PortName := "web", Protocol := "http", Path := "/" } := by
        simpa [checkedVersion] using hmem
      rw [h]; exact Or.inr rfl)

/-- C19, as amended: for every replicates-mode version (the mode given, or empty and
defaulted) that has a health check whose protocol string is none of `tcp`, `http`, `TCP` and
`HTTP`, `validateAndFormatVersion` returns an error. -/
theorem unsupported_protocol_rejected (E : Env) (heap : Heap) (version : VPtr)
    (hc : HealthCheck)
    (hm : (heap version).Mode = APP_MODE_REPLICATES ∨ (heap version).Mode = "")
    (hmem : hc ∈ (heap version).HealthChecks)
    (hp : hc.Protocol ≠ "tcp" ∧ hc.Protocol ≠ "http" ∧ hc.Protocol ≠ "TCP" ∧
      hc.Protocol ≠ "HTTP") :
    (validateAndFormatVersion E heap version).2 ≠ none := by
  rw [validateAndFormatVersion_snd]
  intro hnone
  cases hC : (heap version).Container with
  | none =>
    unfold formatAndValidate at hnone
    rw [hC] at hnone
    simp at hnone
  | some container =>
    cases hD : container.Docker with
    | none =>
      unfold formatAndValidate at hnone
      rw [hC] at hnone
      simp only [hD] at hnone
      simp at hnone
    | some docker =>
      have h := ((formatAndValidate_replicates E _ container docker hC hD hm).mp hnone).2.2.2
      have h2 := ((checkHealthChecks_eq_none E _ _).mp h hc hmem).2.2.1
      simp only [List.mem_cons, List.mem_singleton, List.not_mem_nil, or_false] at h2
      rcases h2 with h2 | h2 | h2 | h2
      · exact hp.1 h2
      · exact hp.2.1 h2
      · exact hp.2.2.1 h2
      · exact hp.2.2.2 h2

/-- Witness for C19: a health check with the protocol `udp`. -/
theorem unsupported_protocol_rejected_witness :
    (validateAndFormatVersion asciiEnv (fun _ => checkedVersion "udp" "") 0).2 ≠ none :=
  unsupported_protocol_rejected asciiEnv (fun _ => checkedVersion "udp" "") 0
    { PortName := "web", Protocol := "udp", Path := "" } (Or.inl rfl)
    (by simp [checkedVersion]) (by decide)

/-- C19 as stated fails: a replicates-mode version with a health check whose protocol string
is `TCP`, which is neither `tcp` nor `http`, passes validation. -/
theorem upper_case_protocol_accepted :
    (checkedVersion "TCP" "").Mode = APP_MODE_REPLICATES ∧
    (∃ hc ∈ (checkedVersion "TCP" "").HealthChecks,
      hc.Protocol ≠ "tcp" ∧ hc.Protocol ≠ "http") ∧
    (validateAndFormatVersion asciiEnv (fun _ => checkedVersion "TCP" "") 0).2 = none :=
  ⟨rfl, ⟨{ PortName := "web", Protocol := "TCP", Path := "" }, by simp [checkedVersion],
    by decide⟩, by decide⟩

/-! ## Counting slots -/

theorem mem_entries_iff_lookup (m : SlotMap) (i : Int) (s : Slot) :
    (⟨i, s⟩ : Sigma fun _ : Int => Slot) ∈ m.entries ↔ m.lookup i = some s := by
  rw [← AList.mem_lookup_iff]
  exact Option.mem_def

/-- When the slots that satisfy `p` are exactly those at the indices `[0, k)`, the count of
the slots that satisfy `p` is `k`: a map has no two slots at one index. -/
theorem countP_of_range (m : SlotMap) (p : Slot → Bool) (k : Nat)
    (hex : ∀ i : Int, 0 ≤ i → i < k → (m.lookup i).isSome)
    (hp : ∀ i s, m.lookup i = some s → (p s = true ↔ 0 ≤ i ∧ i < (k : Int))) :
    m.entries.countP (fun e => p e.2) = k := by
  rw [List.countP_eq_length_filter]
  have hlen : (m.entries.filter (fun e => p e.2)).length =
      ((m.entries.filter (fun e => p e.2)).map Sigma.fst).length := by
    rw [List.length_map]
  rw [hlen]
  have hnd : ((m.entries.filter (fun e => p e.2)).map Sigma.fst).Nodup := by
    have hsub : ((m.entries.filter (fun e => p e.2)).map Sigma.fst).Sublist
        (m.entries.map Sigma.fst) := (List.filter_sublist _).map _
    exact hsub.nodup m.keys_nodup
  have hmem : ∀ i : Int, i ∈ (m.entries.filter (fun e => p e.2)).map Sigma.fst ↔
      i ∈ (List.range k).map (fun j : Nat => (0 : Int) + (j : Int)) := by
    intro i
    rw [mem_map_range]
    constructor
    · intro h
      obtain ⟨e, he, hei⟩ := List.mem_map.mp h
      obtain ⟨j, s⟩ := e
      simp only at hei
      subst hei
      have hf := List.mem_filter.mp he
      have := (hp j s ((mem_entries_iff_lookup m j s).mp hf.1)).mp (by simpa using hf.2)
      omega
    · intro h
      have hs := hex i (by omega) (by omega)
      obtain ⟨s, hs⟩ := Option.isSome_iff_exists.mp hs
      refine List.mem_map.mpr ⟨⟨i, s⟩, List.mem_filter.mpr ⟨(mem_entries_iff_lookup m i s).mpr hs, ?_⟩, rfl⟩
      have := (hp i s hs).mpr (by omega)
      simpa using this
  have hperm := (List.perm_ext_iff_of_nodup hnd (nodup_map_range 0 k)).mpr hmem
  rw [hperm.length_eq, List.length_map, List.length_range]

theorem SetSlot_outside (w : World) (index : Int) (slot : Slot)
    (h : w.app.inTransaction = false) :
    SetSlot w index slot =
      { w with app := { w.app with slots := w.app.slots.insert index slot, touched := false },
               trace := w.trace ++ [Effect.UpdateApp] } := by
  unfold SetSlot Touch update
  simp [h]

/-- One iteration of the loop of `NewApp`, outside a transaction. -/
theorem newApp_iteration (w : World) (version : VPtr) (index : Int)
    (h : w.app.inTransaction = false) :
    (dispatchNewTaskAt (SetSlot w index (NewSlot version index)) index
        (NewSlot version index).Version).trace
      = w.trace ++ [Effect.UpdateApp, Effect.DispatchNewTask index version] ∧
    (∀ j, (dispatchNewTaskAt (SetSlot w index (NewSlot version index)) index
        (NewSlot version index).Version).app.slots.lookup j =
      if j = index then some (NewSlot version index) else w.app.slots.lookup j) ∧
    (dispatchNewTaskAt (SetSlot w index (NewSlot version index)) index
        (NewSlot version index).Version).app.inTransaction = false := by
  rw [SetSlot_outside w index _ h]
  unfold dispatchNewTaskAt
  refine ⟨?_, ?_, ?_⟩
  · rw [callSlot_trace]
    simp [AList.lookup_insert, NewSlot]
  · intro j
    rw [callSlot_lookup]
    by_cases hj : j = index
    · subst hj
      simp [AList.lookup_insert, NewSlot, Slot.DispatchNewTask]
    · simp [hj, AList.lookup_insert_ne hj]
  · rw [callSlot_inTransaction]
    exact h

theorem newAppLoop_spec (version : VPtr) (n : Nat) (i : Int) (w : World)
    (h : w.app.inTransaction = false) :
    (newAppLoop version n i w).trace = w.trace ++ (List.range n).flatMap
      (fun k : Nat => [Effect.UpdateApp, Effect.DispatchNewTask (i + (k : Int)) version]) ∧
    (∀ j, (newAppLoop version n i w).app.slots.lookup j =
      if i ≤ j ∧ j < i + (n : Int) then some (NewSlot version j) else w.app.slots.lookup j) := by
  induction n generalizing w i with
  | zero =>
    refine ⟨by simp [newAppLoop], fun j => ?_⟩
    have : ¬ (i ≤ j ∧ j < i + ((0 : Nat) : Int)) := by push_cast; omega
    simp only [newAppLoop, this, if_false]
  | succ n ih =>
    unfold newAppLoop
    simp only
    obtain ⟨t, l, tx⟩ := newApp_iteration w version i h
    obtain ⟨t2, l2⟩ := ih (i + 1) _ tx
    refine ⟨?_, fun j => ?_⟩
    · rw [t2, t, List.range_succ_eq_map, List.flatMap_cons, List.flatMap_map, List.append_assoc]
      congr 1
      simp only [Nat.cast_zero, add_zero, List.cons_append, List.nil_append, List.cons.injEq,
        true_and]
      congr 1
      funext k
      simp only [Function.comp, Nat.cast_succ]
      congr 3
      ring
    · rw [l2, l]
      by_cases h1 : i + 1 ≤ j ∧ j < i + 1 + (n : Int)
      · have h2 : i ≤ j ∧ j < i + ((n + 1 : Nat) : Int) := by push_cast; omega
        rw [if_pos h1, if_pos h2]
      · by_cases h3 : j = i
        · have h2 : i ≤ j ∧ j < i + ((n + 1 : Nat) : Int) := by push_cast; omega
          rw [if_neg h1, if_pos h3, if_pos h2, h3]
        · have h2 : ¬ (i ≤ j ∧ j < i + ((n + 1 : Nat) : Int)) := by push_cast; omega
          rw [if_neg h1, if_neg h3, if_neg h2]

theorem count_newApp_trace (version : VPtr) (i : Int) (n : Nat) (j : Int) :
    ((List.range n).flatMap
      (fun k : Nat => [Effect.UpdateApp, Effect.DispatchNewTask (i + (k : Int)) version])).count
        (Effect.DispatchNewTask j version) = if i ≤ j ∧ j < i + (n : Int) then 1 else 0 := by
  induction n with
  | zero =>
    have : ¬ (i ≤ j ∧ j < i + ((0 : Nat) : Int)) := by push_cast; omega
    rw [if_neg this]
    simp
  | succ n ih =>
    rw [List.range_succ, List.flatMap_append, List.count_append, ih]
    simp only [List.flatMap_cons, List.flatMap_nil, List.append_nil]
    rw [List.count_cons, List.count_cons, List.count_nil]
    by_cases hj : j = i + (n : Int)
    · subst hj
      have h1 : ¬ (i ≤ i + (n : Int) ∧ i + (n : Int) < i + (n : Int)) := by omega
      have h2 : i ≤ i + (n : Int) ∧ i + (n : Int) < i + ((n + 1 : Nat) : Int) := by
        push_cast; omega
      rw [if_neg h1, if_pos h2]
      simp
    · have hne : i + (n : Int) ≠ j := fun h => hj h.symm
      by_cases h1 : i ≤ j ∧ j < i + (n : Int)
      · have h2 : i ≤ j ∧ j < i + ((n + 1 : Nat) : Int) := by push_cast; omega
        rw [if_pos h1, if_pos h2]
        simp [hne]
      · have h2 : ¬ (i ≤ j ∧ j < i + ((n + 1 : Nat) : Int)) := by push_cast; omega
        rw [if_neg h1, if_neg h2]
        simp [hne]

theorem newAppLoop_appId (version : VPtr) (n : Nat) (i : Int) (w : World) :
    (newAppLoop version n i w).app.AppId = w.app.AppId := by
  induction n generalizing w i with
  | zero => rfl
  | succ n ih =>
    unfold newAppLoop
    simp only
    rw [ih]
    have h1 : ∀ (w0 : World) (idx : Int) (f : Slot → Slot) (e : Effect),
        (callSlot w0 idx f e).app.AppId = w0.app.AppId := by
      intro w0 idx f e
      unfold callSlot
      split <;> rfl
    have h2 : ∀ (w0 : World) (idx : Int) (s : Slot),
        (SetSlot w0 idx s).app.AppId = w0.app.AppId := by
      intro w0 idx s
      unfold SetSlot Touch update
      split_ifs <;> rfl
    unfold dispatchNewTaskAt
    rw [h1, h2]

theorem newAppLoop_inTransaction (version : VPtr) (n : Nat) (i : Int) (w : World)
    (h : w.app.inTransaction = false) :
    (newAppLoop version n i w).app.inTransaction = false := by
  induction n generalizing w i with
  | zero => exact h
  | succ n ih =>
    unfold newAppLoop
    exact ih _ _ (newApp_iteration w version i h).2.2

theorem SetState_outside (w : World) (state : String) (h : w.app.inTransaction = false) :
    (SetState w state).trace = w.trace ++ [Effect.UpdateApp] ∧
    (SetState w state).app.AppId = w.app.AppId := by
  unfold SetState Touch update
  simp [h]

/-- What a successful `NewApp` has done: the loop has run, outside a transaction, on the
world `W` that the statements before it have left; `SetState` and `create` have followed. -/
theorem NewApp_eq (E : Env) (heap : Heap) (trace : List Effect) (version : VPtr) (now : Int)
    (clusterId : String)
    (hv : (validateAndFormatVersion E heap version).2 = none) :
    ∃ W : World,
      NewApp E heap trace version now clusterId none = NewAppResult.ok
        (create (SetState
          (newAppLoop version (W.heap version).Instances.val.toNat 0 W)
          APP_STATE_MARK_FOR_CREATING)) ∧
      W.heap = (validateAndFormatVersion E heap version).1.set version
        { ((validateAndFormatVersion E heap version).1 version) with ID := toString now } ∧
      W.trace = trace ++ [Effect.CreateApp] ∧ W.app.slots = ∅ ∧
      W.app.inTransaction = false ∧
      W.app.AppId = ((validateAndFormatVersion E heap version).1 version).AppId ∧
      W.app.Mode = (if ((validateAndFormatVersion E heap version).1 version).Mode = "fixed"
        then APP_MODE_FIXED else APP_MODE_REPLICATES) := by
  cases hval : validateAndFormatVersion E heap version with
  | mk heap1 r =>
    rw [hval] at hv
    simp only at hv
    subst hv
    by_cases hm : (heap1 version).Mode = "fixed"
    · refine ⟨World.mk (heap1.set version { (heap1 version) with ID := toString now })
        { Versions := [some version], slots := ∅, CurrentVersion := some version,
          ProposedVersion := none, AppId := (heap1 version).AppId, ClusterId := clusterId,
          Created := now, Updated := now, inTransaction := false, touched := true,
          Mode := APP_MODE_FIXED, State := "" }
        (trace ++ [Effect.CreateApp]), ?_, rfl, rfl, rfl, rfl, rfl, by simp [hm]⟩
      unfold NewApp
      simp only [hval, hm, if_true]
    · refine ⟨World.mk (heap1.set version { (heap1 version) with ID := toString now })
        { Versions := [some version], slots := ∅, CurrentVersion := some version,
          ProposedVersion := none, AppId := (heap1 version).AppId, ClusterId := clusterId,
          Created := now, Updated := now, inTransaction := false, touched := true,
          Mode := APP_MODE_REPLICATES, State := "" }
        (trace ++ [Effect.CreateApp]), ?_, rfl, rfl, rfl, rfl, rfl, by simp [hm]⟩
      unfold NewApp
      simp only [hval, hm, if_false]

theorem formatAndValidate_fields (E : Env) (v : Version) :
    (formatAndValidate E v).1.AppId = v.AppId ∧
    (formatAndValidate E v).1.Instances = v.Instances ∧
    (formatAndValidate E v).1.Ip = v.Ip ∧
    ((formatAndValidate E v).1.Mode = "fixed" ↔ v.Mode = "fixed") := by
  rcases formatAndValidate_fst E v with h | ⟨hl, h⟩
  · rw [h]; exact ⟨rfl, rfl, rfl, Iff.rfl⟩
  · rw [h]
    refine ⟨rfl, rfl, rfl, ?_⟩
    have hm : v.Mode = "" := (string_length_eq_zero _).mp hl
    simp only [hm]
    constructor
    · intro h2; exact absurd h2 (by decide)
    · intro h2; exact absurd h2 (by decide)

theorem validateAndFormatVersion_at (E : Env) (heap : Heap) (version : VPtr) :
    (validateAndFormatVersion E heap version).1 version = (formatAndValidate E (heap version)).1 := by
  simp [validateAndFormatVersion, Heap.set]

/-- C15: for every version that validation accepts, with instance count `N`, and a store
whose `CreateApp` succeeds, `NewApp` returns an app. Its `AppId` is that of the version, its
current version is the version, its history is the version alone, it has no proposed
version, its mode is `fixed` if the mode of the version is `fixed` and `replicates`
otherwise, it has exactly the slots at the indices `0..N-1`, each of them bound to the
version with exactly one task dispatched, and its state is `creating`. -/
theorem new_app_creates_slots (E : Env) (heap : Heap) (trace : List Effect) (version : VPtr)
    (now : Int) (clusterId : String)
    (hv : (validateAndFormatVersion E heap version).2 = none) :
    ∃ w, NewApp E heap trace version now clusterId none = NewAppResult.ok w ∧
      w.app.AppId = (heap version).AppId ∧
      w.app.CurrentVersion = some version ∧ w.app.Versions = [some version] ∧
      w.app.ProposedVersion = none ∧
      ((heap version).Mode = "fixed" → w.app.Mode = APP_MODE_FIXED) ∧
      ((heap version).Mode ≠ "fixed" → w.app.Mode = APP_MODE_REPLICATES) ∧
      (∀ j, j ∈ w.app.slots ↔ 0 ≤ j ∧ j < (heap version).Instances.val) ∧
      w.app.slots.entries.length = (heap version).Instances.val.toNat ∧
      (∀ j, 0 ≤ j → j < (heap version).Instances.val →
        w.app.slots.lookup j = some (NewSlot version j) ∧
        w.trace.count (Effect.DispatchNewTask j version) =
          trace.count (Effect.DispatchNewTask j version) + 1) ∧
      w.trace = trace ++ [Effect.CreateApp] ++
        (List.range (heap version).Instances.val.toNat).flatMap
          (fun k : Nat => [Effect.UpdateApp, Effect.DispatchNewTask (k : Int) version]) ++
        [Effect.UpdateApp, Effect.CreateApp] ∧
      w.app.State = APP_STATE_MARK_FOR_CREATING ∧
      (w.heap version).Instances = (heap version).Instances := by
  obtain ⟨W, hU, hWheap, hWtrace, hWslots, hWtx, hWid, hWmode⟩ :=
    NewApp_eq E heap trace version now clusterId hv
  obtain ⟨a1, a2, a3, a4⟩ := formatAndValidate_fields E (heap version)
  rw [validateAndFormatVersion_at] at hWheap hWid hWmode
  have hI : (W.heap version).Instances = (heap version).Instances := by
    rw [hWheap]; simp only [Heap.set, if_true]; exact a2
  rw [hI] at hU
  obtain ⟨k1, k2, k3, k4⟩ := NewApp_ok hU
  refine ⟨_, hU, ?_, k3, k4, k2, ?_, ?_, ?_, ?_, ?_, ?_, k1, ?_⟩
  all_goals try clear k1 k2 k3 k4
  · show (SetState _ _).app.AppId = _
    rw [(SetState_outside _ _ (newAppLoop_inTransaction _ _ _ _ hWtx)).2, newAppLoop_appId, hWid,
      a1]
  · intro hm
    have hf : (create (SetState (newAppLoop version (heap version).Instances.val.toNat 0 W)
        APP_STATE_MARK_FOR_CREATING)).app.Mode = W.app.Mode := by
      show (SetState _ _).app.Mode = _
      rw [(SetState_rest _ _).2.2.2.2.1, (newAppLoop_frame _ _ _ _).2.2.2.2.2]
    rw [hf, hWmode, if_pos (a4.mpr hm)]
  · intro hm
    have hf : (create (SetState (newAppLoop version (heap version).Instances.val.toNat 0 W)
        APP_STATE_MARK_FOR_CREATING)).app.Mode = W.app.Mode := by
      show (SetState _ _).app.Mode = _
      rw [(SetState_rest _ _).2.2.2.2.1, (newAppLoop_frame _ _ _ _).2.2.2.2.2]
    rw [hf, hWmode, if_neg (fun h => hm (a4.mp h))]
  · intro j
    have hs : (create (SetState (newAppLoop version (heap version).Instances.val.toNat 0 W)
        APP_STATE_MARK_FOR_CREATING)).app.slots =
        (newAppLoop version (heap version).Instances.val.toNat 0 W).app.slots := by
      show (SetState _ _).app.slots = _
      rw [(SetState_rest _ _).2.2.2.2.2]
    rw [← AList.lookup_isSome, hs, (newAppLoop_spec version _ 0 W hWtx).2 j, hWslots]
    by_cases hj : (0 : Int) ≤ j ∧ j < 0 + (((heap version).Instances.val.toNat : Nat) : Int)
    · rw [if_pos hj]
      simp only [Option.isSome_some, true_iff]
      omega
    · rw [if_neg hj, AList.lookup_empty]
      simp only [Option.isSome_none, Bool.false_eq_true, false_iff]
      omega
  · have hs : (create (SetState (newAppLoop version (heap version).Instances.val.toNat 0 W)
        APP_STATE_MARK_FOR_CREATING)).app.slots =
        (newAppLoop version (heap version).Instances.val.toNat 0 W).app.slots := by
      show (SetState _ _).app.slots = _
      rw [(SetState_rest _ _).2.2.2.2.2]
    rw [hs]
    have hl := (newAppLoop_spec version (heap version).Instances.val.toNat 0 W hWtx).2
    have hc := countP_of_range (newAppLoop version (heap version).Instances.val.toNat 0 W).app.slots
      (fun _ => true) (heap version).Instances.val.toNat
      (by
        intro i h0 h1
        rw [hl i, if_pos ⟨h0, by omega⟩]
        rfl)
      (by
        intro i s hs
        simp only [true_iff]
        rw [hl i, hWslots] at hs
        by_cases hi : (0 : Int) ≤ i ∧ i < 0 + (((heap version).Instances.val.toNat : Nat) : Int)
        · omega
        · rw [if_neg hi, AList.lookup_empty] at hs
          cases hs)
    simp only [List.countP_true] at hc
    exact hc
  · intro j h0 h1
    have hs : (create (SetState (newAppLoop version (heap version).Instances.val.toNat 0 W)
        APP_STATE_MARK_FOR_CREATING)).app.slots =
        (newAppLoop version (heap version).Instances.val.toNat 0 W).app.slots := by
      show (SetState _ _).app.slots = _
      rw [(SetState_rest _ _).2.2.2.2.2]
    have ht : (create (SetState (newAppLoop version (heap version).Instances.val.toNat 0 W)
        APP_STATE_MARK_FOR_CREATING)).trace =
        (newAppLoop version (heap version).Instances.val.toNat 0 W).trace ++
          [Effect.UpdateApp] ++ [Effect.CreateApp] := by
      show (SetState _ _).trace ++ _ = _
      rw [(SetState_outside _ _ (newAppLoop_inTransaction _ _ _ _ hWtx)).1]
    have hr : (0 : Int) ≤ j ∧ j < 0 + (((heap version).Instances.val.toNat : Nat) : Int) := by
      omega
    refine ⟨by rw [hs, (newAppLoop_spec version _ 0 W hWtx).2 j, if_pos hr], ?_⟩
    rw [ht, (newAppLoop_spec version _ 0 W hWtx).1, hWtrace]
    simp only [List.count_append, count_newApp_trace, if_pos hr]
    simp
  · show (SetState _ _).trace ++ _ = _
    rw [(SetState_outside _ _ (newAppLoop_inTransaction _ _ _ _ hWtx)).1,
      (newAppLoop_spec version _ 0 W hWtx).1, hWtrace]
    simp
  · show ((SetState _ _).heap version).Instances = _
    rw [(SetState_rest _ _).1, (newAppLoop_frame _ _ _ _).1]
    exact hI

/-- Witness for C15: `NewApp` with the version of two instances of the sample heap. -/
theorem new_app_creates_slots_witness :
    ∃ w, NewApp asciiEnv sampleHeap [] 1 100 "cluster" none = NewAppResult.ok w ∧
      w.app.AppId = (sampleHeap 1).AppId ∧
      w.app.CurrentVersion = some 1 ∧ w.app.Versions = [some 1] ∧
      w.app.ProposedVersion = none ∧
      ((sampleHeap 1).Mode = "fixed" → w.app.Mode = APP_MODE_FIXED) ∧
      ((sampleHeap 1).Mode ≠ "fixed" → w.app.Mode = APP_MODE_REPLICATES) ∧
      (∀ j, j ∈ w.app.slots ↔ 0 ≤ j ∧ j < (sampleHeap 1).Instances.val) ∧
      w.app.slots.entries.length = (sampleHeap 1).Instances.val.toNat ∧
      (∀ j, 0 ≤ j → j < (sampleHeap 1).Instances.val →
        w.app.slots.lookup j = some (NewSlot 1 j) ∧
        w.trace.count (Effect.DispatchNewTask j 1) =
          ([] : List Effect).count (Effect.DispatchNewTask j 1) + 1) ∧
      w.trace = [] ++ [Effect.CreateApp] ++
        (List.range (sampleHeap 1).Instances.val.toNat).flatMap
          (fun k : Nat => [Effect.UpdateApp, Effect.DispatchNewTask (k : Int) 1]) ++
        [Effect.UpdateApp, Effect.CreateApp] ∧
      w.app.State = APP_STATE_MARK_FOR_CREATING ∧
      (w.heap 1).Instances = (sampleHeap 1).Instances :=
  new_app_creates_slots asciiEnv sampleHeap [] 1 100 "cluster" (by decide)

/-- C16: for every version that validation rejects, `NewApp` returns the error of validation
and no app; the trace is as it was, so no task has been dispatched and no write has been
issued to the persistent store, and nothing is written to a version object but the default of
an empty mode. In particular every fixed-mode version whose number of IPs differs from its
instance count is rejected. -/
theorem rejected_version_creates_nothing (E : Env) (heap : Heap) (trace : List Effect)
    (version : VPtr) (now : Int) (clusterId : String) (createAppErr : Option String) :
    (∀ err, (validateAndFormatVersion E heap version).2 = some err →
      NewApp E heap trace version now clusterId createAppErr =
        NewAppResult.error err (validateAndFormatVersion E heap version).1 trace ∧
      ∀ q, (validateAndFormatVersion E heap version).1 q = heap q ∨
        ((heap q).Mode.length = 0 ∧ (validateAndFormatVersion E heap version).1 q =
          { (heap q) with Mode := APP_MODE_REPLICATES })) ∧
    ((heap version).Mode = APP_MODE_FIXED →
      ((heap version).Ip.length : Int) ≠ (heap version).Instances.val →
      ∃ err, (validateAndFormatVersion E heap version).2 = some err) := by
  constructor
  · intro err hv
    refine ⟨?_, validateAndFormatVersion_heap E heap version⟩
    unfold NewApp
    cases hval : validateAndFormatVersion E heap version with
    | mk heap1 r =>
      rw [hval] at hv
      simp only at hv
      subst hv
      rfl
  · intro hm hip
    rw [validateAndFormatVersion_snd]
    have hne : (formatAndValidate E (heap version)).2 ≠ none := by
      intro hnone
      cases hC : (heap version).Container with
      | none =>
        unfold formatAndValidate at hnone
        rw [hC] at hnone
        simp at hnone
      | some container =>
        cases hD : container.Docker with
        | none =>
          unfold formatAndValidate at hnone
          rw [hC] at hnone
          simp only [hD] at hnone
          simp at hnone
        | some docker =>
          have hmne : (heap version).Mode ≠ "" := by rw [hm]; decide
          rw [formatAndValidate_snd E _ container docker hC hD, formatVersion_of_nonempty _ hmne,
            validateFormatted_fixed E _ docker hm, validateFixed_eq_none] at hnone
          exact hip hnone.1
    cases h : (formatAndValidate E (heap version)).2 with
    | none => exact absurd h hne
    | some err => exact ⟨err, rfl⟩

/-- Witness for C16: the fixed-mode sample version of three instances with two IPs. -/
theorem rejected_version_creates_nothing_witness :
    ∃ err, (validateAndFormatVersion asciiEnv (fun _ => fixedVersion) 0).2 = some err ∧
      NewApp asciiEnv (fun _ => fixedVersion) [] 0 100 "cluster" none =
        NewAppResult.error err (validateAndFormatVersion asciiEnv (fun _ => fixedVersion) 0).1 [] :=
  match (rejected_version_creates_nothing asciiEnv (fun _ => fixedVersion) [] 0 100 "cluster"
      none).2 rfl (by decide) with
  | ⟨err, h⟩ => ⟨err, h,
      ((rejected_version_creates_nothing asciiEnv (fun _ => fixedVersion) [] 0 100 "cluster"
        none).1 err h).1⟩

/-! ## Rolling update: proceeding and cancelling -/

theorem proceedingDefers_eq (w : World) (n : Nat) (i : Int) (stack : List Int) :
    proceedingDefers w n i stack =
      ((List.range n).map
        (fun j : Nat => (i + RollingUpdateInstances w) + (j : Int))).reverse ++ stack := by
  induction n generalizing i stack with
  | zero => simp [proceedingDefers]
  | succ n ih =>
    unfold proceedingDefers
    rw [ih, List.range_succ_eq_map, List.map_cons, List.reverse_cons, List.map_map,
      List.append_assoc]
    simp only [List.singleton_append, Nat.cast_zero, add_zero]
    congr 3
    funext j
    simp only [Function.comp, Nat.cast_succ]
    ring

theorem cancelUpdateLoop_eq (c : VPtr) (n : Nat) (w : World) :
    cancelUpdateLoop c n w =
      (((List.range n).map (fun j : Nat => (0 : Int) + (j : Int))).reverse).foldl
        (fun w i => updateTaskAt w i c true) w := by
  induction n generalizing w with
  | zero => rfl
  | succ n ih =>
    unfold cancelUpdateLoop
    rw [ih, List.range_succ, List.map_append, List.reverse_append]
    simp only [List.map_cons, List.map_nil, List.reverse_cons, List.reverse_nil, List.nil_append,
      List.singleton_append, List.foldl_cons, zero_add]

theorem rollingUpdateInstances_of_range (w : World) (k : Nat)
    (hex : ∀ i : Int, 0 ≤ i → i < k → (w.app.slots.lookup i).isSome)
    (hmark : ∀ i slot, w.app.slots.lookup i = some slot →
      (slot.markForRollingUpdate = true ↔ 0 ≤ i ∧ i < (k : Int))) :
    RollingUpdateInstances w = k := by
  unfold RollingUpdateInstances
  rw [countP_of_range w.app.slots (fun s => s.markForRollingUpdate) k hex hmark]

/-- C11: for every app with a proposed version `p` whose slots exist at all indices
`[0, instances)`, `instances = CurrentVersion.Instances`, whose slots marked for rolling
update are exactly those at the indices `[0, k)`, and every `n >= 1` with `k + n <= instances`,
`ProceedingRollingUpdate(n)` returns no error (in state `updating` as in any other state). It
passes `UpdateTask(p, true)` to exactly the slots at the indices `[k, k + n)`, each exactly
once and to no other slot, and the number of slots marked for rolling update grows from `k`
to `k + n`; the state, the current version, the proposed version, the history and the version
objects are unchanged. -/
theorem proceeding_rolling_update_advances (w : World) (p c : VPtr) (k : Nat) (n : Int)
    (hp : w.app.ProposedVersion = some p) (hc : w.app.CurrentVersion = some c)
    (hex : ∀ i : Int, 0 ≤ i → i < (w.heap c).Instances.val → (w.app.slots.lookup i).isSome)
    (hmark : ∀ i slot, w.app.slots.lookup i = some slot →
      (slot.markForRollingUpdate = true ↔ 0 ≤ i ∧ i < (k : Int)))
    (hn : 1 ≤ n) (hkn : (k : Int) + n ≤ (w.heap c).Instances.val) :
    ∃ w1, ProceedingRollingUpdate w n = Outcome.ok w1 ∧
      w1.trace = w.trace ++
        ((List.range n.toNat).map
          (fun j : Nat => Effect.UpdateTask ((k : Int) + (j : Int)) p true)).reverse ++
        [Effect.UpdateApp] ∧
      (∀ i, w1.trace.count (Effect.UpdateTask i p true) =
        w.trace.count (Effect.UpdateTask i p true) +
          if (k : Int) ≤ i ∧ i < (k : Int) + n then 1 else 0) ∧
      (∀ i, w1.app.slots.lookup i =
        if (k : Int) ≤ i ∧ i < (k : Int) + n
        then (w.app.slots.lookup i).map (fun slot => slot.UpdateTask p true)
        else w.app.slots.lookup i) ∧
      RollingUpdateInstances w = k ∧ RollingUpdateInstances w1 = (k : Int) + n ∧
      w1.app.State = w.app.State ∧ w1.app.CurrentVersion = w.app.CurrentVersion ∧
      w1.app.ProposedVersion = w.app.ProposedVersion ∧ w1.app.Versions = w.app.Versions ∧
      w1.heap = w.heap := by
  have hk : RollingUpdateInstances w = k :=
    rollingUpdateInstances_of_range w k (fun i h0 h1 => hex i h0 (by omega)) hmark
  have hnat : ((n.toNat : Nat) : Int) = n := Int.toNat_of_nonneg (by omega)
  have hfun : (fun (w : World) (slotIndex : Int) => updateTaskAt w slotIndex p true) =
      fun w i => callSlot w i ((fun _ slot => slot.UpdateTask p true) i)
        ((fun i => Effect.UpdateTask i p true) i) := rfl
  have hU : ProceedingRollingUpdate w n = Outcome.ok (Commit
      ((((List.range n.toNat).map (fun j : Nat => (k : Int) + (j : Int))).reverse).foldl
        (fun w i => callSlot w i ((fun _ slot => slot.UpdateTask p true) i)
          ((fun i => Effect.UpdateTask i p true) i)) (BeginTx w))) := by
    unfold ProceedingRollingUpdate
    simp only [hp, hc]
    rw [if_neg (by omega), if_neg (by rw [hk]; omega), proceedingDefers_eq, hfun]
    have hk' : RollingUpdateInstances (BeginTx w) = k := hk
    rw [hk']
    simp only [zero_add, List.append_nil]
  refine ⟨_, hU, ?_⟩
  have hmemL : ∀ i, i ∈ ((List.range n.toNat).map (fun j : Nat => (k : Int) + (j : Int))).reverse ↔
      (k : Int) ≤ i ∧ i < (k : Int) + n := by
    intro i
    rw [List.mem_reverse, mem_map_range, hnat]
  obtain ⟨t, ks, lk⟩ := foldl_callSlot (fun _ slot => slot.UpdateTask p true)
    (fun i => Effect.UpdateTask i p true)
    (((List.range n.toNat).map (fun j : Nat => (k : Int) + (j : Int))).reverse) (BeginTx w)
    (List.nodup_reverse.mpr (nodup_map_range _ _))
    (fun i hi => hex i (by have := (hmemL i).mp hi; omega) (by have := (hmemL i).mp hi; omega))
  obtain ⟨f1, f2, f3, f4, f5, -⟩ := ((BeginTx_frame w).trans
    (foldl_frame (fun w i => callSlot w i ((fun _ slot => slot.UpdateTask p true) i)
      ((fun i => Effect.UpdateTask i p true) i)) (fun w a => callSlot_frame w a _ _)
      (((List.range n.toNat).map (fun j : Nat => (k : Int) + (j : Int))).reverse)
      (BeginTx w))).trans (Commit_frame _)
  have hlook : ∀ i, (Commit
      ((((List.range n.toNat).map (fun j : Nat => (k : Int) + (j : Int))).reverse).foldl
        (fun w i => callSlot w i ((fun _ slot => slot.UpdateTask p true) i)
          ((fun i => Effect.UpdateTask i p true) i)) (BeginTx w))).app.slots.lookup i =
      if (k : Int) ≤ i ∧ i < (k : Int) + n
      then (w.app.slots.lookup i).map (fun slot => slot.UpdateTask p true)
      else w.app.slots.lookup i := by
    intro i
    rw [Commit_slots, lk i]
    by_cases hi : (k : Int) ≤ i ∧ i < (k : Int) + n
    · rw [if_pos ((hmemL i).mpr hi), if_pos hi]; rfl
    · rw [if_neg (fun h => hi ((hmemL i).mp h)), if_neg hi]; rfl
  have htrace : (Commit
      ((((List.range n.toNat).map (fun j : Nat => (k : Int) + (j : Int))).reverse).foldl
        (fun w i => callSlot w i ((fun _ slot => slot.UpdateTask p true) i)
          ((fun i => Effect.UpdateTask i p true) i)) (BeginTx w))).trace =
      w.trace ++
        ((List.range n.toNat).map
          (fun j : Nat => Effect.UpdateTask ((k : Int) + (j : Int)) p true)).reverse ++
        [Effect.UpdateApp] := by
    rw [Commit_trace, t, List.map_reverse, List.map_map]
    rfl
  refine ⟨htrace, ?_, hlook, hk, ?_, f2, f3, f4, f5, f1⟩
  · intro i
    rw [htrace, List.count_append, List.count_append, List.count_reverse,
      count_map_range (fun i => Effect.UpdateTask i p true) (fun a b h => by injection h) _ _ i,
      hnat]
    simp
  · have hsum : (k : Int) + n = ((k + n.toNat : Nat) : Int) := by push_cast; omega
    rw [hsum]
    apply rollingUpdateInstances_of_range
    · intro i h0 h1
      rw [hlook i]
      have hi := hex i h0 (by push_cast at h1; omega)
      by_cases hr : (k : Int) ≤ i ∧ i < (k : Int) + n
      · rw [if_pos hr]
        simpa using hi
      · rw [if_neg hr]; exact hi
    · intro i slot hl
      rw [hlook i] at hl
      by_cases hr : (k : Int) ≤ i ∧ i < (k : Int) + n
      · rw [if_pos hr] at hl
        cases h0 : w.app.slots.lookup i with
        | none => rw [h0] at hl; cases hl
        | some s0 =>
          rw [h0] at hl
          simp only [Option.map_some', Option.some.injEq] at hl
          rw [← hl]
          simp only [Slot.UpdateTask, true_iff]
          push_cast
          omega
      · rw [if_neg hr] at hl
        rw [hmark i slot hl]
        push_cast
        omega

theorem run2_slots (i : Int) : (0 ≤ i → i < 2 → (run2.app.slots.lookup i).isSome) ∧
    ∀ slot, run2.app.slots.lookup i = some slot →
      (slot.markForRollingUpdate = true ↔ 0 ≤ i ∧ i < ((1 : Nat) : Int)) := by
  constructor
  · intro h0 h1
    have h3 : i = 0 ∨ i = 1 := by omega
    rcases h3 with rfl | rfl <;> decide
  · intro slot hl
    have hi : i ∈ run2.app.slots := AList.lookup_isSome.mp (by rw [hl]; rfl)
    have hkeys : run2.app.slots.keys = [1, 0] := by decide
    rw [AList.mem_keys, hkeys] at hi
    simp only [List.mem_cons, List.mem_singleton, List.not_mem_nil, or_false] at hi
    rcases hi with rfl | rfl
    · have h1 : (run2.app.slots.lookup 1).map Slot.markForRollingUpdate = some false := by
        decide
      rw [hl] at h1
      simp only [Option.map_some', Option.some.injEq] at h1
      rw [h1]
      decide
    · have h1 : (run2.app.slots.lookup 0).map Slot.markForRollingUpdate = some true := by
        decide
      rw [hl] at h1
      simp only [Option.map_some', Option.some.injEq] at h1
      rw [h1]
      decide

/-- Witness for C11: in the sample run after `Update`, slot 0 of two is marked;
`ProceedingRollingUpdate(1)` replaces the task of slot 1. -/
theorem proceeding_rolling_update_advances_witness :
    ∃ w1, ProceedingRollingUpdate run2 1 = Outcome.ok w1 ∧
      w1.trace = run2.trace ++
        ((List.range (1 : Int).toNat).map
          (fun j : Nat => Effect.UpdateTask (((1 : Nat) : Int) + (j : Int)) 2 true)).reverse ++
        [Effect.UpdateApp] ∧
      (∀ i, w1.trace.count (Effect.UpdateTask i 2 true) =
        run2.trace.count (Effect.UpdateTask i 2 true) +
          if ((1 : Nat) : Int) ≤ i ∧ i < ((1 : Nat) : Int) + 1 then 1 else 0) ∧
      (∀ i, w1.app.slots.lookup i =
        if ((1 : Nat) : Int) ≤ i ∧ i < ((1 : Nat) : Int) + 1
        then (run2.app.slots.lookup i).map (fun slot => slot.UpdateTask 2 true)
        else run2.app.slots.lookup i) ∧
      RollingUpdateInstances run2 = (1 : Nat) ∧
      RollingUpdateInstances w1 = ((1 : Nat) : Int) + 1 ∧
      w1.app.State = run2.app.State ∧ w1.app.CurrentVersion = run2.app.CurrentVersion ∧
      w1.app.ProposedVersion = run2.app.ProposedVersion ∧
      w1.app.Versions = run2.app.Versions ∧ w1.heap = run2.heap :=
  proceeding_rolling_update_advances run2 2 1 1 1 (by decide) (by decide)
    (fun i h0 h1 => (run2_slots i).1 h0 (by
      have h2 : (run2.heap 1).Instances.val = 2 := by decide
      rw [h2] at h1; exact h1))
    (fun i slot hl => (run2_slots i).2 slot hl) (by decide) (by decide)

/-- C12: for every app in state `updating` with a proposed version (and a current version
`c`) whose slots marked for rolling update are exactly those at the indices `[0, k)`,
`CancelUpdate` returns no error and sets the state to `cancel_update`. It passes
`UpdateTask(c, true)` to the slots `k-1, k-2, ..., 0`, in that order, and to no other slot:
no slot with an index `>= k` is touched. The current version, the proposed version, the
history and the version objects are unchanged. -/
theorem cancel_update_reverts (w : World) (p c : VPtr) (k : Nat)
    (hs : w.app.State = APP_STATE_MARK_FOR_UPDATING) (hp : w.app.ProposedVersion = some p)
    (hc : w.app.CurrentVersion = some c)
    (hex : ∀ i : Int, 0 ≤ i → i < (k : Int) → (w.app.slots.lookup i).isSome)
    (hmark : ∀ i slot, w.app.slots.lookup i = some slot →
      (slot.markForRollingUpdate = true ↔ 0 ≤ i ∧ i < (k : Int))) :
    ∃ w1, CancelUpdate w = Outcome.ok w1 ∧
      w1.app.State = APP_STATE_MARK_FOR_CANCEL_UPDATE ∧
      w1.trace = w.trace ++
        ((List.range k).map (fun j : Nat => Effect.UpdateTask (j : Int) c true)).reverse ++
        [Effect.UpdateApp] ∧
      (∀ i, w1.app.slots.lookup i =
        if 0 ≤ i ∧ i < (k : Int)
        then (w.app.slots.lookup i).map (fun slot => slot.UpdateTask c true)
        else w.app.slots.lookup i) ∧
      w1.app.CurrentVersion = w.app.CurrentVersion ∧
      w1.app.ProposedVersion = w.app.ProposedVersion ∧ w1.app.Versions = w.app.Versions ∧
      w1.heap = w.heap := by
  have hk : RollingUpdateInstances w = k := rollingUpdateInstances_of_range w k hex hmark
  have hfun : (fun (w : World) (i : Int) => updateTaskAt w i c true) =
      fun w i => callSlot w i ((fun _ slot => slot.UpdateTask c true) i)
        ((fun i => Effect.UpdateTask i c true) i) := rfl
  have hU : CancelUpdate w = Outcome.ok (Commit
      ((((List.range k).map (fun j : Nat => (0 : Int) + (j : Int))).reverse).foldl
        (fun w i => callSlot w i ((fun _ slot => slot.UpdateTask c true) i)
          ((fun i => Effect.UpdateTask i c true) i))
        (SetState (BeginTx w) APP_STATE_MARK_FOR_CANCEL_UPDATE))) := by
    unfold CancelUpdate
    have hcond : ¬ (w.app.State ≠ APP_STATE_MARK_FOR_UPDATING ∨ w.app.ProposedVersion = none) := by
      rw [hs, hp]; simp
    rw [if_neg hcond]
    simp only [hc]
    have hk' : RollingUpdateInstances (SetState (BeginTx w) APP_STATE_MARK_FOR_CANCEL_UPDATE)
        = k := by
      unfold RollingUpdateInstances
      rw [(SetState_rest _ _).2.2.2.2.2]
      exact hk
    rw [hk', Int.toNat_ofNat, cancelUpdateLoop_eq, hfun]
  refine ⟨_, hU, ?_⟩
  have hmemL : ∀ i, i ∈ ((List.range k).map (fun j : Nat => (0 : Int) + (j : Int))).reverse ↔
      0 ≤ i ∧ i < (k : Int) := by
    intro i
    rw [List.mem_reverse, mem_map_range, zero_add]
  have hslots0 : (SetState (BeginTx w) APP_STATE_MARK_FOR_CANCEL_UPDATE).app.slots =
      w.app.slots := (SetState_rest _ _).2.2.2.2.2
  have htrace0 : (SetState (BeginTx w) APP_STATE_MARK_FOR_CANCEL_UPDATE).trace = w.trace := by
    rw [SetState_inTransaction _ _ rfl]; rfl
  obtain ⟨t, -, lk⟩ := foldl_callSlot (fun _ slot => slot.UpdateTask c true)
    (fun i => Effect.UpdateTask i c true)
    (((List.range k).map (fun j : Nat => (0 : Int) + (j : Int))).reverse)
    (SetState (BeginTx w) APP_STATE_MARK_FOR_CANCEL_UPDATE)
    (List.nodup_reverse.mpr (nodup_map_range _ _))
    (fun i hi => by
      rw [hslots0]
      exact hex i ((hmemL i).mp hi).1 ((hmemL i).mp hi).2)
  obtain ⟨f1, f2, f3, f4, f5, -⟩ :=
    (foldl_frame (fun w i => callSlot w i ((fun _ slot => slot.UpdateTask c true) i)
      ((fun i => Effect.UpdateTask i c true) i)) (fun w a => callSlot_frame w a _ _)
      (((List.range k).map (fun j : Nat => (0 : Int) + (j : Int))).reverse)
      (SetState (BeginTx w) APP_STATE_MARK_FOR_CANCEL_UPDATE)).trans (Commit_frame _)
  obtain ⟨g1, g3, g4, g5, -, -⟩ := SetState_rest (BeginTx w) APP_STATE_MARK_FOR_CANCEL_UPDATE
  refine ⟨f2.trans (SetState_state _ _), ?_, ?_, f3.trans g3, f4.trans g4, f5.trans g5,
    f1.trans g1⟩
  · rw [Commit_trace, t, htrace0, List.map_reverse, List.map_map]
    simp only [zero_add]
    rfl
  · intro i
    rw [Commit_slots, lk i, hslots0]
    by_cases hi : 0 ≤ i ∧ i < (k : Int)
    · rw [if_pos ((hmemL i).mpr hi), if_pos hi]
    · rw [if_neg (fun h => hi ((hmemL i).mp h)), if_neg hi]

/-- Witness for C12: in the sample run after `Update`, slot 0 of two is marked;
`CancelUpdate` sends it back to the version at address 1. -/
theorem cancel_update_reverts_witness :
    ∃ w1, CancelUpdate run2 = Outcome.ok w1 ∧
      w1.app.State = APP_STATE_MARK_FOR_CANCEL_UPDATE ∧
      w1.trace = run2.trace ++
        ((List.range 1).map (fun j : Nat => Effect.UpdateTask (j : Int) 1 true)).reverse ++
        [Effect.UpdateApp] ∧
      (∀ i, w1.app.slots.lookup i =
        if 0 ≤ i ∧ i < ((1 : Nat) : Int)
        then (run2.app.slots.lookup i).map (fun slot => slot.UpdateTask 1 true)
        else run2.app.slots.lookup i) ∧
      w1.app.CurrentVersion = run2.app.CurrentVersion ∧
      w1.app.ProposedVersion = run2.app.ProposedVersion ∧
      w1.app.Versions = run2.app.Versions ∧ w1.heap = run2.heap :=
  cancel_update_reverts run2 2 1 1 (by decide) (by decide) (by decide)
    (fun i h0 h1 => (run2_slots i).1 h0 (by omega))
    (fun i slot hl => (run2_slots i).2 slot hl)

/-! ## The IP lists of the version objects -/

theorem SetState_heap (w : World) (state : String) : (SetState w state).heap = w.heap :=
  (SetState_rest w state).1

theorem ScaleUp_ips {w w1 : World} {newInstances : Int} {newIps : List String} {now : Int}
    (h : ScaleUp w newInstances newIps now = Outcome.ok w1) :
    ∃ c, w.app.CurrentVersion = some c ∧
      ∀ q, (w1.heap q).Ip = if q = c then (w.heap q).Ip ++ newIps else (w.heap q).Ip := by
  unfold ScaleUp at h
  split_ifs at h with h1 h2 h3
  simp only at h
  split at h
  · cases h
  · rename_i c hc
    injection h with h
    subst h
    refine ⟨c, hc, fun q => ?_⟩
    obtain ⟨f1, -⟩ := (scaleUpLoop_frame c newInstances.toNat _).trans (Commit_frame _)
    rw [f1, (SetState_rest _ _).1]
    simp only [Heap.set, BeginTx]
    by_cases hq : q = c
    · simp [hq]
    · simp [hq]

theorem ScaleDown_ips {w w1 : World} {removeInstances now : Int}
    (h : ScaleDown w removeInstances now = Outcome.ok w1) :
    ∀ q, (w1.heap q).Ip = (w.heap q).Ip := by
  unfold ScaleDown at h
  split_ifs at h with h1
  split at h
  · cases h
  · rename_i c hc
    split at h
    · cases h
    · injection h with h
      subst h
      intro q
      obtain ⟨f1, -⟩ :=
        (foldl_frame killAt (fun w a => callSlot_frame w a _ _) _ _).trans (Commit_frame _)
      rw [f1, (SetState_rest _ _).1]
      simp only [Heap.set, BeginTx]
      by_cases hq : q = c
      · simp [hq]
      · simp [hq]

theorem validateAndFormatVersion_ips (E : Env) (heap : Heap) (version q : VPtr) :
    ((validateAndFormatVersion E heap version).1 q).Ip = (heap q).Ip := by
  rcases validateAndFormatVersion_heap E heap version q with h | ⟨_, h⟩
  · rw [h]
  · rw [h]

theorem Update_ips {E : Env} {w w1 : World} {version : VPtr} {now : Int}
    (h : Update E w version now = Outcome.ok w1) :
    ∀ q, (w1.heap q).Ip = (w.heap q).Ip := by
  unfold Update at h
  split_ifs at h with h1
  split at h
  · cases h
  · rename_i heap1 hv
    simp only [checkProposedVersionValid] at h
    split at h
    · cases h
    · rename_i c hc
      injection h with h
      subst h
      intro q
      have hheap1 : heap1 = (validateAndFormatVersion E w.heap version).1 := by rw [hv]
      obtain ⟨f1, -⟩ := (callSlot_frame _ 0 _ _).trans (Commit_frame _)
      unfold updateTaskAt
      rw [f1, ← validateAndFormatVersion_ips E w.heap version q, ← hheap1]
      simp only [Heap.set]
      by_cases hq : q = version
      · simp only [hq, SetState_heap, if_true]
        rfl
      · simp only [hq, SetState_heap, if_false]
        rfl

theorem NewApp_ips {E : Env} {heap : Heap} {trace : List Effect} {version : VPtr} {now : Int}
    {clusterId : String} {createAppErr : Option String} {w : World}
    (h : NewApp E heap trace version now clusterId createAppErr = NewAppResult.ok w) :
    ∀ q, (w.heap q).Ip = (heap q).Ip := by
  unfold NewApp at h
  split at h
  · cases h
  · rename_i heap1 hv
    simp only at h
    split at h
    · cases h
    · injection h with h
      subst h
      intro q
      have hheap1 : heap1 = (validateAndFormatVersion E heap version).1 := by rw [hv]
      have hc : ∀ w0 : World, (create w0).heap = w0.heap := fun _ => rfl
      rw [hc, SetState_heap, (newAppLoop_frame version _ 0 _).1,
        ← validateAndFormatVersion_ips E heap version q, ← hheap1]
      simp only [Heap.set]
      by_cases hq : q = version
      · simp only [hq, if_true]
      · simp only [hq, if_false]

theorem StepWithoutIps_ips {E : Env} {w w1 : World} (hs : StepWithoutIps E w w1) :
    ∀ q, (w1.heap q).Ip = (w.heap q).Ip := by
  cases hs with
  | ScaleUp newInstances now h =>
    rcases world?_eq_some h with h | ⟨msg, h⟩
    · obtain ⟨c, -, hq⟩ := ScaleUp_ips h
      intro q
      rw [hq q, List.append_nil, ite_self]
    · rw [ScaleUp_error _ _ _ _ _ _ h]; exact fun _ => rfl
  | ScaleDown removeInstances now h =>
    rcases world?_eq_some h with h | ⟨msg, h⟩
    · exact ScaleDown_ips h
    · rw [ScaleDown_error _ _ _ _ _ h]; exact fun _ => rfl
  | Update version now _ h =>
    rcases world?_eq_some h with h | ⟨msg, h⟩
    · exact Update_ips h
    · exact fun q => ((Update_error E w version now msg w1 h).2.2.2.2.2.1 q).2
  | ProceedingRollingUpdate instances h =>
    rw [(ProceedingRollingUpdate_world h).1]; exact fun _ => rfl
  | CancelUpdate h =>
    rcases world?_eq_some h with h | ⟨msg, h⟩
    · rw [(CancelUpdate_ok h).2.2.2.2.2.2]; exact fun _ => rfl
    · rw [CancelUpdate_error _ _ _ h]; exact fun _ => rfl
  | Delete h =>
    rw [(Delete_ok h).2.2.2.2.2]; exact fun _ => rfl
  | Reevaluate h =>
    obtain ⟨w2, hsw, rfl⟩ := Reevaluate_eq h
    rw [(Touch_frame w2 false).1]
    rcases reevaluateSwitch_cases hsw with rfl | ⟨-, rfl, -⟩ | ⟨-, rfl, -⟩ | ⟨-, rfl⟩
    · exact fun _ => rfl
    · rw [(commitProposedVersion_fields w).2.2.2.2.1]; exact fun _ => rfl
    · rw [(revertProposedVersion_fields w).2.2.2.2.1]; exact fun _ => rfl
    · rw [SetState_heap]; exact fun _ => rfl
  | slots m => exact fun _ => rfl

/-- What a step does to the version pointers: the current version stays, or becomes what
the proposed version was; the proposed version stays, is dropped, or becomes a version whose
IP list is empty. -/
theorem StepWithoutIps_pointers {E : Env} {w w1 : World} (hs : StepWithoutIps E w w1) :
    (w1.app.CurrentVersion = w.app.CurrentVersion ∨
      w1.app.CurrentVersion = w.app.ProposedVersion) ∧
    (w1.app.ProposedVersion = w.app.ProposedVersion ∨ w1.app.ProposedVersion = none ∨
      ∃ v, w1.app.ProposedVersion = some v ∧ (w.heap v).Ip = []) := by
  cases hs with
  | ScaleUp newInstances now h =>
    rcases world?_eq_some h with h | ⟨msg, h⟩
    · obtain ⟨-, -, c, d, -⟩ := ScaleUp_ok h
      exact ⟨Or.inl c, Or.inl d⟩
    · rw [ScaleUp_error _ _ _ _ _ _ h]; exact ⟨Or.inl rfl, Or.inl rfl⟩
  | ScaleDown removeInstances now h =>
    rcases world?_eq_some h with h | ⟨msg, h⟩
    · obtain ⟨-, -, c, d, -⟩ := ScaleDown_ok h
      exact ⟨Or.inl c, Or.inl d⟩
    · rw [ScaleDown_error _ _ _ _ _ h]; exact ⟨Or.inl rfl, Or.inl rfl⟩
  | Update version now hip h =>
    rcases world?_eq_some h with h | ⟨msg, h⟩
    · obtain ⟨-, -, -, a, b, -⟩ := Update_ok h
      exact ⟨Or.inl b, Or.inr (Or.inr ⟨version, a, hip⟩)⟩
    · obtain ⟨-, b, c, -⟩ := Update_error_world h
      exact ⟨Or.inl c, Or.inl b⟩
  | ProceedingRollingUpdate instances h =>
    obtain ⟨-, -, c, d, -⟩ := ProceedingRollingUpdate_world h
    exact ⟨Or.inl c, Or.inl d⟩
  | CancelUpdate h =>
    rcases world?_eq_some h with h | ⟨msg, h⟩
    · obtain ⟨-, -, c, d, -⟩ := CancelUpdate_ok h
      exact ⟨Or.inl c, Or.inl d⟩
    · rw [CancelUpdate_error _ _ _ h]; exact ⟨Or.inl rfl, Or.inl rfl⟩
  | Delete h =>
    obtain ⟨-, c, d, -⟩ := Delete_ok h
    exact ⟨Or.inl c, Or.inl d⟩
  | Reevaluate h =>
    obtain ⟨w2, hsw, rfl⟩ := Reevaluate_eq h
    obtain ⟨-, -, c, d, -⟩ := Touch_frame w2 false
    rw [c, d]
    rcases reevaluateSwitch_cases hsw with rfl | ⟨-, rfl, -⟩ | ⟨-, rfl, -⟩ | ⟨-, rfl⟩
    · exact ⟨Or.inl rfl, Or.inl rfl⟩
    · exact ⟨Or.inr (commitProposedVersion_fields w).2.1,
        Or.inr (Or.inl (commitProposedVersion_fields w).2.2.2.1)⟩
    · exact ⟨Or.inl (revertProposedVersion_fields w).2.1,
        Or.inr (Or.inl (revertProposedVersion_fields w).2.2.2.1)⟩
    · exact ⟨Or.inl (SetState_rest w _).2.1, Or.inl (SetState_rest w _).2.2.1⟩
  | slots m => exact ⟨Or.inl rfl, Or.inl rfl⟩

/-- C20, as amended: for every app that `NewApp` has created from a version whose IP list is
empty, and that has been changed by any sequence of operations in which every `ScaleUp` is
given no new IP and every `Update` a version whose IP list is empty, the IP list of the
current version is empty, and so is that of the proposed version. The mode of the app plays
no part: validation does not look at the IP list of a replicates-mode version, and `ScaleUp`
appends the IPs it is given whatever the mode. -/
theorem no_ips_unless_supplied (E : Env) (w : World) (hw : ReachableWithoutIps E w) :
    ∀ c, w.app.CurrentVersion = some c ∨ w.app.ProposedVersion = some c →
      (w.heap c).Ip = [] := by
  induction hw with
  | NewApp heap trace version now clusterId createAppErr hip h =>
    intro c hc
    obtain ⟨-, a, b, -⟩ := NewApp_ok h
    rw [a, b] at hc
    rcases hc with hc | hc
    · injection hc with hc
      rw [NewApp_ips h, ← hc, hip]
    · cases hc
  | step hw hs ih =>
    rename_i w w1
    intro c hc
    rw [StepWithoutIps_ips hs c]
    obtain ⟨hcur, hprop⟩ := StepWithoutIps_pointers hs
    rcases hc with hc | hc
    · rcases hcur with e | e
      · exact ih c (Or.inl (e.symm.trans hc))
      · exact ih c (Or.inr (e.symm.trans hc))
    · rcases hprop with e | e | ⟨v, e, hv⟩
      · exact ih c (Or.inr (e.symm.trans hc))
      · rw [e] at hc; cases hc
      · rw [e] at hc
        injection hc with hc
        rw [← hc]; exact hv

theorem reachableWithoutIps_run0 : ReachableWithoutIps asciiEnv run0 :=
  ReachableWithoutIps.NewApp sampleHeap [] 1 100 "cluster" none rfl rfl

theorem reachableWithoutIps_run1 : ReachableWithoutIps asciiEnv run1 :=
  (reachableWithoutIps_run0.step (StepWithoutIps.slots run0 _)).step
    (StepWithoutIps.Reevaluate (w := allRunning run0) rfl)

theorem reachableWithoutIps_run2 : ReachableWithoutIps asciiEnv run2 :=
  reachableWithoutIps_run1.step (StepWithoutIps.Update (w := run1) 2 200 (by decide) rfl)

/-- Witness for C20: the sample run after `Update` is a life without IPs; its current
version is at address 1 and its proposed version at address 2, and neither carries an IP. -/
theorem no_ips_unless_supplied_witness :
    ReachableWithoutIps asciiEnv run2 ∧ run2.app.CurrentVersion = some 1 ∧
    run2.app.ProposedVersion = some 2 ∧ (run2.heap 1).Ip = [] ∧ (run2.heap 2).Ip = [] :=
  ⟨reachableWithoutIps_run2, by decide, by decide,
    no_ips_unless_supplied asciiEnv run2 reachableWithoutIps_run2 1 (Or.inl (by decide)),
    no_ips_unless_supplied asciiEnv run2 reachableWithoutIps_run2 2 (Or.inr (by decide))⟩

/-- C20 as stated fails at two inputs. Validation accepts a replicates-mode version that
carries an IP, and `NewApp` returns for it a replicates-mode app whose current version has
that IP. The sample app is a replicates-mode app in state `normal` whose current version has
no IP; `ScaleUp` by one instance with one IP returns no error and leaves that IP in the IP
list of the current version. -/
theorem replicates_app_with_ips :
    (ipVersion.Mode = APP_MODE_REPLICATES ∧
      (validateAndFormatVersion asciiEnv (fun _ => ipVersion) 1).2 = none ∧
      ∃ w, NewApp asciiEnv (fun _ => ipVersion) [] 1 100 "cluster" none = NewAppResult.ok w ∧
        w.app.Mode = APP_MODE_REPLICATES ∧ w.app.CurrentVersion = some 1 ∧
        (w.heap 1).Ip = ["10.0.0.1"]) ∧
    (Reachable asciiEnv run1 ∧ run1.app.Mode = APP_MODE_REPLICATES ∧
      run1.app.CurrentVersion = some 1 ∧ (run1.heap 1).Ip = [] ∧
      ∃ w, ScaleUp run1 1 ["10.0.0.1"] 300 = Outcome.ok w ∧
        w.app.Mode = APP_MODE_REPLICATES ∧ w.app.CurrentVersion = some 1 ∧
        (w.heap 1).Ip = ["10.0.0.1"]) :=
  ⟨⟨rfl, by decide, _, rfl, by decide, by decide, by decide⟩,
    ⟨reachable_run1, by decide, by decide, by decide, _, rfl, by decide, by decide,
      by decide⟩⟩

/-! ## Validation twice -/

theorem formatVersion_idem (v : Version) : formatVersion (formatVersion v) = formatVersion v := by
  unfold formatVersion
  by_cases h : v.Mode.length = 0
  · rw [if_pos h]
    have hr : ¬ (APP_MODE_REPLICATES : String).length = 0 := by decide
    exact if_neg hr
  · rw [if_neg h, if_neg h]

theorem formatVersion_container (v : Version) : (formatVersion v).Container = v.Container := by
  unfold formatVersion
  split_ifs <;> rfl

theorem formatAndValidate_idem (E : Env) (v : Version) :
    formatAndValidate E (formatAndValidate E v).1 = formatAndValidate E v := by
  cases hC : v.Container with
  | none => simp [formatAndValidate, hC]
  | some container =>
    cases hD : container.Docker with
    | none => simp [formatAndValidate, hC, hD]
    | some docker =>
      have h1 : formatAndValidate E v =
          (formatVersion v, validateFormatted E (formatVersion v) docker) := by
        simp [formatAndValidate, hC, hD]
      have h2 : formatAndValidate E (formatVersion v) =
          (formatVersion (formatVersion v),
            validateFormatted E (formatVersion (formatVersion v)) docker) := by
        simp [formatAndValidate, formatVersion_container, hC, hD]
      rw [h1, h2, formatVersion_idem]

/-- C21: validation idempotence. For every version object, a second run of
`validateAndFormatVersion` returns the verdict of the first run (no error, or the same error)
and leaves every version object as the first run has left it; the only change the first run
makes to a version object is to replace an empty mode by `replicates`. -/
theorem validation_idempotent (E : Env) (heap : Heap) (version : VPtr) :
    validateAndFormatVersion E (validateAndFormatVersion E heap version).1 version =
      validateAndFormatVersion E heap version ∧
    (∀ q, q ≠ version → (validateAndFormatVersion E heap version).1 q = heap q) ∧
    ((validateAndFormatVersion E heap version).1 version = heap version ∨
      ((heap version).Mode = "" ∧ (validateAndFormatVersion E heap version).1 version =
        { (heap version) with Mode := APP_MODE_REPLICATES })) := by
  refine ⟨?_, ?_, ?_⟩
  · unfold validateAndFormatVersion
    have hat : (heap.set version (formatAndValidate E (heap version)).1) version =
        (formatAndValidate E (heap version)).1 := by simp [Heap.set]
    simp only [hat, formatAndValidate_idem]
    congr 1
    funext q
    simp only [Heap.set]
    by_cases hq : q = version
    · simp [hq]
    · simp [hq]
  · intro q hq
    simp [validateAndFormatVersion, Heap.set, hq]
  · rcases validateAndFormatVersion_heap E heap version version with h | ⟨hl, h⟩
    · exact Or.inl h
    · exact Or.inr ⟨(string_length_eq_zero _).mp hl, h⟩

/-! ## Transactions -/

theorem callSlot_count_UpdateApp (w : World) (i : Int) (f : Slot → Slot) (e : Effect)
    (he : e ≠ Effect.UpdateApp) :
    (callSlot w i f e).trace.count Effect.UpdateApp = w.trace.count Effect.UpdateApp := by
  unfold callSlot
  split
  · simp only [List.count_append, List.count_cons, List.count_nil]
    rw [if_neg (by simpa using he)]
    omega
  · rfl

/-- C22: app write coalescing. Inside a transaction (`inTransaction` is set, as it is between
`BeginTx` and `Commit`) `Touch(false)` only sets the flag `touched`, and `SetState`, `SetSlot`
and `RemoveSlot` issue no `UpdateApp` write; `Touch(true)` issues one `UpdateApp` write at
once, in a transaction or not. `Commit` clears `inTransaction` and `touched` and issues one
`UpdateApp` write, whether `touched` was set or not. Outside a transaction `Touch(false)`
issues one `UpdateApp` write. -/
theorem app_write_coalescing (w : World) :
    (w.app.inTransaction = true →
      Touch w false = { w with app := { w.app with touched := true } } ∧
      (BeginTx w).app.inTransaction = true ∧
      (∀ state, (SetState w state).trace = w.trace ∧ (SetState w state).app.touched = true) ∧
      (∀ index slot, (SetSlot w index slot).trace = w.trace ∧
        (SetSlot w index slot).app.touched = true) ∧
      (∀ index, (RemoveSlot w index).trace.count Effect.UpdateApp =
          w.trace.count Effect.UpdateApp ∧
        (RemoveSlot w index).app.touched = true)) ∧
    (Touch w true).trace = w.trace ++ [Effect.UpdateApp] ∧
    ((Commit w).app.inTransaction = false ∧ (Commit w).app.touched = false ∧
      (Commit w).trace = w.trace ++ [Effect.UpdateApp]) ∧
    (w.app.inTransaction = false → (Touch w false).trace = w.trace ++ [Effect.UpdateApp]) := by
  refine ⟨fun h => ⟨?_, rfl, ?_, ?_, ?_⟩, rfl, ⟨rfl, rfl, rfl⟩, ?_⟩
  · simp [Touch, h]
  · intro state
    simp [SetState, Touch, h]
  · intro index slot
    simp [SetSlot, Touch, h]
  · intro index
    have hin : (callSlot w index id (Effect.Remove index)).app.inTransaction = true := by
      rw [callSlot_inTransaction]; exact h
    constructor
    · unfold RemoveSlot
      simp only [Touch, hin, Bool.false_eq_true, if_false, if_true]
      exact callSlot_count_UpdateApp w index id _ (by simp)
    · unfold RemoveSlot
      simp only [Touch, hin, Bool.false_eq_true, if_false, if_true]
  · intro h
    simp [Touch, h, update]

/-- Witness for C22: in a transaction on the sample app, `SetState` and the removal of slot 1
write nothing to the store. -/
theorem app_write_coalescing_witness :
    (BeginTx sampleWorld).app.inTransaction = true ∧
    (SetState (BeginTx sampleWorld) APP_STATE_MARK_FOR_SCALE_UP).trace = [] ∧
    (RemoveSlot (BeginTx sampleWorld) 1).trace.count Effect.UpdateApp = 0 :=
  ⟨rfl, (((app_write_coalescing (BeginTx sampleWorld)).1 rfl).2.2.1 _).1,
    (((app_write_coalescing (BeginTx sampleWorld)).1 rfl).2.2.2.2 1).1⟩

/-! ## Reevaluate twice -/

theorem commitProposedVersion_ne (w : World) (h : w.app.State ≠ APP_STATE_NORMAL) :
    commitProposedVersion w ≠ w := by
  intro he
  have hs := (commitProposedVersion_fields w).1
  rw [he] at hs
  exact h hs

theorem revertProposedVersion_ne (w : World) (h : w.app.State ≠ APP_STATE_NORMAL) :
    revertProposedVersion w ≠ w := by
  intro he
  have hs := (revertProposedVersion_fields w).1
  rw [he] at hs
  exact h hs

theorem SetState_normal_ne (w : World) (h : w.app.State ≠ APP_STATE_NORMAL) :
    SetState w APP_STATE_NORMAL ≠ w := by
  intro he
  have hs := SetState_state w APP_STATE_NORMAL
  rw [he] at hs
  exact h hs

theorem reevaluateSwitch_of_normal (w : World)
    (h : w.app.State = APP_STATE_NORMAL ∨ w.app.State = APP_STATE_MARK_FOR_DELETION) :
    reevaluateSwitch w = some w := by
  unfold reevaluateSwitch
  rcases h with h | h
  · rw [if_pos h]
  · rw [if_neg (by rw [h]; decide), if_pos h]

theorem reevaluateSwitch_updating (w : World)
    (hs : w.app.State = APP_STATE_MARK_FOR_UPDATING) :
    reevaluateSwitch w =
      match w.app.CurrentVersion with
      | none => none
      | some c =>
        if RollingUpdateInstances w = (w.heap c).Instances.val ∧
            RunningInstances w = (w.heap c).Instances.val then
          some (commitProposedVersion w)
        else some w := by
  unfold reevaluateSwitch
  rw [if_neg (by rw [hs]; decide), if_neg (by rw [hs]; decide), if_pos hs]

theorem reevaluateSwitch_cancel_update (w : World)
    (hs : w.app.State = APP_STATE_MARK_FOR_CANCEL_UPDATE) :
    reevaluateSwitch w =
      match w.app.slots.lookup 0 with
      | none => none
      | some slot0 =>
        match w.app.CurrentVersion with
        | none => some w
        | some c =>
          if slot0.Version = c ∧ RunningInstances w = (w.heap c).Instances.val then
            some (revertProposedVersion w)
          else some w := by
  unfold reevaluateSwitch
  rw [if_neg (by rw [hs]; decide), if_neg (by rw [hs]; decide), if_neg (by rw [hs]; decide),
    if_pos hs]

theorem reevaluateSwitch_creating (w : World)
    (hs : w.app.State = APP_STATE_MARK_FOR_CREATING) :
    reevaluateSwitch w =
      match w.app.CurrentVersion with
      | none => none
      | some c =>
        if RunningInstances w = (w.heap c).Instances.val then
          some (SetState w APP_STATE_NORMAL)
        else some w := by
  unfold reevaluateSwitch
  rw [if_neg (by rw [hs]; decide), if_neg (by rw [hs]; decide), if_neg (by rw [hs]; decide),
    if_neg (by rw [hs]; decide), if_pos hs]

theorem reevaluateSwitch_scale_up (w : World)
    (hs : w.app.State = APP_STATE_MARK_FOR_SCALE_UP) :
    reevaluateSwitch w =
      match w.app.CurrentVersion with
      | none => none
      | some c =>
        if StateIs w APP_STATE_MARK_FOR_SCALE_UP ∧
            RunningInstances w = (w.heap c).Instances.val then
          some (SetState w APP_STATE_NORMAL)
        else some w := by
  unfold reevaluateSwitch
  rw [if_neg (by rw [hs]; decide), if_neg (by rw [hs]; decide), if_neg (by rw [hs]; decide),
    if_neg (by rw [hs]; decide), if_neg (by rw [hs]; decide), if_pos hs]

theorem reevaluateSwitch_scale_down (w : World)
    (hs : w.app.State = APP_STATE_MARK_FOR_SCALE_DOWN) :
    reevaluateSwitch w =
      match w.app.CurrentVersion with
      | none => none
      | some c =>
        if (w.app.slots.entries.length : Int) = (w.heap c).Instances.val ∧
            MarkForDeletionInstances w = 0 then
          some (SetState w APP_STATE_NORMAL)
        else some w := by
  unfold reevaluateSwitch
  rw [if_neg (by rw [hs]; decide), if_neg (by rw [hs]; decide), if_neg (by rw [hs]; decide),
    if_neg (by rw [hs]; decide), if_neg (by rw [hs]; decide), if_neg (by rw [hs]; decide),
    if_pos hs]

theorem reevaluateSwitch_default (w : World)
    (h1 : w.app.State ≠ APP_STATE_NORMAL) (h2 : w.app.State ≠ APP_STATE_MARK_FOR_DELETION)
    (h3 : w.app.State ≠ APP_STATE_MARK_FOR_UPDATING)
    (h4 : w.app.State ≠ APP_STATE_MARK_FOR_CANCEL_UPDATE)
    (h5 : w.app.State ≠ APP_STATE_MARK_FOR_CREATING)
    (h6 : w.app.State ≠ APP_STATE_MARK_FOR_SCALE_UP)
    (h7 : w.app.State ≠ APP_STATE_MARK_FOR_SCALE_DOWN) :
    reevaluateSwitch w = some w := by
  unfold reevaluateSwitch
  rw [if_neg h1, if_neg h2, if_neg h3, if_neg h4, if_neg h5, if_neg h6, if_neg h7]

/-- When the switch of `Reevaluate` leaves an app as it is, it leaves every app as it is that
has the same state, current version, slots and version objects. -/
theorem reevaluateSwitch_same {w v : World} (hh : v.heap = w.heap)
    (hs : v.app.State = w.app.State) (hc : v.app.CurrentVersion = w.app.CurrentVersion)
    (hsl : v.app.slots = w.app.slots) (h : reevaluateSwitch w = some w) :
    reevaluateSwitch v = some v := by
  have e1 : RollingUpdateInstances v = RollingUpdateInstances w := by
    unfold RollingUpdateInstances; rw [hsl]
  have e2 : RunningInstances v = RunningInstances w := by
    unfold RunningInstances; rw [hsl]
  have e3 : MarkForDeletionInstances v = MarkForDeletionInstances w := by
    unfold MarkForDeletionInstances; rw [hsl]
  have e4 : ∀ s, StateIs v s = StateIs w s := by
    intro s; unfold StateIs; rw [hs]
  by_cases h1 : w.app.State = APP_STATE_NORMAL
  · exact reevaluateSwitch_of_normal v (Or.inl (hs.trans h1))
  by_cases h2 : w.app.State = APP_STATE_MARK_FOR_DELETION
  · exact reevaluateSwitch_of_normal v (Or.inr (hs.trans h2))
  have k1 := commitProposedVersion_ne w h1
  have k2 := revertProposedVersion_ne w h1
  have k3 := SetState_normal_ne w h1
  by_cases h3 : w.app.State = APP_STATE_MARK_FOR_UPDATING
  · rw [reevaluateSwitch_updating w h3] at h
    rw [reevaluateSwitch_updating v (hs.trans h3), hc, hh, e1, e2]
    cases hcv : w.app.CurrentVersion with
    | none => rw [hcv] at h; cases h
    | some c =>
      simp only [hcv] at h ⊢
      split_ifs at h ⊢ with hcond
      · exact absurd (Option.some.inj h) k1
      · rfl
  by_cases h4 : w.app.State = APP_STATE_MARK_FOR_CANCEL_UPDATE
  · rw [reevaluateSwitch_cancel_update w h4] at h
    rw [reevaluateSwitch_cancel_update v (hs.trans h4), hc, hh, hsl, e2]
    cases hl : w.app.slots.lookup 0 with
    | none => rw [hl] at h; cases h
    | some slot0 =>
      simp only [hl] at h ⊢
      cases hcv : w.app.CurrentVersion with
      | none => rfl
      | some c =>
        simp only [hcv] at h ⊢
        split_ifs at h ⊢ with hcond
        · exact absurd (Option.some.inj h) k2
        · rfl
  by_cases h5 : w.app.State = APP_STATE_MARK_FOR_CREATING
  · rw [reevaluateSwitch_creating w h5] at h
    rw [reevaluateSwitch_creating v (hs.trans h5), hc, hh, e2]
    cases hcv : w.app.CurrentVersion with
    | none => rw [hcv] at h; cases h
    | some c =>
      simp only [hcv] at h ⊢
      split_ifs at h ⊢ with hcond
      · exact absurd (Option.some.inj h) k3
      · rfl
  by_cases h6 : w.app.State = APP_STATE_MARK_FOR_SCALE_UP
  · rw [reevaluateSwitch_scale_up w h6] at h
    rw [reevaluateSwitch_scale_up v (hs.trans h6), hc, hh, e2, e4]
    cases hcv : w.app.CurrentVersion with
    | none => rw [hcv] at h; cases h
    | some c =>
      simp only [hcv] at h ⊢
      split_ifs at h ⊢ with hcond
      · exact absurd (Option.some.inj h) k3
      · rfl
  by_cases h7 : w.app.State = APP_STATE_MARK_FOR_SCALE_DOWN
  · rw [reevaluateSwitch_scale_down w h7] at h
    rw [reevaluateSwitch_scale_down v (hs.trans h7), hc, hh, hsl, e3]
    cases hcv : w.app.CurrentVersion with
    | none => rw [hcv] at h; cases h
    | some c =>
      simp only [hcv] at h ⊢
      split_ifs at h ⊢ with hcond
      · exact absurd (Option.some.inj h) k3
      · rfl
  exact reevaluateSwitch_default v (fun e => h1 (hs.symm.trans e)) (fun e => h2 (hs.symm.trans e))
    (fun e => h3 (hs.symm.trans e)) (fun e => h4 (hs.symm.trans e))
    (fun e => h5 (hs.symm.trans e)) (fun e => h6 (hs.symm.trans e))
    (fun e => h7 (hs.symm.trans e))

theorem Reevaluate_of_switch_self {w : World} (h : reevaluateSwitch w = some w) :
    Reevaluate w = some (Touch w false) := by
  unfold Reevaluate
  rw [h]
  rfl

/-- C27: `Reevaluate` is idempotent on the in-memory model. For every app on which
`Reevaluate` returns, a second `Reevaluate` that follows it with no change in between returns
too, and leaves the state, the current version, the proposed version, the history, the slots
(with their rolling-update marks) and the version objects as the first has left them: a
completed update appends the proposed version to the history once. For every app in state
`normal` or `deleting`, `Reevaluate` returns and changes none of these. -/
theorem reevaluate_idempotent (w : World) :
    (∀ w1, Reevaluate w = some w1 →
      ∃ w2, Reevaluate w1 = some w2 ∧
        w2.app.State = w1.app.State ∧ w2.app.CurrentVersion = w1.app.CurrentVersion ∧
        w2.app.ProposedVersion = w1.app.ProposedVersion ∧
        w2.app.Versions = w1.app.Versions ∧ w2.app.slots = w1.app.slots ∧
        w2.heap = w1.heap) ∧
    ((w.app.State = APP_STATE_NORMAL ∨ w.app.State = APP_STATE_MARK_FOR_DELETION) →
      ∃ w1, Reevaluate w = some w1 ∧
        w1.app.State = w.app.State ∧ w1.app.CurrentVersion = w.app.CurrentVersion ∧
        w1.app.ProposedVersion = w.app.ProposedVersion ∧
        w1.app.Versions = w.app.Versions ∧ w1.app.slots = w.app.slots ∧
        w1.heap = w.heap) := by
  have hfix : ∀ v : World, reevaluateSwitch v = some v →
      ∃ v2, Reevaluate v = some v2 ∧
        v2.app.State = v.app.State ∧ v2.app.CurrentVersion = v.app.CurrentVersion ∧
        v2.app.ProposedVersion = v.app.ProposedVersion ∧
        v2.app.Versions = v.app.Versions ∧ v2.app.slots = v.app.slots ∧
        v2.heap = v.heap := by
    intro v hv
    obtain ⟨a, b, c, d, e, -⟩ := Touch_frame v false
    exact ⟨_, Reevaluate_of_switch_self hv, b, c, d, e, Touch_slots v false, a⟩
  have hnormal : ∀ v : World, v.app.State = APP_STATE_NORMAL →
      reevaluateSwitch (Touch v false) = some (Touch v false) := by
    intro v hv
    exact reevaluateSwitch_of_normal _ (Or.inl ((Touch_state v false).trans hv))
  constructor
  · intro w1 h
    obtain ⟨w2, hsw, rfl⟩ := Reevaluate_eq h
    apply hfix
    rcases reevaluateSwitch_cases hsw with rfl | ⟨-, rfl, -⟩ | ⟨-, rfl, -⟩ | ⟨-, rfl⟩
    · obtain ⟨a, b, c, -⟩ := Touch_frame w2 false
      exact reevaluateSwitch_same a b c (Touch_slots w2 false) hsw
    · exact hnormal _ (commitProposedVersion_fields w).1
    · exact hnormal _ (revertProposedVersion_fields w).1
    · exact hnormal _ (SetState_state w _)
  · intro hs
    exact hfix w (reevaluateSwitch_of_normal w hs)

/-- Witness for C27: in the sample run, the `Reevaluate` that completes the creation of the
app returns the app in state `normal`; a second `Reevaluate` changes nothing. -/
theorem reevaluate_idempotent_witness :
    Reevaluate (allRunning run0) = some run1 ∧
    ∃ w2, Reevaluate run1 = some w2 ∧
      w2.app.State = run1.app.State ∧ w2.app.CurrentVersion = run1.app.CurrentVersion ∧
      w2.app.ProposedVersion = run1.app.ProposedVersion ∧
      w2.app.Versions = run1.app.Versions ∧ w2.app.slots = run1.app.slots ∧
      w2.heap = run1.heap :=
  ⟨rfl, (reevaluate_idempotent (allRunning run0)).1 run1 rfl⟩

/-! ## Apps of other shapes -/

theorem reachable_fixedRun0 : Reachable asciiEnv fixedRun0 :=
  Reachable.NewApp (fun _ => fixedVersion3) [] 1 100 "cluster" none rfl

theorem reachable_fixedRun1 : Reachable asciiEnv fixedRun1 :=
  (reachable_fixedRun0.step (Step.slots fixedRun0 _)).step
    (Step.Reevaluate (w := allRunning fixedRun0) rfl)

/-- C25, evaluated on a fixed-mode app: `NewApp` with a fixed-mode version of three instances
and three IPs, then `Reevaluate` once the three tasks run, gives an app in state `normal`
whose current version has as many IPs as instances. `ScaleDown(1)` returns no error and
leaves two instances and three IPs. -/
theorem scale_down_keeps_the_ips :
    Reachable asciiEnv fixedRun1 ∧ fixedRun1.app.Mode = APP_MODE_FIXED ∧
    fixedRun1.app.State = APP_STATE_NORMAL ∧ fixedRun1.app.CurrentVersion = some 1 ∧
    ((fixedRun1.heap 1).Ip.length : Int) = (fixedRun1.heap 1).Instances.val ∧
    ∃ w, ScaleDown fixedRun1 1 300 = Outcome.ok w ∧ w.app.CurrentVersion = some 1 ∧
      (w.heap 1).Instances.val = 2 ∧ (w.heap 1).Ip.length = 3 ∧
      ((w.heap 1).Ip.length : Int) ≠ (w.heap 1).Instances.val :=
  ⟨reachable_fixedRun1, by decide, by decide, by decide, by decide,
    _, rfl, by decide, by decide, by decide, by decide⟩

theorem reachable_zeroRun0 : Reachable asciiEnv zeroRun0 :=
  Reachable.NewApp zeroHeap [] 1 100 "cluster" none rfl

theorem reachable_zeroRun1 : Reachable asciiEnv zeroRun1 :=
  reachable_zeroRun0.step (Step.Reevaluate (w := zeroRun0) rfl)

theorem reachable_zeroRun2 : Reachable asciiEnv zeroRun2 :=
  reachable_zeroRun1.step (Step.Update (w := zeroRun1) 2 200 rfl)

theorem reachable_zeroRun3 : Reachable asciiEnv zeroRun3 :=
  reachable_zeroRun2.step (Step.CancelUpdate (w := zeroRun2) rfl)

/-- C26, evaluated at two inputs. A version of zero instances passes validation; `NewApp`
with it, `Reevaluate` (the app is in state `normal`), `Update` and `CancelUpdate` all return
without an error and leave an app in state `cancel_update` without a slot at index 0, on
which `Reevaluate` panics on the nil `app.slots[0]`. In the sample run of two instances, the
app is in state `cancel_update` after `CancelUpdate`; after `RemoveSlot(0)` it has no slot at
index 0 and `Reevaluate` panics in the same place. -/
theorem reevaluate_panics_without_slot_zero :
    ((zeroHeap 1).Instances.val = 0 ∧
      (validateAndFormatVersion asciiEnv zeroHeap 1).2 = none ∧
      NewApp asciiEnv zeroHeap [] 1 100 "cluster" none = NewAppResult.ok zeroRun0 ∧
      Reevaluate zeroRun0 = some zeroRun1 ∧
      Update asciiEnv zeroRun1 2 200 = Outcome.ok zeroRun2 ∧
      CancelUpdate zeroRun2 = Outcome.ok zeroRun3 ∧
      Reachable asciiEnv zeroRun3 ∧
      zeroRun3.app.State = APP_STATE_MARK_FOR_CANCEL_UPDATE ∧
      zeroRun3.app.slots.lookup 0 = none ∧
      Reevaluate zeroRun3 = none) ∧
    (Reachable asciiEnv run3 ∧ run3.app.State = APP_STATE_MARK_FOR_CANCEL_UPDATE ∧
      (RemoveSlot run3 0).app.State = APP_STATE_MARK_FOR_CANCEL_UPDATE ∧
      (RemoveSlot run3 0).app.slots.lookup 0 = none ∧
      Reevaluate (RemoveSlot run3 0) = none) :=
  ⟨⟨by decide, by decide, rfl, rfl, rfl, rfl, reachable_zeroRun3, by decide, by decide,
      rfl⟩,
    ⟨reachable_run3, by decide, by decide, by decide, rfl⟩⟩

/-- The part of C25 that the code keeps: on a fixed-mode app whose current version has as
many IPs as instances, a `ScaleUp` that returns no error leaves as many IPs as instances, as
long as the instance count stays within the range of an `int32`. -/
theorem scale_up_keeps_ip_count (w w1 : World) (c : VPtr) (delta now : Int)
    (ips : List String) (hm : w.app.Mode = APP_MODE_FIXED)
    (hc : w.app.CurrentVersion = some c)
    (hlen : ((w.heap c).Ip.length : Int) = (w.heap c).Instances.val)
    (hb : (w.heap c).Instances.val + delta ≤ 2147483647)
    (h : ScaleUp w delta ips now = Outcome.ok w1) :
    ((w1.heap c).Ip.length : Int) = (w1.heap c).Instances.val := by
  have hs : w.app.State = APP_STATE_NORMAL := (ScaleUp_ok h).1
  have hd : 0 < delta ∧ (ips.length : Int) = delta := by
    unfold ScaleUp at h
    split_ifs at h with h1 h2 h3
    refine ⟨by omega, ?_⟩
    simpa [IsFixed, hm] using h3
  obtain ⟨W, hU, hWheap, -⟩ := ScaleUp_eq w c delta now ips hs hc hd.1 (fun _ => hd.2)
  rw [hU] at h
  injection h with h
  subst h
  have hheap : (Commit (scaleUpLoop c delta.toNat W)).heap = W.heap :=
    ((scaleUpLoop_frame c _ W).trans (Commit_frame _)).1
  have h0 : 0 ≤ (w.heap c).Instances.val := by rw [← hlen]; exact Int.natCast_nonneg _
  have hdv : (int32 delta).val = delta := int32_val_of_range delta (by omega) (by omega)
  rw [hheap, hWheap]
  simp only [Heap.set, if_true, List.length_append, Nat.cast_add]
  rw [hdv, int32_val_of_range _ (by omega) hb, hlen, hd.2]

/-! ## Leadership events -/

theorem handleLeadershipEvent_cancel (m : ManagerState) (newState : LeadershipState)
    (c : Nat) :
    (handleLeadershipEvent m newState).trace.count (ManagerEffect.Cancel c) =
      m.trace.count (ManagerEffect.Cancel c) := by
  unfold handleLeadershipEvent
  by_cases h1 : newState = LeadershipState.IsLeader
  · simp [h1, WithCancel, List.count_append, List.count_cons]
  · by_cases h2 : newState = LeadershipState.IsFollower
    · simp [h2, List.count_append, List.count_cons]
    · simp [h1, h2]

/-- C24, evaluated. When the manager becomes leader and then follower, the framework is
started with the context of the first call of `context.WithCancel`, and handling the
follower event only logs a line: the cancel function of that context is not invoked. Nor is
any cancel function ever invoked: for every manager and every sequence of leadership events,
`handleLeadershipEvents` leaves the number of calls of each cancel function as it was. -/
theorem follower_event_cancels_nothing :
    (handleLeadershipEvents { contexts := 0, trace := [] }
        [LeadershipState.IsLeader, LeadershipState.IsFollower]).trace =
      [ManagerEffect.Info "Now i become a leader !!!", ManagerEffect.EventBusStart,
        ManagerEffect.WithCancel 0, ManagerEffect.FrameworkStart 0,
        ManagerEffect.Info "Now i become a follower !!!"] ∧
    ∀ (m : ManagerState) (events : List LeadershipState) (c : Nat),
      (handleLeadershipEvents m events).trace.count (ManagerEffect.Cancel c) =
        m.trace.count (ManagerEffect.Cancel c) := by
  refine ⟨by decide, ?_⟩
  intro m events c
  unfold handleLeadershipEvents
  induction events generalizing m with
  | nil => rfl
  | cons e es ih =>
    rw [List.foldl_cons, ih, handleLeadershipEvent_cancel]

/-! ## Slot writes to the store -/

/-- C23 as stated fails at two inputs. After `putSlot` of slot `0` of the app `web` into the
empty store, `removeSlot` returns no error, and a second `removeSlot`, with the slots bucket
of the app still there, returns the error `bucket not found` of the library. And `putSlot` of
a slot whose `Id` is empty returns an error the first time. -/
theorem second_remove_slot_fails :
    ((putSlot sampleStoreEnv emptyTree storedSlot).2 = none ∧
      (removeSlot sampleStoreEnv storedTree "web" "0").2 = none ∧
      GetSlotsBucket sampleStoreEnv (removeSlot sampleStoreEnv storedTree "web" "0").1 "web" =
        some ["v1", "apps", "web", "slots"] ∧
      (removeSlot sampleStoreEnv (removeSlot sampleStoreEnv storedTree "web" "0").1
        "web" "0").2 = some ErrBucketNotFound) ∧
    (putSlot sampleStoreEnv emptyTree { AppId := "web", Id := "", State := "running" }).2 =
      some ErrBucketNameRequired := by
  refine ⟨⟨by decide, by decide, by decide, by decide⟩, by decide⟩

theorem Tree.set_self (t : Tree) (path : List String) (e : Entry) (h : t path = some e) :
    t.set path e = t := by
  funext p
  unfold Tree.set
  by_cases hp : p = path
  · rw [if_pos hp, hp, h]
  · rw [if_neg hp]

/-- What a successful `createBucketIfNotExists` has done: it returns the bucket at the end
of the path, no key of the path is empty, every bucket that was there is still there, and
every bucket of the path is there. -/
theorem createBucketIfNotExists_ok (keys : List String) :
    ∀ (t : Tree) (bkt : List String) (t1 : Tree) (b : List String),
      createBucketIfNotExists t bkt keys = (t1, Except.ok b) →
      b = bkt ++ keys ∧ (∀ k ∈ keys, k ≠ "") ∧
      (∀ p, t p = some Entry.bucket → t1 p = some Entry.bucket) ∧
      (∀ pre suf, keys = pre ++ suf → pre ≠ [] → t1 (bkt ++ pre) = some Entry.bucket) := by
  induction keys with
  | nil =>
    intro t bkt t1 b h
    simp only [createBucketIfNotExists, Prod.mk.injEq, Except.ok.injEq] at h
    obtain ⟨rfl, rfl⟩ := h
    refine ⟨by simp, by simp, fun p hp => hp, ?_⟩
    intro pre suf he hne
    have : pre = [] := (List.append_eq_nil.mp he.symm).1
    exact absurd this hne
  | cons k ks ih =>
    intro t bkt t1 b h
    unfold createBucketIfNotExists at h
    have hstep : ∃ t0, t.CreateBucketIfNotExists bkt k = (t0, Except.ok (bkt ++ [k])) ∧
        k ≠ "" ∧ (∀ p, t p = some Entry.bucket → t0 p = some Entry.bucket) ∧
        t0 (bkt ++ [k]) = some Entry.bucket ∧
        createBucketIfNotExists t0 (bkt ++ [k]) ks = (t1, Except.ok b) := by
      unfold Tree.CreateBucketIfNotExists at h ⊢
      by_cases hk : k = ""
      · rw [if_pos hk] at h
        simp at h
      · rw [if_neg hk] at h ⊢
        cases hl : t (bkt ++ [k]) with
        | none =>
          simp only [hl] at h ⊢
          refine ⟨_, rfl, hk, ?_, by simp [Tree.set], h⟩
          intro p hp
          unfold Tree.set
          by_cases hpp : p = bkt ++ [k]
          · rw [if_pos hpp]
          · rw [if_neg hpp]; exact hp
        | some e =>
          cases e with
          | bucket =>
            simp only [hl] at h ⊢
            exact ⟨_, rfl, hk, fun p hp => hp, hl, h⟩
          | value d =>
            simp only [hl] at h
            simp at h
    obtain ⟨t0, -, hk, hmono, hbk, hrest⟩ := hstep
    obtain ⟨e1, e2, e3, e4⟩ := ih t0 (bkt ++ [k]) t1 b hrest
    refine ⟨by rw [e1]; simp, ?_, fun p hp => e3 p (hmono p hp), ?_⟩
    · intro x hx
      rcases List.mem_cons.mp hx with rfl | hx
      · exact hk
      · exact e2 x hx
    · intro pre suf he hne
      cases pre with
      | nil => exact absurd rfl hne
      | cons x pre1 =>
        simp only [List.cons_append, List.cons.injEq] at he
        obtain ⟨rfl, he⟩ := he
        by_cases hp1 : pre1 = []
        · subst hp1
          exact e3 _ hbk
        · have := e4 pre1 suf he hp1
          simpa using this

/-- On a tree that has every bucket of the path, `createBucketIfNotExists` changes nothing
and returns the bucket at the end of the path. -/
theorem createBucketIfNotExists_fix (keys : List String) :
    ∀ (t : Tree) (bkt : List String), (∀ k ∈ keys, k ≠ "") →
      (∀ pre suf, keys = pre ++ suf → pre ≠ [] → t (bkt ++ pre) = some Entry.bucket) →
      createBucketIfNotExists t bkt keys = (t, Except.ok (bkt ++ keys)) := by
  induction keys with
  | nil =>
    intro t bkt _ _
    simp [createBucketIfNotExists]
  | cons k ks ih =>
    intro t bkt hne hall
    have hk : k ≠ "" := hne k (List.mem_cons_self _ _)
    have hbk : t (bkt ++ [k]) = some Entry.bucket := hall [k] ks rfl (by simp)
    have hstep : t.CreateBucketIfNotExists bkt k = (t, Except.ok (bkt ++ [k])) := by
      unfold Tree.CreateBucketIfNotExists
      rw [if_neg hk]
      simp only [hbk]
    unfold createBucketIfNotExists
    rw [hstep]
    simp only
    rw [ih t (bkt ++ [k]) (fun x hx => hne x (List.mem_cons_of_mem _ hx))]
    · simp
    · intro pre suf he hp
      have := hall (k :: pre) suf (by rw [he]; rfl) (by simp)
      simpa using this

theorem putSlot_again (E : StoreEnv) (t : Tree) (slot : types.Slot)
    (h : (putSlot E t slot).2 = none) :
    putSlot E (putSlot E t slot).1 slot = ((putSlot E t slot).1, none) := by
  unfold putSlot withCreateSlotBucketIfNotExists at h ⊢
  cases hc : createBucketIfNotExists t []
      [E.bucketKeyStorageVersion, E.bucketKeyApps, slot.AppId, E.bucketKeySlots, slot.Id] with
  | mk t1 r =>
    cases r with
    | error err => rw [hc] at h; simp at h
    | ok b =>
      obtain ⟨hb, hne, -, hall⟩ := createBucketIfNotExists_ok _ t [] t1 b hc
      rw [List.nil_append] at hb
      simp only [hc] at h ⊢
      cases hm : E.Marshal slot with
      | error err => rw [hm] at h; simp at h
      | ok p =>
        simp only [hm] at h ⊢
        unfold Tree.Put at h ⊢
        by_cases h1 : E.BucketKeyData = ""
        · rw [if_pos h1] at h; simp at h
        rw [if_neg h1] at h ⊢
        by_cases h2 : E.BucketKeyData.utf8ByteSize > MaxKeySize
        · rw [if_pos h2] at h; simp at h
        rw [if_neg h2] at h ⊢
        by_cases h3 : p.utf8ByteSize > MaxValueSize
        · rw [if_pos h3] at h; simp at h
        rw [if_neg h3] at h ⊢
        by_cases h4 : t1 (b ++ [E.BucketKeyData]) = some Entry.bucket
        · rw [if_pos h4] at h; simp at h
        rw [if_neg h4]
        simp only
        have hfix : createBucketIfNotExists
            (t1.set (b ++ [E.BucketKeyData]) (Entry.value p)) []
            [E.bucketKeyStorageVersion, E.bucketKeyApps, slot.AppId, E.bucketKeySlots, slot.Id]
            = (t1.set (b ++ [E.BucketKeyData]) (Entry.value p), Except.ok b) := by
          rw [createBucketIfNotExists_fix _ _ [] hne, List.nil_append, hb]
          intro pre suf he hp
          have hlen : pre.length ≤ b.length := by
            rw [hb, he, List.length_append]; omega
          unfold Tree.set
          rw [if_neg, hall pre suf he hp]
          intro hcon
          have := congrArg List.length hcon
          simp only [List.nil_append, List.length_append, List.length_singleton] at this
          omega
        rw [hfix]
        simp only [hm]
        rw [if_neg h1, if_neg h2, if_neg h3, if_neg (by simp [Tree.set])]
        rw [Tree.set_self _ _ _ (by simp [Tree.set])]

theorem getBucket_eq (keys : List String) :
    ∀ (t : Tree) (bkt b : List String), getBucket t bkt keys = some b → b = bkt ++ keys := by
  induction keys with
  | nil =>
    intro t bkt b h
    simp only [getBucket, Option.some.injEq] at h
    rw [← h, List.append_nil]
  | cons k ks ih =>
    intro t bkt b h
    unfold getBucket Tree.Bucket at h
    split_ifs at h with hb
    simp only at h
    rw [ih t (bkt ++ [k]) b h]
    simp

theorem getBucket_congr (keys : List String) :
    ∀ (t v : Tree) (bkt : List String),
      (∀ p : List String, p.length ≤ bkt.length + keys.length → v p = t p) →
      getBucket v bkt keys = getBucket t bkt keys := by
  induction keys with
  | nil => intro t v bkt _; rfl
  | cons k ks ih =>
    intro t v bkt h
    unfold getBucket Tree.Bucket
    rw [h (bkt ++ [k]) (by simp)]
    split_ifs with hb
    · simp only
      exact ih t v (bkt ++ [k]) (fun p hp => h p (by
        simp only [List.length_append, List.length_singleton, List.length_cons,
          List.length_nil] at hp ⊢
        omega))
    · rfl

/-- What `removeSlot` does a second time: the tree stays as the first call has left it, and
when the first call has deleted the bucket of the slot, the second call returns the error
`bucket not found`. -/
theorem removeSlot_again (E : StoreEnv) (t : Tree) (appId slotId : String) :
    (removeSlot E (removeSlot E t appId slotId).1 appId slotId).1 =
      (removeSlot E t appId slotId).1 ∧
    (GetSlotsBucket E t appId ≠ none → (removeSlot E t appId slotId).2 = none →
      (removeSlot E (removeSlot E t appId slotId).1 appId slotId).2 =
        some ErrBucketNotFound) ∧
    (GetSlotsBucket E t appId = none →
      (removeSlot E t appId slotId).2 = none ∧
      (removeSlot E (removeSlot E t appId slotId).1 appId slotId).2 = none) := by
  cases hg : GetSlotsBucket E t appId with
  | none =>
    have h1 : removeSlot E t appId slotId = (t, none) := by
      unfold removeSlot; rw [hg]
    rw [h1]
    simp only [h1]
    exact ⟨trivial, fun hc => absurd rfl hc, fun _ => ⟨trivial, trivial⟩⟩
  | some b =>
    have hb : b = [] ++ [E.bucketKeyStorageVersion, E.bucketKeyApps, appId, E.bucketKeySlots] :=
      getBucket_eq _ t [] b hg
    have hblen : b.length = 4 := by rw [hb]; rfl
    have h1 : removeSlot E t appId slotId = t.DeleteBucket b slotId := by
      unfold removeSlot; rw [hg]
    rw [h1]
    unfold Tree.DeleteBucket
    cases hl : t (b ++ [slotId]) with
    | none =>
      simp only
      have h2 : removeSlot E t appId slotId = (t, some ErrBucketNotFound) := by
        rw [h1]; unfold Tree.DeleteBucket; simp only [hl]
      rw [h2]
      exact ⟨rfl, fun _ hc => by simp at hc, fun hc => by simp at hc⟩
    | some e =>
      cases e with
      | value d =>
        simp only
        have h2 : removeSlot E t appId slotId = (t, some ErrIncompatibleValue) := by
          rw [h1]; unfold Tree.DeleteBucket; simp only [hl]
        rw [h2]
        exact ⟨rfl, fun _ hc => by simp at hc, fun hc => by simp at hc⟩
      | bucket =>
        simp only
        have hg2 : GetSlotsBucket E
            (fun p => if p.take (b ++ [slotId]).length = b ++ [slotId] then none else t p)
            appId = some b := by
          rw [← hg]
          unfold GetSlotsBucket
          apply getBucket_congr
          intro p hp
          rw [if_neg]
          intro hcon
          have := congrArg List.length hcon
          simp only [List.length_take, List.length_append, List.length_singleton,
            List.length_nil, List.length_cons] at this hp
          omega
        have h3 : removeSlot E
            (fun p => if p.take (b ++ [slotId]).length = b ++ [slotId] then none else t p)
            appId slotId =
            (fun p => if p.take (b ++ [slotId]).length = b ++ [slotId] then none else t p,
              some ErrBucketNotFound) := by
          unfold removeSlot
          rw [hg2]
          unfold Tree.DeleteBucket
          simp
        rw [h3]
        exact ⟨rfl, fun _ _ => rfl, fun hc => by simp at hc⟩

/-- C23, as amended: for every store content and every slot for which `putSlot` returns no
error, a second `putSlot` returns no error and leaves the bucket tree as it is after the
first. For every store content, `removeSlot` applied twice leaves the bucket tree as it is
after applying it once; when the app has no slots bucket, both calls return no error, and
when it has one and the first call returns no error, the second call finds the bucket of
the slot gone and returns the error `bucket not found` of the library. -/
theorem slot_writes_replay (E : StoreEnv) (t : Tree) :
    (∀ slot, (putSlot E t slot).2 = none →
      putSlot E (putSlot E t slot).1 slot = ((putSlot E t slot).1, none)) ∧
    (∀ appId slotId,
      (removeSlot E (removeSlot E t appId slotId).1 appId slotId).1 =
        (removeSlot E t appId slotId).1 ∧
      (GetSlotsBucket E t appId = none →
        (removeSlot E t appId slotId).2 = none ∧
        (removeSlot E (removeSlot E t appId slotId).1 appId slotId).2 = none) ∧
      (GetSlotsBucket E t appId ≠ none → (removeSlot E t appId slotId).2 = none →
        (removeSlot E (removeSlot E t appId slotId).1 appId slotId).2 =
          some ErrBucketNotFound)) :=
  ⟨fun slot h => putSlot_again E t slot h, fun appId slotId =>
    ⟨(removeSlot_again E t appId slotId).1, (removeSlot_again E t appId slotId).2.2,
      (removeSlot_again E t appId slotId).2.1⟩⟩

/-- Witness for C23: `putSlot` of the stored sample slot into the empty store returns no
error, and a second `putSlot` changes nothing; `removeSlot` of the slot returns no error, and
a second `removeSlot` returns `bucket not found`. -/
theorem slot_writes_replay_witness :
    putSlot sampleStoreEnv storedTree storedSlot = (storedTree, none) ∧
    (removeSlot sampleStoreEnv (removeSlot sampleStoreEnv storedTree "web" "0").1
      "web" "0").2 = some ErrBucketNotFound :=
  ⟨(slot_writes_replay sampleStoreEnv emptyTree).1 storedSlot (by decide),
    ((slot_writes_replay sampleStoreEnv storedTree).2 "web" "0").2.2 (by decide) (by decide)⟩

end Swan
